import Mathlib

/-! naROOTo getdents interception and registry: a shallow embedding

Source files embedded here: `src/final/getdents.c`, `src/final/include.h`,
`src/final/control.c`.

Conventions of the embedding.

* Memory is a list of bytes (`List Nat`); an address inside the user buffer
  `dirp` is an offset into that list.  An access outside the list is a fault
  and makes the embedded function return `none`.
* `struct linux_dirent` (include.h) on x86_64: `d_ino` at bytes 0..7, `d_off`
  at 8..15, the `unsigned short d_reclen` at 16..17 (little endian) and
  `d_name` from byte 18 on, a NUL-terminated string.
* C `int` is 32 bits: the assignment `tlen = retv` from `long` to `int` is
  the truncation `toInt32`.
* Loops that the C code runs without a bound take a fuel argument; running
  out of fuel is `none`.
* Function pointers are values of `Handler`.
* A string argument is the list of its bytes before the NUL; a NULL pointer
  is `none`.
* A kernel list is the Lean list of its records from the head on: `list_add`
  is `::`, `list_for_each` runs from the head.
* `kmalloc` returns NULL (`none`) or a block that is not zeroed (`some junk`:
  `junk` is what the old bytes of the block read as where a copy stops).
-/

namespace Rootkit

/-! ## Machine integers and memory -/

/-- Conversion of a C `long` to a 32-bit `int` (two's complement truncation). -/
def toInt32 (x : Int) : Int :=
  (x + 2147483648) % 4294967296 - 2147483648

/-- The field `dirp->d_reclen`: the unsigned short at bytes 16 and 17 of the
record that starts at offset `dirp`. -/
def d_reclen (mem : List Nat) (dirp : Nat) : Option Nat :=
  match mem[dirp + 16]?, mem[dirp + 17]? with
  | some lo, some hi => some ((lo + 256 * hi) % 65536)
  | _, _ => none

/-- The C string that starts at offset `p`: the bytes up to the first NUL.
Running off the end of memory without meeting a NUL is a fault. -/
def cstring (mem : List Nat) (p : Nat) : Option (List Nat) :=
  if 0 ∈ mem.drop p then some ((mem.drop p).takeWhile (fun b => b != 0)) else none

/-- The field `dirp->d_name`, read as a C string (what `strcpy` and
`convert_atoi` see): it starts at byte 18 of the record. -/
def d_name (mem : List Nat) (dirp : Nat) : Option (List Nat) :=
  cstring mem (dirp + 18)

/-- The call `memmove(dst, src, n)` inside the buffer, `n` being an `int`
converted to `size_t`: a negative `n` or a range outside memory is a fault. -/
def memmove (mem : List Nat) (dst src : Nat) (n : Int) : Option (List Nat) :=
  if 0 ≤ n ∧ src + n.toNat ≤ mem.length ∧ dst + n.toNat ≤ mem.length then
    some (mem.take dst ++ (mem.drop src).take n.toNat ++ mem.drop (dst + n.toNat))
  else none

/-! ## The filtering loop of `manipulated_getdents` -/

/-- Local variables of `manipulated_getdents` while the loop runs, with the
buffer they point into.  `evaluated` is a ghost field: the names on which the
hide decision has been evaluated so far, oldest first. -/
structure LoopState where
  mem : List Nat
  dirp : Nat
  tlen : Int
  len : Int
  retv : Int
  evaluated : List (List Nat)
deriving DecidableEq, Repr

/-- One pass through the body of `while (tlen > 0) ...` (getdents.c 271-290).
The decision `check_hide_process(fd, dirp->d_name) || check_hide_loop(path)`
reaches the record only through `d_name`; it is the parameter `hide`. -/
def loop_body (hide : List Nat → Bool) (s : LoopState) : Option LoopState :=
  match d_reclen s.mem s.dirp, d_name s.mem s.dirp with
  | some reclen, some name =>
    let len : Int := reclen
    let tlen : Int := s.tlen - len
    if hide name then
      match memmove s.mem s.dirp (s.dirp + reclen) tlen with
      | some mem1 =>
        some { mem := mem1, dirp := s.dirp, tlen := tlen, len := len,
               retv := s.retv - len, evaluated := s.evaluated ++ [name] }
      | none => none
    else if tlen ≠ 0 then
      some { mem := s.mem, dirp := s.dirp + reclen, tlen := tlen, len := len,
             retv := s.retv, evaluated := s.evaluated ++ [name] }
    else
      some { mem := s.mem, dirp := s.dirp, tlen := tlen, len := len,
             retv := s.retv, evaluated := s.evaluated ++ [name] }
  | _, _ => none

/-- The loop `while (tlen > 0) ...`, at most `fuel` passes. -/
def filter_loop (hide : List Nat → Bool) : Nat → LoopState → Option LoopState
  | 0, s => if s.tlen > 0 then none else some s
  | fuel + 1, s =>
    if s.tlen > 0 then
      match loop_body hide s with
      | some s1 => filter_loop hide fuel s1
      | none => none
    else some s

/-! ## Global state of getdents.c -/

/-- A system-call handler address: the wrapper of this module or a kernel
function. -/
inductive Handler where
  | manipulated_getdents
  | kernel (addr : Nat)
deriving DecidableEq, Repr

/-- Index of getdents in the system-call table (x86_64). -/
def NR_getdents : Nat := 78

/-- Index of readlink in the system-call table (x86_64). -/
def NR_readlink : Nat := 89

/-- The file-level variables of getdents.c, with the system-call table and
the write-protection state of its page. -/
structure Globals where
  sys_call_table : Nat → Handler
  original_getdents : Handler
  syscall_readlink : Handler
  getdents_hooked : Nat
  getdents_call_counter : Int
  page_protection : Bool

/-- The macro `INCREASE_CALL_COUNTER` (include.h 44-47): `counter++` under
the spinlock. -/
def INCREASE_CALL_COUNTER (g : Globals) : Globals :=
  { g with getdents_call_counter := g.getdents_call_counter + 1 }

/-- The macro `DECREASE_CALL_COUNTER` (include.h 50-53): `counter--` under
the spinlock. -/
def DECREASE_CALL_COUNTER (g : Globals) : Globals :=
  { g with getdents_call_counter := g.getdents_call_counter - 1 }

/-- A statement of `manipulated_getdents` as the ghost trace of a call
records it: a write of `getdents_call_counter` (with the value written), the
call through `original_getdents`, the evaluation of the hide decision on a
record name. -/
inductive CallEvent where
  | counter_write (v : Int)
  | call_original
  | decision (name : List Nat)
deriving DecidableEq, Repr

/-- The values written to `getdents_call_counter` in a trace, in order. -/
def counter_writes : List CallEvent → List Int
  | [] => []
  | CallEvent.counter_write v :: t => v :: counter_writes t
  | CallEvent.call_original :: t => counter_writes t
  | CallEvent.decision _ :: t => counter_writes t

/-- What one call of `manipulated_getdents` leaves behind: the globals, the
returned value, the user buffer, the ghost list of evaluated names, and the
ghost trace of the call: its counter writes, its call of the original and
its evaluations of the decision, in program order. -/
structure CallResult where
  globals : Globals
  retv : Int
  mem : List Nat
  evaluated : List (List Nat)
  trace : List CallEvent

/-- The body of `manipulated_getdents` between the two counter macros
(getdents.c 248-292).  `original fd mem count` is what the call through
`original_getdents` returns and the buffer it leaves.  The `path` buffer
(lines 253-268 and 275-278) is written from `get_path` and `d_name` and read
only by `check_hide_loop`; it belongs to the decision `hide`. -/
def getdents_body (original : Nat → List Nat → Nat → Int × List Nat)
    (hide : List Nat → Bool) (fuel : Nat) (fd : Nat) (mem : List Nat) (count : Nat) :
    Option LoopState :=
  let r := original fd mem count
  filter_loop hide fuel
    { mem := r.2, dirp := 0, tlen := toInt32 r.1, len := 0, retv := r.1, evaluated := [] }

/-- The function `manipulated_getdents` (getdents.c 240-297). -/
def manipulated_getdents (original : Nat → List Nat → Nat → Int × List Nat)
    (hide : List Nat → Bool) (fuel : Nat) (g : Globals) (fd : Nat) (mem : List Nat)
    (count : Nat) : Option CallResult :=
  let g1 := INCREASE_CALL_COUNTER g
  match getdents_body original hide fuel fd mem count with
  | some s =>
    let g2 := DECREASE_CALL_COUNTER g1
    some { globals := g2, retv := s.retv, mem := s.mem, evaluated := s.evaluated,
           trace := [CallEvent.counter_write g1.getdents_call_counter,
               CallEvent.call_original]
             ++ s.evaluated.map CallEvent.decision
             ++ [CallEvent.counter_write g2.getdents_call_counter] }
  | none => none

/-! ## Well-formed buffers -/

/-- A well-formed record as the kernel's getdents lays it out: its
`d_reclen` field holds its own length in bytes (so the 18-byte header lies
inside it and `d_reclen > 0`) and its name is NUL-terminated inside it. -/
def wf_record (r : List Nat) : Prop :=
  d_reclen r 0 = some r.length ∧ 0 ∈ r.drop 18

instance : DecidablePred wf_record := fun r => by
  unfold wf_record
  infer_instance

/-- The name stored in a record: its bytes from offset 18 up to the NUL. -/
def record_name (r : List Nat) : List Nat :=
  (r.drop 18).takeWhile (fun b => b != 0)

/-- The records that a hide decision leaves visible, in their order. -/
def kept (hide : List Nat → Bool) (recs : List (List Nat)) : List (List Nat) :=
  recs.filter (fun r => !hide (record_name r))

/-- The sum of the `d_reclen` fields of a list of records. -/
def reclen_sum (recs : List (List Nat)) : Nat :=
  (recs.map (fun r => (d_reclen r 0).getD 0)).sum

/-! ## Installing and removing the hook -/

/-- Modelled from the spec: `disable_page_protection` is declared in
include.h and defined outside the listed sources; it "disables write
protection on the table". -/
def disable_page_protection (g : Globals) : Globals :=
  { g with page_protection := false }

/-- Modelled from the spec: `enable_page_protection` is declared in include.h
and defined outside the listed sources; it "re-enables write protection". -/
def enable_page_protection (g : Globals) : Globals :=
  { g with page_protection := true }

/-- The assignment `sys_call_table[nr] = h`. -/
def set_entry (g : Globals) (nr : Nat) (h : Handler) : Globals :=
  { g with sys_call_table := fun n => if n = nr then h else g.sys_call_table n }

/-- The function `hook_getdents` (getdents.c 302-330).  It returns `void`
and tests nothing before it writes.  `spin_lock_init` touches only the lock,
which has no state here. -/
def hook_getdents (g : Globals) : Globals :=
  let g1 := { g with syscall_readlink := g.sys_call_table NR_readlink }
  let g2 := disable_page_protection g1
  let g3 := { g2 with original_getdents := g2.sys_call_table NR_getdents }
  let g4 := set_entry g3 NR_getdents Handler.manipulated_getdents
  let g5 := enable_page_protection g4
  { g5 with getdents_hooked := 1 }

/-- The loop `while (getdents_call_counter > 0) msleep(2);` run with nothing
else running: `msleep` changes no variable of this file. -/
def drain : Nat → Globals → Option Globals
  | 0, g => if g.getdents_call_counter > 0 then none else some g
  | fuel + 1, g => if g.getdents_call_counter > 0 then drain fuel g else some g

/-- The function `unhook_getdents` (getdents.c 335-366), run with nothing
else running. -/
def unhook_getdents (fuel : Nat) (g : Globals) : Option Globals :=
  if g.getdents_hooked = 0 then some g
  else
    let g1 := disable_page_protection g
    let g2 := set_entry g1 NR_getdents g1.original_getdents
    let g3 := enable_page_protection g2
    let g4 := { g3 with getdents_hooked := 0 }
    drain fuel g4

/-- The arguments of one sequential invocation of the wrapper, with the
behaviour of the original call and the hide decision in force during it. -/
structure Invocation where
  original : Nat → List Nat → Nat → Int × List Nat
  hide : List Nat → Bool
  fuel : Nat
  fd : Nat
  mem : List Nat
  count : Nat

/-- A sequence of invocations of `manipulated_getdents`, each one completed
before the next starts; `none` if one of them does not return. -/
def run_invocations : List Invocation → Globals → Option Globals
  | [], g => some g
  | c :: cs, g =>
    match manipulated_getdents c.original c.hide c.fuel g c.fd c.mem c.count with
    | some res => run_invocations cs res.globals
    | none => none

/-! ## Interleaved execution of the wrapper and of `unhook_getdents` -/

/-- Where one invocation of `manipulated_getdents` stands: dispatched through
the table but before `INCREASE_CALL_COUNTER`, between the two counter macros,
or past `DECREASE_CALL_COUNTER`. -/
inductive ThreadPc where
  | dispatched
  | inside
  | returned
deriving DecidableEq, Repr

/-- Where the thread running `unhook_getdents` stands: before the test of
`getdents_hooked` (line 340), before the table write (351), before
`getdents_hooked = 0` (357), at the test of the `while` (360), or returned. -/
inductive UnhookPc where
  | check
  | restore
  | clear
  | poll
  | done
deriving DecidableEq, Repr

/-- The globals together with the threads that act on them. -/
structure System where
  globals : Globals
  threads : List ThreadPc
  unhook : UnhookPc

/-- The atomic steps a scheduler can pick. -/
inductive Action where
  | syscall
  | enter (i : Nat)
  | leave (i : Nat)
  | unhook
deriving DecidableEq, Repr

/-- One step of `unhook_getdents` on the globals: the new globals and the
next program point. -/
def unhook_step (g : Globals) : UnhookPc → Globals × UnhookPc
  | .check => if g.getdents_hooked = 0 then (g, .done) else (disable_page_protection g, .restore)
  | .restore =>
    (enable_page_protection (set_entry g NR_getdents g.original_getdents), .clear)
  | .clear => ({ g with getdents_hooked := 0 }, .poll)
  | .poll => if g.getdents_call_counter > 0 then (g, .poll) else (g, .done)
  | .done => (g, .done)

/-- One atomic step.  `syscall`: a process issues getdents and is dispatched
through the table; only an entry that is the wrapper starts an invocation.
`enter i` and `leave i`: invocation `i` runs `INCREASE_CALL_COUNTER`,
respectively `DECREASE_CALL_COUNTER` and the return.  An action that is not
enabled gives `none`. -/
def step (a : Action) (s : System) : Option System :=
  match a with
  | .syscall =>
    if s.globals.sys_call_table NR_getdents = Handler.manipulated_getdents then
      some { s with threads := s.threads ++ [ThreadPc.dispatched] }
    else some s
  | .enter i =>
    if s.threads[i]? = some ThreadPc.dispatched then
      some { s with globals := INCREASE_CALL_COUNTER s.globals,
                    threads := s.threads.set i ThreadPc.inside }
    else none
  | .leave i =>
    if s.threads[i]? = some ThreadPc.inside then
      some { s with globals := DECREASE_CALL_COUNTER s.globals,
                    threads := s.threads.set i ThreadPc.returned }
    else none
  | .unhook =>
    if s.unhook = UnhookPc.done then none
    else
      let r := unhook_step s.globals s.unhook
      some { s with globals := r.1, unhook := r.2 }

/-- A schedule run from a state, first action first. -/
def run : List Action → System → Option System
  | [], s => some s
  | a :: as, s =>
    match step a s with
    | some s1 => run as s1
    | none => none

/-- The hook is installed: the flag is set, the getdents entry of the table
is the wrapper and the saved original is a kernel function. -/
def installed (g : Globals) : Prop :=
  g.getdents_hooked ≠ 0 ∧
  g.sys_call_table NR_getdents = Handler.manipulated_getdents ∧
  g.original_getdents ≠ Handler.manipulated_getdents

/-- What holds of the globals at each program point of `unhook_getdents`
when it was called on an installed hook whose saved original is `o0`. -/
def restore_ok (o0 : Handler) (g : Globals) : UnhookPc → Prop
  | .check => g.getdents_hooked ≠ 0
  | .restore => True
  | .clear => g.sys_call_table NR_getdents = o0
  | .poll => g.sys_call_table NR_getdents = o0 ∧ g.getdents_hooked = 0
  | .done => g.sys_call_table NR_getdents = o0 ∧ g.getdents_hooked = 0

/-- The invariant of a system in which `unhook_getdents` runs on a hook
whose saved original is `o0`. -/
def restore_inv (o0 : Handler) (s : System) : Prop :=
  s.globals.original_getdents = o0 ∧ restore_ok o0 s.globals s.unhook

/-- What ties the call counter to the invocations in flight; `ts0` is the
list of invocations at the moment `unhook_getdents` was called. -/
def drain_inv (ts0 : List ThreadPc) (s : System) : Prop :=
  s.globals.getdents_call_counter = (s.threads.count ThreadPc.inside : Int) ∧
  (∀ i : Nat, ts0[i]? = some ThreadPc.inside →
    s.threads[i]? = some ThreadPc.inside ∨ s.threads[i]? = some ThreadPc.returned) ∧
  (s.unhook = UnhookPc.check → s.globals.getdents_hooked ≠ 0) ∧
  (s.unhook = UnhookPc.done →
    ∀ i : Nat, ts0[i]? = some ThreadPc.inside → s.threads[i]? = some ThreadPc.returned)

/-! ## Path levels and the test of hidden name beginnings -/

/-- The byte of the delimiter `'/'`. -/
def delimiter : Nat := 47

/-- An `int` passed where a `size_t` is expected (64 bits). -/
def to_size_t (n : Int) : Nat :=
  (n % 18446744073709551616).toNat

/-- The kernel library `strnchr(s, count, c)`: the offset of the first `c`
among the first `count` bytes of the string `s`, or `none` for NULL. -/
def strnchr : List Nat → Nat → Nat → Option Nat
  | [], _, _ => none
  | _ :: _, 0, _ => none
  | b :: s, count + 1, c => if b = c then some 0 else (strnchr s count c).map (fun i => i + 1)

/-- The kernel library `strstr(s1, s2)`: the offset of the first occurrence
of `s2` in `s1`, or `none` for NULL. -/
def strstr : List Nat → List Nat → Option Nat
  | [], s2 => if s2 = [] then some 0 else none
  | b :: s1, s2 =>
    if s2.isPrefixOf (b :: s1) then some 0 else (strstr s1 s2).map (fun i => i + 1)

/-- The function `get_next_level` (getdents.c 54-86).  A string is the list
of its bytes before the NUL, `none` is NULL; the result is the returned
pointer, as the rest of the string it points at, and the new `*buflen`. -/
def get_next_level (path : Option (List Nat)) (buflen : Int) : Option (List Nat) × Int :=
  match path with
  | none => (none, buflen)
  | some p =>
    match strnchr p (to_size_t buflen) delimiter with
    | none => (none, buflen)
    | some i =>
      if (p.drop i).length > 1 then
        let buflen1 := toInt32 (buflen - toInt32 ((i : Int) + 1))
        if buflen1 < 0 then (none, buflen1) else (some (p.drop (i + 1)), buflen1)
      else (none, buflen)

/-- The `list_for_each` of `check_hide_fprefix` (getdents.c 122-128): does
some registered name satisfy `strstr(d_name, cur->name) == d_name`? -/
def list_match (names : List (List Nat)) (d_name : List Nat) : Bool :=
  names.any (fun name => strstr d_name name == some 0)

/-- The `do ... while (d_name != NULL)` of `check_hide_fprefix`, at most
`fuel` passes: the returned value and the final `*buflen`. -/
def fprefix_loop (names : List (List Nat)) : Nat → List Nat → Int → Option (Int × Int)
  | 0, _, _ => none
  | fuel + 1, d_name, buflen =>
    if list_match names d_name then some (1, buflen)
    else
      match get_next_level (some d_name) buflen with
      | (some next, buflen1) => fprefix_loop names fuel next buflen1
      | (none, buflen1) => some (0, buflen1)

/-- The function `check_hide_fprefix` (getdents.c 107-136); `names` is the
list behind `get_prefix_list()`. -/
def check_hide_fprefix (names : List (List Nat)) (fuel : Nat) (path : Option (List Nat))
    (buflen : Int) : Option (Int × Int) :=
  match path with
  | none => some (0, buflen)
  | some p => fprefix_loop names fuel p buflen

/-- The words of the specification for the test of hidden name beginnings:
some registered name begins the path itself or begins a non-empty rest of
the path that starts right after a `'/'`. -/
def spec_hidden_by_level (names : List (List Nat)) (path : List Nat) : Prop :=
  ∃ name ∈ names, name <+: path ∨
    ∃ a b, path = a ++ delimiter :: b ∧ b ≠ [] ∧ name <+: b

/-! ## The registry of control.c -/

/-- The error number `EPERM`. -/
def EPERM : Int := 1

/-- The error number `ENOMEM`. -/
def ENOMEM : Int := 12

/-- The error number `EINVAL`. -/
def EINVAL : Int := 22

/-- The kernel library `strcmp` on strings given as the lists of their bytes
before the NUL: 0 for equal strings, -1 or 1 otherwise. -/
def strcmp : List Nat → List Nat → Int
  | [], [] => 0
  | [], _ :: _ => -1
  | _ :: _, [] => 1
  | a :: s, b :: t => if a = b then strcmp s t else if a < b then -1 else 1

/-- A record of the list `port_knocking_enabled`. -/
structure port_knocking where
  port : Int
  protocol : Int
  ipaddr : Nat
deriving DecidableEq, Repr

/-- A record of the list `escalated_pids`: a process id and its saved ids. -/
structure escalated_pid where
  pid : Int
  uid : Nat
  euid : Nat
  suid : Nat
  fsuid : Nat
  gid : Nat
  egid : Nat
  sgid : Nat
  fsgid : Nat
deriving DecidableEq, Repr

/-- The file-level variables of control.c.  A kernel list is the Lean list of
its records from the head on; a stored name is the string its record holds. -/
structure Control where
  ctrl_loaded : Int
  paths : List (List Nat)
  prefixes : List (List Nat)
  processes : List Int
  tcp_sockets : List Int
  udp_sockets : List Int
  knocking_tcp_ports : List Int
  knocking_udp_ports : List Int
  hidden_services : List Int
  hidden_ips : List Nat
  modules : List (List Nat)
  port_knocking_enabled : List port_knocking
  escalated_pids : List escalated_pid
deriving DecidableEq, Repr

/-- The function `control_loaded` (control.c 48-52). -/
def control_loaded (c : Control) : Int :=
  c.ctrl_loaded

/-- The loop `list_for_each_safe` of the remove functions: the list without
its first record that satisfies `p`, or `none` when no record does. -/
def list_del_first {α : Type} (p : α → Bool) : List α → Option (List α)
  | [] => none
  | x :: xs => if p x then some xs else (list_del_first p xs).map (fun l => x :: l)

/-- The call `strncpy(new->name, name, n)` into a record fresh from `kmalloc`,
read back as a string: a name shorter than `n` is copied with its NUL; of a
longer or equally long name `n` bytes are copied and no NUL is written, so
the string runs on into `junk`, the bytes the block held before. -/
def strncpy_fresh (junk : List Nat) (name : List Nat) (n : Nat) : List Nat :=
  if name.length < n then name else name.take n ++ junk

/-- The function `is_path_hidden` (control.c 54-72); `none` is NULL. -/
def is_path_hidden (c : Control) (name : Option (List Nat)) : Int :=
  match name with
  | none => 0
  | some n => if c.paths.any (fun cur => strcmp cur n == 0) then 1 else 0

/-- The function `hide_file_path` (control.c 74-94).  `kmalloc` is what the
allocation returns: `none` for NULL, `some junk` for a block whose old bytes
read `junk` where `strncpy` stops. -/
def hide_file_path (c : Control) (kmalloc : Option (List Nat)) (name : List Nat) :
    Int × Control :=
  if control_loaded c = 0 then (-EPERM, c)
  else if name.length > 1023 ∨ is_path_hidden c (some name) ≠ 0 then (-EINVAL, c)
  else
    match kmalloc with
    | none => (-ENOMEM, c)
    | some junk => (0, { c with paths := strncpy_fresh junk name 1023 :: c.paths })

/-- The function `unhide_file_path` (control.c 96-115). -/
def unhide_file_path (c : Control) (name : List Nat) : Int × Control :=
  if control_loaded c = 0 then (-EPERM, c)
  else
    match list_del_first (fun cur => strcmp cur name == 0) c.paths with
    | some l => (0, { c with paths := l })
    | none => (-EINVAL, c)

/-- The function `get_prefix_list` (control.c 117-121). -/
def get_prefix_list (c : Control) : List (List Nat) :=
  c.prefixes

/-- The function `is_prefix_hidden` (control.c 123-139). -/
def is_prefix_hidden (c : Control) (name : Option (List Nat)) : Int :=
  match name with
  | none => 0
  | some n => if c.prefixes.any (fun cur => strcmp cur n == 0) then 1 else 0

/-- The function `hide_file_prefix` (control.c 141-162). -/
def hide_file_prefix (c : Control) (kmalloc : Option (List Nat)) (name : List Nat) :
    Int × Control :=
  if control_loaded c = 0 then (-EPERM, c)
  else if name.length > 63 ∨ is_prefix_hidden c (some name) ≠ 0 then (-EINVAL, c)
  else
    match kmalloc with
    | none => (-ENOMEM, c)
    | some junk => (0, { c with prefixes := strncpy_fresh junk name 63 :: c.prefixes })

/-- The function `unhide_file_prefix` (control.c 164-183). -/
def unhide_file_prefix (c : Control) (name : List Nat) : Int × Control :=
  if control_loaded c = 0 then (-EPERM, c)
  else
    match list_del_first (fun cur => strcmp cur name == 0) c.prefixes with
    | some l => (0, { c with prefixes := l })
    | none => (-EINVAL, c)

/-- A task of the kernel: its `pid` field and its `parent` pointer, an
address or `none` for NULL. -/
structure task_struct where
  pid : Int
  parent : Option Nat
deriving DecidableEq, Repr

/-- The process table: `find_task pid` is `pid_task(find_vpid(pid),
PIDTYPE_PID)`, an address or `none` for NULL, and `task` is the memory that
holds the tasks. -/
structure ProcessTable where
  find_task : Int → Option Nat
  task : Nat → task_struct

/-- The `do ... while (task != NULL && task->pid != 0)` of
`is_process_hidden` (control.c 198-207) from the task at address `t`, at most
`fuel` passes. -/
def process_walk (c : Control) (pt : ProcessTable) : Nat → Nat → Option Int
  | 0, _ => none
  | fuel + 1, t =>
    if c.processes.any (fun cur => cur == (pt.task t).pid) then some 1
    else
      match (pt.task t).parent with
      | none => some 0
      | some t1 => if (pt.task t1).pid ≠ 0 then process_walk c pt fuel t1 else some 0

/-- The function `is_process_hidden` (control.c 185-209). -/
def is_process_hidden (c : Control) (pt : ProcessTable) (fuel : Nat) (pid : Int) :
    Option Int :=
  match pt.find_task pid with
  | none => some (-EINVAL)
  | some t => process_walk c pt fuel t

/-- The function `hide_process` (control.c 211-231). -/
def hide_process (c : Control) (pt : ProcessTable) (fuel : Nat)
    (kmalloc : Option (List Nat)) (pid : Int) : Option (Int × Control) :=
  if control_loaded c = 0 then some (-EPERM, c)
  else
    match is_process_hidden c pt fuel pid with
    | none => none
    | some r =>
      if r ≠ 0 ∨ pid < 0 then some (-EINVAL, c)
      else
        match kmalloc with
        | none => some (-ENOMEM, c)
        | some _ => some (0, { c with processes := pid :: c.processes })

/-- The function `unhide_process` (control.c 233-252). -/
def unhide_process (c : Control) (pid : Int) : Int × Control :=
  if control_loaded c = 0 then (-EPERM, c)
  else
    match list_del_first (fun cur => cur == pid) c.processes with
    | some l => (0, { c with processes := l })
    | none => (-EINVAL, c)

/-- The function `is_tcp_socket_hidden` (control.c 254-267). -/
def is_tcp_socket_hidden (c : Control) (port : Int) : Int :=
  if c.tcp_sockets.any (fun cur => cur == port) then 1 else 0

/-- The function `hide_tcp_socket` (control.c 269-289); `kmalloc` is `none` when the
allocation returns NULL. -/
def hide_tcp_socket (c : Control) (kmalloc : Option (List Nat)) (port : Int) : Int × Control :=
  if control_loaded c = 0 then (-EPERM, c)
  else if is_tcp_socket_hidden c port ≠ 0 ∨ port ≤ 0 ∨ port > 65535 then (-EINVAL, c)
  else
    match kmalloc with
    | none => (-ENOMEM, c)
    | some _ => (0, { c with tcp_sockets := port :: c.tcp_sockets })

/-- The function `unhide_tcp_socket` (control.c 291-310). -/
def unhide_tcp_socket (c : Control) (port : Int) : Int × Control :=
  if control_loaded c = 0 then (-EPERM, c)
  else
    match list_del_first (fun cur => cur == port) c.tcp_sockets with
    | some l => (0, { c with tcp_sockets := l })
    | none => (-EINVAL, c)

/-- The function `is_udp_socket_hidden` (control.c 312-325). -/
def is_udp_socket_hidden (c : Control) (port : Int) : Int :=
  if c.udp_sockets.any (fun cur => cur == port) then 1 else 0

/-- The function `hide_udp_socket` (control.c 327-347); `kmalloc` is `none` when the
allocation returns NULL. -/
def hide_udp_socket (c : Control) (kmalloc : Option (List Nat)) (port : Int) : Int × Control :=
  if control_loaded c = 0 then (-EPERM, c)
  else if is_udp_socket_hidden c port ≠ 0 ∨ port ≤ 0 ∨ port > 65535 then (-EINVAL, c)
  else
    match kmalloc with
    | none => (-ENOMEM, c)
    | some _ => (0, { c with udp_sockets := port :: c.udp_sockets })

/-- The function `unhide_udp_socket` (control.c 349-368). -/
def unhide_udp_socket (c : Control) (port : Int) : Int × Control :=
  if control_loaded c = 0 then (-EPERM, c)
  else
    match list_del_first (fun cur => cur == port) c.udp_sockets with
    | some l => (0, { c with udp_sockets := l })
    | none => (-EINVAL, c)

/-- The function `is_knocked_tcp` (control.c 370-383). -/
def is_knocked_tcp (c : Control) (port : Int) : Int :=
  if c.knocking_tcp_ports.any (fun cur => cur == port) then 1 else 0

/-- The function `enable_knocking_tcp` (control.c 385-405); `kmalloc` is `none` when the
allocation returns NULL. -/
def enable_knocking_tcp (c : Control) (kmalloc : Option (List Nat)) (port : Int) : Int × Control :=
  if control_loaded c = 0 then (-EPERM, c)
  else if is_knocked_tcp c port ≠ 0 ∨ port ≤ 0 ∨ port > 65535 then (-EINVAL, c)
  else
    match kmalloc with
    | none => (-ENOMEM, c)
    | some _ => (0, { c with knocking_tcp_ports := port :: c.knocking_tcp_ports })

/-- The function `disable_knocking_tcp` (control.c 407-426). -/
def disable_knocking_tcp (c : Control) (port : Int) : Int × Control :=
  if control_loaded c = 0 then (-EPERM, c)
  else
    match list_del_first (fun cur => cur == port) c.knocking_tcp_ports with
    | some l => (0, { c with knocking_tcp_ports := l })
    | none => (-EINVAL, c)

/-- The function `is_knocked_udp` (control.c 428-444); unlike its siblings it
tests `control_loaded` first. -/
def is_knocked_udp (c : Control) (port : Int) : Int :=
  if control_loaded c = 0 then -EPERM
  else if c.knocking_udp_ports.any (fun cur => cur == port) then 1 else 0

/-- The function `enable_knocking_udp` (control.c 446-466). -/
def enable_knocking_udp (c : Control) (kmalloc : Option (List Nat)) (port : Int) :
    Int × Control :=
  if control_loaded c = 0 then (-EPERM, c)
  else if is_knocked_udp c port ≠ 0 ∨ port ≤ 0 ∨ port > 65535 then (-EINVAL, c)
  else
    match kmalloc with
    | none => (-ENOMEM, c)
    | some _ => (0, { c with knocking_udp_ports := port :: c.knocking_udp_ports })

/-- The function `disable_knocking_udp` (control.c 468-487). -/
def disable_knocking_udp (c : Control) (port : Int) : Int × Control :=
  if control_loaded c = 0 then (-EPERM, c)
  else
    match list_del_first (fun cur => cur == port) c.knocking_udp_ports with
    | some l => (0, { c with knocking_udp_ports := l })
    | none => (-EINVAL, c)

/-- The function `is_service_hidden` (control.c 489-502). -/
def is_service_hidden (c : Control) (port : Int) : Int :=
  if c.hidden_services.any (fun cur => cur == port) then 1 else 0

/-- The function `hide_service` (control.c 504-524); `kmalloc` is `none` when the
allocation returns NULL. -/
def hide_service (c : Control) (kmalloc : Option (List Nat)) (port : Int) : Int × Control :=
  if control_loaded c = 0 then (-EPERM, c)
  else if is_service_hidden c port ≠ 0 ∨ port ≤ 0 ∨ port > 65535 then (-EINVAL, c)
  else
    match kmalloc with
    | none => (-ENOMEM, c)
    | some _ => (0, { c with hidden_services := port :: c.hidden_services })

/-- The function `unhide_service` (control.c 526-545). -/
def unhide_service (c : Control) (port : Int) : Int × Control :=
  if control_loaded c = 0 then (-EPERM, c)
  else
    match list_del_first (fun cur => cur == port) c.hidden_services with
    | some l => (0, { c with hidden_services := l })
    | none => (-EINVAL, c)

/-- The function `is_ip_hidden` (control.c 547-560); an address is a `__u32`. -/
def is_ip_hidden (c : Control) (ipaddr : Nat) : Int :=
  if c.hidden_ips.any (fun cur => cur == ipaddr) then 1 else 0

/-- The function `hide_ip_address` (control.c 562-582). -/
def hide_ip_address (c : Control) (kmalloc : Option (List Nat)) (ipaddr : Nat) :
    Int × Control :=
  if control_loaded c = 0 then (-EPERM, c)
  else if is_ip_hidden c ipaddr ≠ 0 then (-EINVAL, c)
  else
    match kmalloc with
    | none => (-ENOMEM, c)
    | some _ => (0, { c with hidden_ips := ipaddr :: c.hidden_ips })

/-- The function `unhide_ip_address` (control.c 584-603). -/
def unhide_ip_address (c : Control) (ipaddr : Nat) : Int × Control :=
  if control_loaded c = 0 then (-EPERM, c)
  else
    match list_del_first (fun cur => cur == ipaddr) c.hidden_ips with
    | some l => (0, { c with hidden_ips := l })
    | none => (-EINVAL, c)

/-- The function `is_module_hidden` (control.c 605-621). -/
def is_module_hidden (c : Control) (name : Option (List Nat)) : Int :=
  match name with
  | none => 0
  | some n => if c.modules.any (fun cur => strcmp cur n == 0) then 1 else 0

/-- The function `hide_module` (control.c 623-643): the test allows 63
characters, the copy is `strncpy(new->name, name, 1023)`. -/
def hide_module (c : Control) (kmalloc : Option (List Nat)) (name : List Nat) :
    Int × Control :=
  if control_loaded c = 0 then (-EPERM, c)
  else if name.length > 63 ∨ is_module_hidden c (some name) ≠ 0 then (-EINVAL, c)
  else
    match kmalloc with
    | none => (-ENOMEM, c)
    | some junk => (0, { c with modules := strncpy_fresh junk name 1023 :: c.modules })

/-- The function `unhide_module` (control.c 645-664). -/
def unhide_module (c : Control) (name : List Nat) : Int × Control :=
  if control_loaded c = 0 then (-EPERM, c)
  else
    match list_del_first (fun cur => strcmp cur name == 0) c.modules with
    | some l => (0, { c with modules := l })
    | none => (-EINVAL, c)

/-- An `int` compared with a `__u32`: its value as 32 unsigned bits. -/
def to_u32 (x : Int) : Nat :=
  (x % 4294967296).toNat

/-- The function `is_port_filtered` (control.c 666-683). -/
def is_port_filtered (c : Control) (port protocol ipaddr : Int) : Int :=
  if c.port_knocking_enabled.any
      (fun cur => cur.port == port && cur.protocol == protocol && cur.ipaddr != to_u32 ipaddr)
  then 1 else 0

/-- The function `filter_port` (control.c 685-710). -/
def filter_port (c : Control) (kmalloc : Option (List Nat)) (port protocol : Int)
    (ipaddr : Nat) : Int × Control :=
  if control_loaded c = 0 then (-EPERM, c)
  else if ipaddr = 0 then (-EINVAL, c)
  else if is_port_filtered c port protocol 0 ≠ 0 then (-EINVAL, c)
  else
    match kmalloc with
    | none => (-ENOMEM, c)
    | some _ =>
      (0, { c with port_knocking_enabled :=
        { port := port, protocol := protocol, ipaddr := ipaddr } :: c.port_knocking_enabled })

/-- The function `unfilter_port` (control.c 712-732). -/
def unfilter_port (c : Control) (port protocol : Int) : Int × Control :=
  if control_loaded c = 0 then (-EPERM, c)
  else
    match list_del_first (fun cur => cur.port == port && cur.protocol == protocol)
        c.port_knocking_enabled with
    | some l => (0, { c with port_knocking_enabled := l })
    | none => (-EINVAL, c)

/-- The function `is_shell_escalated` (control.c 734-750): the record found,
or `none` for NULL. -/
def is_shell_escalated (c : Control) (pid : Int) : Option escalated_pid :=
  if pid = 0 then none
  else c.escalated_pids.find? (fun cur => cur.pid == pid)

/-- The function `escalate` (control.c 752-782); `id` is the record behind
the argument pointer. -/
def escalate (c : Control) (kmalloc : Option (List Nat)) (id : escalated_pid) :
    Int × Control :=
  if control_loaded c = 0 then (-EPERM, c)
  else if (is_shell_escalated c id.pid).isNone then
    match kmalloc with
    | none => (-ENOMEM, c)
    | some _ => (0, { c with escalated_pids := id :: c.escalated_pids })
  else (-EINVAL, c)

/-- The function `deescalate` (control.c 784-803). -/
def deescalate (c : Control) (pid : Int) : Int × Control :=
  if control_loaded c = 0 then (-EPERM, c)
  else
    match list_del_first (fun cur => cur.pid == pid) c.escalated_pids with
    | some l => (0, { c with escalated_pids := l })
    | none => (-EINVAL, c)

/-- The function `initialize_control` (control.c 805-826): every list head is
initialised, whatever it held, and the flag is set. -/
def initialize_control (_c : Control) : Control :=
  { ctrl_loaded := 1, paths := [], prefixes := [], processes := [], tcp_sockets := [],
    udp_sockets := [], knocking_tcp_ports := [], knocking_udp_ports := [],
    hidden_services := [], hidden_ips := [], modules := [], port_knocking_enabled := [],
    escalated_pids := [] }

/-- The function `cleanup_control` (control.c 828-935): the flag is cleared
and every record of every list is deleted. -/
def cleanup_control (_c : Control) : Control :=
  { ctrl_loaded := 0, paths := [], prefixes := [], processes := [], tcp_sockets := [],
    udp_sockets := [], knocking_tcp_ports := [], knocking_udp_ports := [],
    hidden_services := [], hidden_ips := [], modules := [], port_knocking_enabled := [],
    escalated_pids := [] }

/-- The variables of control.c when the module is loaded into the kernel:
the flag is a zero-initialised static. -/
def control_at_load : Control :=
  { ctrl_loaded := 0, paths := [], prefixes := [], processes := [], tcp_sockets := [],
    udp_sockets := [], knocking_tcp_ports := [], knocking_udp_ports := [],
    hidden_services := [], hidden_ips := [], modules := [], port_knocking_enabled := [],
    escalated_pids := [] }

/-- A call of one of the mutators of the registry, with its arguments and
with what its allocation returns. -/
inductive Mutator where
  | hide_path (kmalloc : Option (List Nat)) (name : List Nat)
  | unhide_path (name : List Nat)
  | hide_name_start (kmalloc : Option (List Nat)) (name : List Nat)
  | unhide_name_start (name : List Nat)
  | hide_proc (pt : ProcessTable) (fuel : Nat) (kmalloc : Option (List Nat)) (pid : Int)
  | unhide_proc (pid : Int)
  | hide_tcp (kmalloc : Option (List Nat)) (port : Int)
  | unhide_tcp (port : Int)
  | hide_udp (kmalloc : Option (List Nat)) (port : Int)
  | unhide_udp (port : Int)
  | knock_tcp (kmalloc : Option (List Nat)) (port : Int)
  | unknock_tcp (port : Int)
  | knock_udp (kmalloc : Option (List Nat)) (port : Int)
  | unknock_udp (port : Int)
  | hide_svc (kmalloc : Option (List Nat)) (port : Int)
  | unhide_svc (port : Int)
  | hide_ip (kmalloc : Option (List Nat)) (ipaddr : Nat)
  | unhide_ip (ipaddr : Nat)
  | hide_mod (kmalloc : Option (List Nat)) (name : List Nat)
  | unhide_mod (name : List Nat)
  | filter (kmalloc : Option (List Nat)) (port protocol : Int) (ipaddr : Nat)
  | unfilter (port protocol : Int)
  | esc (kmalloc : Option (List Nat)) (id : escalated_pid)
  | deesc (pid : Int)

/-- The call a `Mutator` stands for: the returned value and the registry
after it, `none` when the call does not return. -/
def call (m : Mutator) (c : Control) : Option (Int × Control) :=
  match m with
  | .hide_path k name => some (hide_file_path c k name)
  | .unhide_path name => some (unhide_file_path c name)
  | .hide_name_start k name => some ( hide_file_prefix c k name)
  | .unhide_name_start name => some ( unhide_file_prefix c name)
  | .hide_proc pt fuel k pid => hide_process c pt fuel k pid
  | .unhide_proc pid => some (unhide_process c pid)
  | .hide_tcp k port => some (hide_tcp_socket c k port)
  | .unhide_tcp port => some (unhide_tcp_socket c port)
  | .hide_udp k port => some (hide_udp_socket c k port)
  | .unhide_udp port => some (unhide_udp_socket c port)
  | .knock_tcp k port => some (enable_knocking_tcp c k port)
  | .unknock_tcp port => some (disable_knocking_tcp c port)
  | .knock_udp k port => some (enable_knocking_udp c k port)
  | .unknock_udp port => some (disable_knocking_udp c port)
  | .hide_svc k port => some (hide_service c k port)
  | .unhide_svc port => some (unhide_service c port)
  | .hide_ip k ipaddr => some (hide_ip_address c k ipaddr)
  | .unhide_ip ipaddr => some (unhide_ip_address c ipaddr)
  | .hide_mod k name => some (hide_module c k name)
  | .unhide_mod name => some (unhide_module c name)
  | .filter k port protocol ipaddr => some (filter_port c k port protocol ipaddr)
  | .unfilter port protocol => some (unfilter_port c port protocol)
  | .esc k id => some (escalate c k id)
  | .deesc pid => some (deescalate c pid)

/-- A sequence of mutator calls, first call first: the registry after the
last, `none` when one of the calls does not return. -/
def calls : List Mutator → Control → Option Control
  | [], c => some c
  | m :: ms, c =>
    match call m c with
    | some r => calls ms r.2
    | none => none

/-- A registry state reached from `initialize_control` through mutator
calls. -/
def reachable (c : Control) : Prop :=
  ∃ (c0 : Control) (ms : List Mutator), calls ms (initialize_control c0) = some c

/-- What every reachable list `port_knocking_enabled` satisfies: no record
holds the address 0 and no two records share port and protocol. -/
def knock_inv (l : List port_knocking) : Prop :=
  (∀ e ∈ l, e.ipaddr ≠ 0) ∧
  l.Pairwise (fun a b => ¬ (a.port = b.port ∧ a.protocol = b.protocol))

/-- What every reachable list `escalated_pids` satisfies: a process id other
than 0 has at most one record. -/
def escalated_inv (l : List escalated_pid) : Prop :=
  ∀ pid : Int, pid ≠ 0 → (l.filter (fun e => e.pid == pid)).length ≤ 1

/-- The tasks the walk of `is_process_hidden` visits from the task at `t`:
`t` itself, and from a visited task its parent, when there is one and its
pid is not 0. -/
inductive Reached (pt : ProcessTable) : Nat → Nat → Prop where
  | here (t : Nat) : Reached pt t t
  | up (t t1 x : Nat) : (pt.task t).parent = some t1 → (pt.task t1).pid ≠ 0 →
      Reached pt t1 x → Reached pt t x

/-- The parent chain from the task at `t` is finite: within `n` steps it
meets a task without parent or a parent with pid 0. -/
def chain_ends (pt : ProcessTable) : Nat → Nat → Bool
  | 0, _ => false
  | n + 1, t =>
    match (pt.task t).parent with
    | none => true
    | some t1 => (pt.task t1).pid == 0 || chain_ends pt n t1

/-- The words of the specification for the process test: the process or an
ancestor in its parent chain is a registered hidden pid. -/
def spec_process_hidden (c : Control) (pt : ProcessTable) (t : Nat) : Prop :=
  ∃ x, Reached pt t x ∧ (pt.task x).pid ∈ c.processes

/-! ## The tests of getdents.c on one record -/

/-- The function `check_hide_fpath` (getdents.c 93-101). -/
def check_hide_fpath (c : Control) (path : Option (List Nat)) : Int :=
  match path with
  | none => 0
  | some p => is_path_hidden c (some p)

/-- The call `strncpy(dst, src, n)` into a block of `n` bytes, read back as
a string: a source shorter than `n` is copied whole; otherwise the block
holds no NUL and reading it as a string leaves the block, a fault. -/
def strncpy_string (src : List Nat) (n : Nat) : Option (List Nat) :=
  if src.length < n then some src else none

/-- The string in `lpath` after lines 210-220 of getdents.c: the block of
1024 bytes is zeroed, the readlink call, which returned `lpath_len`, has
written the bytes `written` (at most 1023 of them), and
`memset(lpath + lpath_len + 1, 0, 1)` has zeroed one byte.  When
`lpath_len + 1` is not an offset inside the block that byte lies outside it
and is not tracked here. -/
def lpath_string (lpath_len : Int) (written : List Nat) : List Nat :=
  let lpath := (written.take 1023 ++ List.replicate 1024 0).take 1024
  let lpath1 :=
    if 0 ≤ lpath_len + 1 ∧ lpath_len + 1 < 1024 then lpath.set (lpath_len + 1).toNat 0
    else lpath
  lpath1.takeWhile (fun b => b != 0)

/-- The `do ... while (lpath_len > 0)` of `check_hide_loop` (getdents.c
197-227), at most `fuel` passes.  `readlink p` is what the call through
`syscall_readlink` on the path `p` returns and the bytes it writes.  The
integer `*curpath_len` is handed from pass to pass as the code leaves it. -/
def hide_loop (c : Control) (readlink : List Nat → Int × List Nat) :
    Nat → List Nat → Int → Option Int
  | 0, _, _ => none
  | fuel + 1, curpath, curpath_len =>
    if check_hide_fpath c (some curpath) ≠ 0 then some 1
    else
      match check_hide_fprefix (get_prefix_list c) (curpath.length + 1) (some curpath)
          curpath_len with
      | none => none
      | some (r, curpath_len1) =>
        if r ≠ 0 then some 1
        else
          match strncpy_string (lpath_string (readlink curpath).1 (readlink curpath).2) 1024 with
          | none => none
          | some curpath1 =>
            if (readlink curpath).1 > 0 then hide_loop c readlink fuel curpath1 curpath_len1
            else some 0

/-- The function `check_hide_loop` (getdents.c 179-234), its three
allocations succeeding: `*curpath_len = 1024` is set once, before the loop. -/
def check_hide_loop (c : Control) (readlink : List Nat → Int × List Nat) (fuel : Nat)
    (path : List Nat) : Option Int :=
  match strncpy_string path 1024 with
  | none => none
  | some curpath => hide_loop c readlink fuel curpath 1024

/-- The path that lines 197-227 follow from `p`: what the next pass tests
when readlink on `p` returns a value above 0. -/
def next_hop (readlink : List Nat → Int × List Nat) (p : List Nat) : List Nat :=
  lpath_string (readlink p).1 (readlink p).2

/-- What the wrapper calls outside getdents.c and control.c.  `get_path fd`
is the value `get_path(fd, buf, 1024)` returns together with the 1024 bytes
of `buf` afterwards; `get_path` and `convert_atoi` are declared in include.h
and defined outside the listed sources. -/
structure Helpers where
  get_path : Nat → Int × List Nat
  convert_atoi : List Nat → Int
  readlink : List Nat → Int × List Nat
  tasks : ProcessTable

/-- The kernel library `strncmp` on strings: 0 when the first `n` bytes
agree (or the strings end together before that), -1 or 1 otherwise. -/
def strncmp : List Nat → List Nat → Nat → Int
  | _, _, 0 => 0
  | [], [], _ + 1 => 0
  | [], _ :: _, _ + 1 => -1
  | _ :: _, [], _ + 1 => 1
  | a :: s, b :: t, n + 1 => if a = b then strncmp s t n else if a < b then -1 else 1

/-- The function `check_hide_process` (getdents.c 142-177), its allocation
succeeding; the string in `dir` is the bytes of the buffer before its first
NUL. -/
def check_hide_process (h : Helpers) (c : Control) (fuel : Nat) (fd : Nat)
    (d_name : List Nat) : Option Int :=
  let ret := (h.get_path fd).1
  let dir := (h.get_path fd).2.takeWhile (fun b => b != 0)
  if ret ≤ 0 then some 0
  else if strncmp dir [47, 112, 114, 111, 99] 5 = 0 then
    is_process_hidden c h.tasks fuel (h.convert_atoi d_name)
  else some 0

/-- A write of the bytes `data` at offset `off` of a block; a write that
leaves the block is a fault. -/
def write_bytes (mem : List Nat) (off : Int) (data : List Nat) : Option (List Nat) :=
  if 0 ≤ off ∧ off.toNat + data.length ≤ mem.length then
    some (mem.take off.toNat ++ data ++ mem.drop (off.toNat + data.length))
  else none

/-- Lines 263-268 of getdents.c on the block `path` that `get_path` filled:
the block afterwards and `offset`. -/
def terminate_path (path : List Nat) (path_len : Int) : Option (List Nat × Int) :=
  if path_len > 0 then
    match path[(path_len - 1).toNat]? with
    | none => none
    | some b =>
      if b ≠ delimiter then (write_bytes path path_len [delimiter]).map (fun p => (p, 1))
      else some (path, 0)
  else some (path, 0)

/-- Lines 275-278 of getdents.c: `strcpy(path + path_len + offset, d_name)`
and the `memset` of the NUL behind it. -/
def append_name (path : List Nat) (path_len offset : Int) (name : List Nat) :
    Option (List Nat) :=
  match write_bytes path (path_len + offset) (name ++ [0]) with
  | none => none
  | some p => write_bytes p (path_len + offset + name.length) [0]

/-- The string that `manipulated_getdents` builds in `path` for a record and
hands to `check_hide_loop`.  The bytes an earlier record left in the block
lie behind the NUL of this one, so the string is the same in every pass. -/
def record_path (h : Helpers) (fd : Nat) (name : List Nat) : Option (List Nat) :=
  match terminate_path (h.get_path fd).2 (h.get_path fd).1 with
  | none => none
  | some (path, offset) =>
    match append_name path (h.get_path fd).1 offset name with
    | none => none
    | some path1 => cstring path1 0

/-- The decision of lines 275-282 for a record with the name `name`: the
path is built, then `check_hide_process(fd, d_name) || check_hide_loop(path)`
is evaluated; `none` when a step faults or does not return. -/
def record_decision (h : Helpers) (c : Control) (fuel : Nat) (fd : Nat) (name : List Nat) :
    Option Bool :=
  match record_path h fd name with
  | none => none
  | some path =>
    match check_hide_process h c fuel fd name with
    | none => none
    | some p =>
      if p ≠ 0 then some true
      else
        match check_hide_loop c h.readlink fuel path with
        | none => none
        | some l => some (l != 0)

/-! ## The credentials of privilege_escalation.c -/

/-- The eight ids of a `struct cred` (the `val` of each `kuid_t`,
`kgid_t`). -/
structure cred where
  uid : Nat
  euid : Nat
  suid : Nat
  fsuid : Nat
  gid : Nat
  egid : Nat
  sgid : Nat
  fsgid : Nat
deriving DecidableEq, Repr

/-- The calling task `current`: its pid and its credentials. -/
structure Current where
  pid : Int
  cred : cred
deriving DecidableEq, Repr

/-- The function `priv_escalation` (privilege_escalation.c 32-72), with
`prepare_creds` succeeding: `pcred` starts as a copy of the credentials of
`current` and `commit_creds(pcred)` installs it.  `kmalloc_id` is what the
allocation of `id_struct` returns (NULL is then dereferenced: a fault) and
`kmalloc_rec` what the allocation inside `escalate` returns.  The result is
the returned value, the registry and the calling task afterwards. -/
def priv_escalation (c : Control) (cur : Current) (kmalloc_id kmalloc_rec : Option (List Nat)) :
    Option (Int × Control × Current) :=
  let pcred := cur.cred
  if (is_shell_escalated c cur.pid).isNone then
    match kmalloc_id with
    | none => none
    | some _ =>
      let id_struct : escalated_pid :=
        { pid := cur.pid, uid := pcred.uid, euid := pcred.euid, suid := pcred.suid,
          fsuid := pcred.fsuid, gid := pcred.gid, egid := pcred.egid, sgid := pcred.sgid,
          fsgid := pcred.fsgid }
      let pcred1 : cred :=
        { uid := 0, euid := 0, suid := 0, fsuid := 0, gid := 0, egid := 0, sgid := 0,
          fsgid := 0 }
      let cur1 : Current := { cur with cred := pcred1 }
      let r := escalate c kmalloc_rec id_struct
      some (r.1, r.2, cur1)
  else some (-EINVAL, c, cur)

/-- The function `priv_deescalation` (privilege_escalation.c 75-106), with
`prepare_creds` succeeding. -/
def priv_deescalation (c : Control) (cur : Current) : Int × Control × Current :=
  match is_shell_escalated c cur.pid with
  | some id_struct =>
    let pcred1 : cred :=
      { uid := id_struct.uid, euid := id_struct.euid, suid := id_struct.suid,
        fsuid := id_struct.fsuid, gid := id_struct.gid, egid := id_struct.egid,
        sgid := id_struct.sgid, fsgid := id_struct.fsgid }
    let cur1 : Current := { cur with cred := pcred1 }
    let r := deescalate c cur.pid
    (r.1, r.2, cur1)
  | none => (-EINVAL, c, cur)

/-- The credentials of root: all eight ids 0. -/
def root_cred : cred :=
  { uid := 0, euid := 0, suid := 0, fsuid := 0, gid := 0, egid := 0, sgid := 0, fsgid := 0 }

/-! ## The passes of the filtering loop -/

/-- The state in which `manipulated_getdents` enters its loop (getdents.c
245-268) when the original call returned `r.1` and left `r.2` in the
buffer: the cursor at the start, `tlen = retv`. -/
def loop_entry (r : Int × List Nat) : LoopState :=
  { mem := r.2, dirp := 0, tlen := toInt32 r.1, len := 0, retv := r.1, evaluated := [] }

/-- The first `k` passes of the loop of `manipulated_getdents` (getdents.c
270-290) from the state `s`: the state at the loop test after them, `none`
when the loop has ended or faulted before the pass `k`. -/
def loop_iter (hide : List Nat → Bool) : Nat → LoopState → Option LoopState
  | 0, s => some s
  | k + 1, s =>
    if s.tlen > 0 then
      match loop_body hide s with
      | some s1 => loop_iter hide k s1
      | none => none
    else none

/-! ## Sample data -/

/-- A record with the given name and total length: header bytes, the length
field, the name, a NUL and padding. -/
def sample_record (name : List Nat) (len : Nat) : List Nat :=
  let body := List.replicate 16 7 ++ [len % 256, len / 256] ++ name ++ [0]
  body ++ List.replicate (len - body.length) 9

/-- Globals of a module that has not installed its hook. -/
def sample_globals : Globals :=
  { sys_call_table := fun n => Handler.kernel n, original_getdents := Handler.kernel 0,
    syscall_readlink := Handler.kernel 0, getdents_hooked := 0,
    getdents_call_counter := 0, page_protection := true }

/-- Two invocations in flight on an installed hook, `unhook_getdents` just
called. -/
def sample_system : System :=
  { globals := { hook_getdents sample_globals with getdents_call_counter := 2 },
    threads := [ThreadPc.inside, ThreadPc.inside], unhook := UnhookPc.check }

/-- The bytes of an ASCII string. -/
def bytes (s : String) : List Nat :=
  s.toList.map Char.toNat

/-- A loaded registry with empty lists. -/
def sample_control : Control :=
  initialize_control control_at_load

/-- A saved identity of the process 0. -/
def sample_id_zero : escalated_pid :=
  { pid := 0, uid := 1000, euid := 1000, suid := 1000, fsuid := 1000,
    gid := 100, egid := 100, sgid := 100, fsgid := 100 }

/-- A saved identity of the process 4242. -/
def sample_id : escalated_pid :=
  { pid := 4242, uid := 1000, euid := 1000, suid := 1000, fsuid := 1000,
    gid := 100, egid := 100, sgid := 100, fsgid := 100 }

/-- A process table in which a task lives at the address that is its pid:
150 is a child of 120, 120 of 100, 100 and 200 of 1, 1 of the task 0. -/
def sample_table : ProcessTable :=
  { find_task := fun p => if p ∈ [1, 100, 120, 150, 200] then some p.toNat else none,
    task := fun a =>
      { pid := a,
        parent := if a = 150 then some 120 else if a = 120 then some 100
          else if a = 100 ∨ a = 200 then some 1 else some 0 } }

/-- A directory name of 1000 characters. -/
def sample_dir : List Nat :=
  List.replicate 1000 97

/-- A path of 1003 characters: the directory `sample_dir` under the root
and the entry `l` in it. -/
def sample_long_path : List Nat :=
  delimiter :: (sample_dir ++ delimiter :: [108])

/-- The path `/bbbbbbbbbbbbbbbbbbbbbbbbbbbbbb/hid` of 35 characters. -/
def sample_target : List Nat :=
  47 :: List.replicate 30 98 ++ bytes "/hid"

/-- A readlink under which `sample_long_path` is a link to `sample_target`
and nothing else is a link (`-22` is `-EINVAL`). -/
def sample_link (p : List Nat) : Int × List Nat :=
  if p = sample_long_path then (35, sample_target) else (-22, [])

/-- A loaded registry whose only entry is the name beginning `hid`. -/
def sample_control_hid : Control :=
  { sample_control with prefixes := [bytes "hid"] }

/-- The path `/l/` followed by one byte that stands for the number `k`. -/
def sample_cycle_path (k : Nat) : List Nat :=
  [47, 108, 47, 100 + k]

/-- A readlink under which the 41 paths `sample_cycle_path 0` to
`sample_cycle_path 40` are links in a cycle, each to the next and the last
to the first, and nothing else is a link. -/
def sample_cycle_link (p : List Nat) : Int × List Nat :=
  match p with
  | [47, 108, 47, b] =>
    if 100 ≤ b ∧ b < 141 then (4, sample_cycle_path ((b - 100 + 1) % 41)) else (-22, [])
  | _ => (-22, [])

/-- Helpers for a listing of `/proc` (descriptor 3): `get_path` leaves
`/proc` in the buffer and returns 5, `convert_atoi` gives 0, no path is a
link, and the tasks are those of `sample_table`, none of them with pid 0. -/
def sample_helpers : Helpers :=
  { get_path := fun _ => (5, bytes "/proc" ++ List.replicate 1019 0),
    convert_atoi := fun _ => 0,
    readlink := fun _ => (-22, []),
    tasks := sample_table }

/-- Helpers for a listing of a directory whose path has 1000 characters. -/
def sample_helpers_deep : Helpers :=
  { get_path := fun _ => (1000, 47 :: List.replicate 999 97 ++ List.replicate 24 0),
    convert_atoi := fun _ => 0,
    readlink := fun _ => (-22, []),
    tasks := sample_table }

/-- A shell of the user 1000 with the pid 4242. -/
def sample_current : Current :=
  { pid := 4242,
    cred := { uid := 1000, euid := 1000, suid := 1000, fsuid := 1000,
              gid := 100, egid := 100, sgid := 100, fsgid := 100 } }

/-! # Theorems -/

/-! ## The filtering loop -/

theorem toInt32_of_range (x : Int) (h1 : -2147483648 ≤ x) (h2 : x < 2147483648) :
    toInt32 x = x := by
  unfold toInt32
  omega

theorem wf_record_length {r : List Nat} (h : wf_record r) : 18 < r.length := by
  have h2 := h.2
  by_contra hc
  rw [List.drop_eq_nil_of_le (by omega)] at h2
  simp at h2

theorem d_reclen_at {r : List Nat} (h : wf_record r) (K X : List Nat) :
    d_reclen (K ++ (r ++ X)) K.length = some r.length := by
  have hl := wf_record_length h
  have h1 := h.1
  unfold d_reclen at h1 ⊢
  have e16 : (K ++ (r ++ X))[K.length + 16]? = r[0 + 16]? := by
    rw [List.getElem?_append_right (by omega)]
    rw [List.getElem?_append_left (by omega)]
    congr 1
    omega
  have e17 : (K ++ (r ++ X))[K.length + 17]? = r[0 + 17]? := by
    rw [List.getElem?_append_right (by omega)]
    rw [List.getElem?_append_left (by omega)]
    congr 1
    omega
  rw [e16, e17]
  exact h1

theorem takeWhile_append_of_mem_zero (a b : List Nat) (h : 0 ∈ a) :
    (a ++ b).takeWhile (fun x => x != 0) = a.takeWhile (fun x => x != 0) := by
  induction a with
  | nil => simp at h
  | cons x xs ih =>
    by_cases hx : x = 0
    · subst hx
      simp [List.takeWhile]
    · have hm : 0 ∈ xs := by
        rcases List.mem_cons.mp h with h0 | h0
        · exact absurd h0.symm hx
        · exact h0
      simp [List.takeWhile, hx, ih hm]

theorem d_name_at {r : List Nat} (h : wf_record r) (K X : List Nat) :
    d_name (K ++ (r ++ X)) K.length = some (record_name r) := by
  have hl := wf_record_length h
  unfold d_name cstring record_name
  have e : (K ++ (r ++ X)).drop (K.length + 18) = r.drop 18 ++ X := by
    rw [List.drop_append, List.drop_append_of_le_length (by omega)]
  rw [e]
  have hm : 0 ∈ r.drop 18 ++ X := List.mem_append_left _ h.2
  rw [if_pos hm, takeWhile_append_of_mem_zero _ _ h.2]

theorem memmove_at (K r R T : List Nat) :
    memmove (K ++ (r ++ (R ++ T))) K.length (K.length + r.length) (R.length : Int)
      = some (K ++ (R ++ (r ++ (R ++ T)).drop R.length)) := by
  unfold memmove
  have hc : (0 : Int) ≤ (R.length : Int) ∧
      K.length + r.length + (R.length : Int).toNat ≤ (K ++ (r ++ (R ++ T))).length ∧
      K.length + (R.length : Int).toNat ≤ (K ++ (r ++ (R ++ T))).length := by
    simp only [List.length_append, Int.toNat_ofNat]
    omega
  rw [if_pos hc]
  simp only [Int.toNat_ofNat]
  congr 1
  have e1 : List.drop (K.length + r.length) (K ++ (r ++ (R ++ T))) = R ++ T := by
    rw [List.drop_append, List.drop_left]
  have e2 : List.drop (K.length + R.length) (K ++ (r ++ (R ++ T)))
      = List.drop R.length (r ++ (R ++ T)) := by
    rw [List.drop_append]
  rw [e1, e2, List.take_left, List.take_left, List.append_assoc]

theorem loop_body_hide (hide : List Nat → Bool) (s : LoopState) (K r Rf T : List Nat)
    (hwf : wf_record r) (hmem : s.mem = K ++ (r ++ (Rf ++ T))) (hdirp : s.dirp = K.length)
    (htlen : s.tlen = (r.length : Int) + (Rf.length : Int))
    (hh : hide (record_name r) = true) :
    loop_body hide s = some
      { mem := K ++ (Rf ++ (r ++ (Rf ++ T)).drop Rf.length), dirp := K.length,
        tlen := (Rf.length : Int), len := (r.length : Int),
        retv := s.retv - (r.length : Int),
        evaluated := s.evaluated ++ [record_name r] } := by
  unfold loop_body
  rw [hmem, hdirp, d_reclen_at hwf, d_name_at hwf]
  simp only [hh, if_true]
  have e : s.tlen - (r.length : Int) = (Rf.length : Int) := by omega
  rw [e, memmove_at]

theorem loop_body_keep (hide : List Nat → Bool) (s : LoopState) (K r Rf T : List Nat)
    (hwf : wf_record r) (hmem : s.mem = K ++ (r ++ (Rf ++ T))) (hdirp : s.dirp = K.length)
    (htlen : s.tlen = (r.length : Int) + (Rf.length : Int))
    (hh : hide (record_name r) = false) :
    loop_body hide s = some
      { mem := s.mem, dirp := if Rf.length ≠ 0 then K.length + r.length else K.length,
        tlen := (Rf.length : Int), len := (r.length : Int), retv := s.retv,
        evaluated := s.evaluated ++ [record_name r] } := by
  unfold loop_body
  rw [hmem, hdirp, d_reclen_at hwf, d_name_at hwf]
  have e : s.tlen - (r.length : Int) = (Rf.length : Int) := by omega
  simp only [hh, e]
  by_cases h0 : Rf.length = 0
  · simp [h0]
  · have h1 : ((Rf.length : Int) ≠ 0) := by omega
    simp [h0]

theorem flatten_eq_nil_of_wf (R : List (List Nat)) (hwf : ∀ r ∈ R, wf_record r)
    (h : R.flatten.length = 0) : R = [] := by
  cases R with
  | nil => rfl
  | cons r R1 =>
    have hl := wf_record_length (hwf r (List.mem_cons_self _ _))
    rw [List.flatten_cons, List.length_append] at h
    omega

theorem filter_loop_done (hide : List Nat → Bool) (fuel : Nat) (s : LoopState)
    (h : s.tlen ≤ 0) : filter_loop hide fuel s = some s := by
  have hn : ¬ (s.tlen > 0) := by omega
  cases fuel <;> simp [filter_loop, hn]

/-- The loop on a buffer that holds, from the cursor on, the well-formed
records `R`: it returns, keeps the bytes `K` before the cursor, leaves the
visible records of `R` right after them, lowers `retv` by the bytes removed
and evaluates the decision once per record, in order. -/
theorem filter_loop_spec (hide : List Nat → Bool) :
    ∀ (R : List (List Nat)) (fuel : Nat) (s : LoopState) (K T : List Nat),
      (∀ r ∈ R, wf_record r) → R.length ≤ fuel →
      s.mem = K ++ (R.flatten ++ T) → (R ≠ [] → s.dirp = K.length) →
      s.tlen = (R.flatten.length : Int) →
      ∃ s1 T1, filter_loop hide fuel s = some s1 ∧
        s1.mem = K ++ ((kept hide R).flatten ++ T1) ∧
        s1.mem.length = s.mem.length ∧
        s1.retv = s.retv - ((R.flatten.length : Int) - ((kept hide R).flatten.length : Int)) ∧
        s1.evaluated = s.evaluated ++ R.map record_name ∧
        s1.tlen = 0 ∧
        ((∀ r ∈ R, hide (record_name r) = false) → s1.mem = s.mem) := by
  intro R
  induction R with
  | nil =>
    intro fuel s K T _ _ hmem _ htlen
    refine ⟨s, T, filter_loop_done hide fuel s (by simp at htlen; omega), ?_, rfl, ?_, ?_, ?_, ?_⟩
    · simpa [kept] using hmem
    · simp [kept]
    · simp
    · simpa using htlen
    · intro _; rfl
  | cons r R1 ih =>
    intro fuel s K T hwf hfuel hmem hdirp htlen
    have hr : wf_record r := hwf r (List.mem_cons_self _ _)
    have hwf1 : ∀ x ∈ R1, wf_record x := fun x hx => hwf x (List.mem_cons_of_mem _ hx)
    have hl := wf_record_length hr
    obtain ⟨f, rfl⟩ : ∃ f, fuel = f + 1 := ⟨fuel - 1, by simp at hfuel; omega⟩
    have hf : R1.length ≤ f := by simp at hfuel; omega
    have hd : s.dirp = K.length := hdirp (by simp)
    rw [List.flatten_cons, List.append_assoc] at hmem
    rw [List.flatten_cons, List.length_append, Nat.cast_add] at htlen
    have hpos : s.tlen > 0 := by omega
    cases hh : hide (record_name r) with
    | true =>
      have hb := loop_body_hide hide s K r R1.flatten T hr hmem hd htlen hh
      obtain ⟨s1, T1, h1, h2, h3, h4, h5, h6, _⟩ := ih f
        { mem := K ++ (R1.flatten ++ (r ++ (R1.flatten ++ T)).drop R1.flatten.length),
          dirp := K.length, tlen := (R1.flatten.length : Int), len := (r.length : Int),
          retv := s.retv - (r.length : Int),
          evaluated := s.evaluated ++ [record_name r] }
        K ((r ++ (R1.flatten ++ T)).drop R1.flatten.length) hwf1 hf rfl (fun _ => rfl) rfl
      refine ⟨s1, T1, ?_, ?_, ?_, ?_, ?_, h6, ?_⟩
      · simp only [filter_loop, hpos, if_true, hb]
        exact h1
      · simpa [kept, hh] using h2
      · rw [h3, hmem]
        simp only [List.length_append, List.length_drop]
        omega
      · rw [h4]
        simp only [kept, List.filter_cons, hh, List.flatten_cons, List.length_append,
          Nat.cast_add]
        simp
        omega
      · rw [h5]
        simp
      · intro hall
        have := hall r (List.mem_cons_self _ _)
        rw [hh] at this
        exact absurd this (by simp)
    | false =>
      have hb := loop_body_keep hide s K r R1.flatten T hr hmem hd htlen hh
      have hmem2 : s.mem = (K ++ r) ++ (R1.flatten ++ T) := by
        rw [hmem, List.append_assoc]
      obtain ⟨s1, T1, h1, h2, h3, h4, h5, h6, h7⟩ := ih f
        { mem := s.mem, dirp := if R1.flatten.length ≠ 0 then K.length + r.length else K.length,
          tlen := (R1.flatten.length : Int), len := (r.length : Int), retv := s.retv,
          evaluated := s.evaluated ++ [record_name r] }
        (K ++ r) T hwf1 hf hmem2
        (fun hne => by
          have hne2 : R1.flatten.length ≠ 0 := fun h0 => hne (flatten_eq_nil_of_wf R1 hwf1 h0)
          show (if R1.flatten.length ≠ 0 then K.length + r.length else K.length)
            = (K ++ r).length
          rw [if_pos hne2, List.length_append])
        rfl
      refine ⟨s1, T1, ?_, ?_, h3, ?_, ?_, h6, ?_⟩
      · simp only [filter_loop, hpos, if_true, hb]
        exact h1
      · rw [h2]
        simp [kept, hh]
      · rw [h4]
        simp only [kept, List.filter_cons, hh, List.flatten_cons, List.length_append,
          Nat.cast_add]
        simp
      · rw [h5]
        simp
      · intro hall
        exact h7 (fun x hx => hall x (List.mem_cons_of_mem _ hx))

theorem reclen_sum_of_wf (R : List (List Nat)) (hwf : ∀ r ∈ R, wf_record r) :
    reclen_sum R = R.flatten.length := by
  induction R with
  | nil => rfl
  | cons r R1 ih =>
    have hr : wf_record r := hwf r (List.mem_cons_self _ _)
    have ih1 := ih (fun x hx => hwf x (List.mem_cons_of_mem _ hx))
    unfold reclen_sum at ih1 ⊢
    rw [List.map_cons, List.sum_cons, ih1, hr.1, List.flatten_cons, List.length_append]
    rfl

theorem kept_wf (hide : List Nat → Bool) (R : List (List Nat))
    (hwf : ∀ r ∈ R, wf_record r) : ∀ r ∈ kept hide R, wf_record r :=
  fun r hr => hwf r (List.mem_of_mem_filter hr)

theorem kept_eq_nil (hide : List Nat → Bool) (R : List (List Nat))
    (h : ∀ r ∈ R, hide (record_name r) = true) : kept hide R = [] := by
  unfold kept
  rw [List.filter_eq_nil_iff]
  intro r hr
  simp [h r hr]

/-- The whole body of the wrapper on a buffer of well-formed records. -/
theorem getdents_body_spec (original : Nat → List Nat → Nat → Int × List Nat)
    (hide : List Nat → Bool) (fd : Nat) (mem : List Nat) (count : Nat)
    (recs : List (List Nat)) (slack : List Nat) (fuel : Nat)
    (hwf : ∀ r ∈ recs, wf_record r)
    (horig : original fd mem count = ((recs.flatten.length : Int), recs.flatten ++ slack))
    (hint : recs.flatten.length < 2147483648)
    (hfuel : recs.length ≤ fuel) :
    ∃ s1 T1, getdents_body original hide fuel fd mem count = some s1 ∧
      s1.mem = (kept hide recs).flatten ++ T1 ∧
      s1.mem.length = (recs.flatten ++ slack).length ∧
      s1.retv = ((kept hide recs).flatten.length : Int) ∧
      s1.evaluated = recs.map record_name ∧
      ((∀ r ∈ recs, hide (record_name r) = false) → s1.mem = recs.flatten ++ slack) := by
  have h32 : toInt32 (recs.flatten.length : Int) = (recs.flatten.length : Int) :=
    toInt32_of_range _ (by omega) (by omega)
  obtain ⟨s1, T1, h1, h2, h3, h4, h5, _, h7⟩ := filter_loop_spec hide recs fuel
    { mem := recs.flatten ++ slack, dirp := 0, tlen := (recs.flatten.length : Int), len := 0,
      retv := (recs.flatten.length : Int), evaluated := [] }
    [] slack hwf hfuel rfl (fun _ => rfl) rfl
  refine ⟨s1, T1, ?_, ?_, h3, ?_, ?_, h7⟩
  · unfold getdents_body
    rw [horig]
    simp only [h32]
    exact h1
  · simpa using h2
  · rw [h4]
    simp
  · simpa using h5

theorem manipulated_getdents_of_body (original : Nat → List Nat → Nat → Int × List Nat)
    (hide : List Nat → Bool) (fuel : Nat) (g : Globals) (fd : Nat) (mem : List Nat)
    (count : Nat) (s : LoopState)
    (h : getdents_body original hide fuel fd mem count = some s) :
    manipulated_getdents original hide fuel g fd mem count = some
      { globals := DECREASE_CALL_COUNTER (INCREASE_CALL_COUNTER g), retv := s.retv,
        mem := s.mem, evaluated := s.evaluated,
        trace := [CallEvent.counter_write (INCREASE_CALL_COUNTER g).getdents_call_counter,
            CallEvent.call_original]
          ++ s.evaluated.map CallEvent.decision
          ++ [CallEvent.counter_write
            (DECREASE_CALL_COUNTER (INCREASE_CALL_COUNTER g)).getdents_call_counter] } := by
  simp only [manipulated_getdents, h]

/-- C1: on a buffer of well-formed records left by the original call (their
total length an `int` value), and for any hide decision,
`manipulated_getdents` returns (given fuel for one pass per record) the sum
of `d_reclen` over the records that are not hidden, and the first that-many
bytes of the buffer are those records, byte for byte and in their order; the
result is 0 when every record is hidden. -/
theorem manipulated_getdents_compacts
    (original : Nat → List Nat → Nat → Int × List Nat) (hide : List Nat → Bool)
    (g : Globals) (fd : Nat) (mem : List Nat) (count : Nat)
    (recs : List (List Nat)) (slack : List Nat) (fuel : Nat)
    (hwf : ∀ r ∈ recs, wf_record r)
    (horig : original fd mem count = ((recs.flatten.length : Int), recs.flatten ++ slack))
    (hint : recs.flatten.length < 2147483648)
    (hfuel : recs.length ≤ fuel) :
    ∃ res, manipulated_getdents original hide fuel g fd mem count = some res ∧
      res.retv = (reclen_sum (kept hide recs) : Int) ∧
      res.mem.take (reclen_sum (kept hide recs)) = (kept hide recs).flatten ∧
      ((∀ r ∈ recs, hide (record_name r) = true) → res.retv = 0) := by
  obtain ⟨s1, T1, h1, h2, _, h4, _, _⟩ :=
    getdents_body_spec original hide fd mem count recs slack fuel hwf horig hint hfuel
  have hsum := reclen_sum_of_wf (kept hide recs) (kept_wf hide recs hwf)
  refine ⟨_, manipulated_getdents_of_body original hide fuel g fd mem count s1 h1, ?_, ?_, ?_⟩
  · show s1.retv = _
    rw [h4, hsum]
  · show s1.mem.take _ = _
    rw [h2, hsum, List.take_left]
  · intro hall
    show s1.retv = 0
    rw [h4, kept_eq_nil hide recs hall]
    rfl

/-- C1 at a buffer of three records of which the middle one is hidden. -/
theorem manipulated_getdents_compacts_witness :
    ∃ res, manipulated_getdents
        (fun _ _ _ => ((([sample_record [65] 24, sample_record [66, 66] 32,
          sample_record [67] 24].flatten.length : Nat) : Int),
          [sample_record [65] 24, sample_record [66, 66] 32,
            sample_record [67] 24].flatten ++ [1, 2, 3]))
        (fun n => n == [66, 66]) 3 sample_globals 0 [] 83 = some res ∧
      res.retv = (reclen_sum (kept (fun n => n == [66, 66])
        [sample_record [65] 24, sample_record [66, 66] 32, sample_record [67] 24]) : Int) ∧
      res.mem.take (reclen_sum (kept (fun n => n == [66, 66])
        [sample_record [65] 24, sample_record [66, 66] 32, sample_record [67] 24]))
        = (kept (fun n => n == [66, 66])
          [sample_record [65] 24, sample_record [66, 66] 32, sample_record [67] 24]).flatten ∧
      ((∀ r ∈ [sample_record [65] 24, sample_record [66, 66] 32, sample_record [67] 24],
          (fun n => n == [66, 66]) (record_name r) = true) → res.retv = 0) :=
  manipulated_getdents_compacts _ (fun n => n == [66, 66]) sample_globals 0 [] 83
    [sample_record [65] 24, sample_record [66, 66] 32, sample_record [67] 24] [1, 2, 3] 3
    (by decide) rfl (by decide) (by decide)

/-- C2: on a buffer of well-formed records none of which is decided hidden,
`manipulated_getdents` returns the length the original call returned and
leaves every byte of the buffer as the original call left it. -/
theorem manipulated_getdents_none_hidden
    (original : Nat → List Nat → Nat → Int × List Nat) (hide : List Nat → Bool)
    (g : Globals) (fd : Nat) (mem : List Nat) (count : Nat)
    (recs : List (List Nat)) (slack : List Nat) (fuel : Nat)
    (hwf : ∀ r ∈ recs, wf_record r)
    (horig : original fd mem count = ((recs.flatten.length : Int), recs.flatten ++ slack))
    (hint : recs.flatten.length < 2147483648)
    (hfuel : recs.length ≤ fuel)
    (hnone : ∀ r ∈ recs, hide (record_name r) = false) :
    ∃ res, manipulated_getdents original hide fuel g fd mem count = some res ∧
      res.retv = (original fd mem count).1 ∧
      res.mem = (original fd mem count).2 := by
  obtain ⟨s1, T1, h1, _, _, h4, _, h6⟩ :=
    getdents_body_spec original hide fd mem count recs slack fuel hwf horig hint hfuel
  have hk : kept hide recs = recs := by
    unfold kept
    rw [List.filter_eq_self]
    intro r hr
    simp [hnone r hr]
  refine ⟨_, manipulated_getdents_of_body original hide fuel g fd mem count s1 h1, ?_, ?_⟩
  · show s1.retv = _
    rw [h4, hk, horig]
  · show s1.mem = _
    rw [h6 hnone, horig]

/-- C2 at a buffer of two records, nothing hidden. -/
theorem manipulated_getdents_none_hidden_witness :
    ∃ res, manipulated_getdents
        (fun _ _ _ => ((([sample_record [65] 24, sample_record [66, 66] 32].flatten.length
          : Nat) : Int),
          [sample_record [65] 24, sample_record [66, 66] 32].flatten ++ [1, 2, 3]))
        (fun _ => false) 2 sample_globals 0 [] 59 = some res ∧
      res.retv = ((fun (_ : Nat) (_ : List Nat) (_ : Nat) =>
        ((([sample_record [65] 24, sample_record [66, 66] 32].flatten.length : Nat) : Int),
          [sample_record [65] 24, sample_record [66, 66] 32].flatten ++ [1, 2, 3])) 0 [] 59).1 ∧
      res.mem = ((fun (_ : Nat) (_ : List Nat) (_ : Nat) =>
        ((([sample_record [65] 24, sample_record [66, 66] 32].flatten.length : Nat) : Int),
          [sample_record [65] 24, sample_record [66, 66] 32].flatten ++ [1, 2, 3])) 0 [] 59).2 :=
  manipulated_getdents_none_hidden _ (fun _ => false) sample_globals 0 [] 59
    [sample_record [65] 24, sample_record [66, 66] 32] [1, 2, 3] 2
    (by decide) rfl (by decide) (by decide) (by decide)

/-- C3: when the original call returns a value `v <= 0` (an `int` value: a
native error code or 0 for an empty listing), `manipulated_getdents` returns
that value for every fuel, evaluates no hide decision and leaves the buffer
as the original call left it. -/
theorem manipulated_getdents_passes_failure
    (original : Nat → List Nat → Nat → Int × List Nat) (hide : List Nat → Bool)
    (g : Globals) (fd : Nat) (mem : List Nat) (count : Nat) (fuel : Nat)
    (hle : (original fd mem count).1 ≤ 0)
    (hint : -2147483648 ≤ (original fd mem count).1) :
    ∃ res, manipulated_getdents original hide fuel g fd mem count = some res ∧
      res.retv = (original fd mem count).1 ∧
      res.evaluated = [] ∧
      res.mem = (original fd mem count).2 := by
  have h32 := toInt32_of_range _ hint (by omega)
  have hb : getdents_body original hide fuel fd mem count = some
      { mem := (original fd mem count).2, dirp := 0, tlen := toInt32 (original fd mem count).1,
        len := 0, retv := (original fd mem count).1, evaluated := [] } := by
    unfold getdents_body
    exact filter_loop_done hide fuel _ (by show toInt32 _ ≤ 0; rw [h32]; exact hle)
  exact ⟨_, manipulated_getdents_of_body original hide fuel g fd mem count _ hb, rfl, rfl, rfl⟩

/-- C3 at the error code -9 (EBADF), with a hide decision that hides all. -/
theorem manipulated_getdents_passes_failure_witness :
    ∃ res, manipulated_getdents (fun _ m _ => (-9, m)) (fun _ => true) 0
        sample_globals 5 [1, 2, 3] 3 = some res ∧
      res.retv = ((fun (_ : Nat) (m : List Nat) (_ : Nat) => ((-9 : Int), m)) 5 [1, 2, 3] 3).1 ∧
      res.evaluated = [] ∧
      res.mem = ((fun (_ : Nat) (m : List Nat) (_ : Nat) => ((-9 : Int), m)) 5 [1, 2, 3] 3).2 :=
  manipulated_getdents_passes_failure (fun _ m _ => (-9, m)) (fun _ => true)
    sample_globals 5 [1, 2, 3] 3 0 (by decide) (by decide)

/-! ## The call counter and the hook -/

theorem decrease_increase (g : Globals) :
    DECREASE_CALL_COUNTER (INCREASE_CALL_COUNTER g) = g := by
  cases g
  simp [DECREASE_CALL_COUNTER, INCREASE_CALL_COUNTER]

theorem counter_writes_decisions (names : List (List Nat)) (t : List CallEvent) :
    counter_writes (names.map CallEvent.decision ++ t) = counter_writes t := by
  induction names with
  | nil => rfl
  | cons n ns ih => simpa [counter_writes] using ih

/-- The body of the wrapper returns whenever the original call fails or
returns nothing (an `int` value at most 0) and whenever it leaves a buffer
of well-formed records, with fuel for one pass per record. -/
theorem getdents_body_returns (original : Nat → List Nat → Nat → Int × List Nat)
    (hide : List Nat → Bool) (fuel : Nat) (fd : Nat) (mem : List Nat) (count : Nat)
    (hret : (-2147483648 ≤ (original fd mem count).1 ∧ (original fd mem count).1 ≤ 0) ∨
      ∃ (recs : List (List Nat)) (slack : List Nat), (∀ r ∈ recs, wf_record r) ∧
        original fd mem count = ((recs.flatten.length : Int), recs.flatten ++ slack) ∧
        recs.flatten.length < 2147483648 ∧ recs.length ≤ fuel) :
    ∃ s, getdents_body original hide fuel fd mem count = some s := by
  rcases hret with ⟨hint, hle⟩ | ⟨recs, slack, hwf, horig, hlt, hfuel⟩
  · have h32 := toInt32_of_range _ hint (by omega)
    have hb : getdents_body original hide fuel fd mem count = some
        { mem := (original fd mem count).2, dirp := 0,
          tlen := toInt32 (original fd mem count).1, len := 0,
          retv := (original fd mem count).1, evaluated := [] } := by
      unfold getdents_body
      exact filter_loop_done hide fuel _ (by show toInt32 _ ≤ 0; rw [h32]; exact hle)
    exact ⟨_, hb⟩
  · obtain ⟨s1, _, h1, _⟩ :=
      getdents_body_spec original hide fd mem count recs slack fuel hwf horig hlt hfuel
    exact ⟨s1, h1⟩

/-- C4: every invocation of `manipulated_getdents` returns, whether the
original call fails or returns nothing (an `int` value at most 0) or leaves
a buffer of well-formed records of which any are kept or hidden (given fuel
for one pass per record), and its trace is: one write of the counter, one
higher than at entry, first of all; the call of the original; the
evaluations of the decision; one write of the counter, back at its value at
entry, last of all.  So the counter is written exactly twice, the globals
after the call are the globals before it, and with the counter not negative
at entry no value written is negative. -/
theorem manipulated_getdents_counter_balanced
    (original : Nat → List Nat → Nat → Int × List Nat) (hide : List Nat → Bool)
    (fuel : Nat) (g : Globals) (fd : Nat) (mem : List Nat) (count : Nat)
    (hret : (-2147483648 ≤ (original fd mem count).1 ∧ (original fd mem count).1 ≤ 0) ∨
      ∃ (recs : List (List Nat)) (slack : List Nat), (∀ r ∈ recs, wf_record r) ∧
        original fd mem count = ((recs.flatten.length : Int), recs.flatten ++ slack) ∧
        recs.flatten.length < 2147483648 ∧ recs.length ≤ fuel) :
    ∃ res, manipulated_getdents original hide fuel g fd mem count = some res ∧
      res.trace = [CallEvent.counter_write (g.getdents_call_counter + 1),
          CallEvent.call_original]
        ++ res.evaluated.map CallEvent.decision
        ++ [CallEvent.counter_write g.getdents_call_counter] ∧
      counter_writes res.trace = [g.getdents_call_counter + 1, g.getdents_call_counter] ∧
      res.globals = g ∧
      (0 ≤ g.getdents_call_counter → ∀ v ∈ counter_writes res.trace, 0 ≤ v) := by
  obtain ⟨s, hbody⟩ := getdents_body_returns original hide fuel fd mem count hret
  have hc1 : (INCREASE_CALL_COUNTER g).getdents_call_counter = g.getdents_call_counter + 1 :=
    rfl
  have hc2 : (DECREASE_CALL_COUNTER (INCREASE_CALL_COUNTER g)).getdents_call_counter
      = g.getdents_call_counter := by
    rw [decrease_increase]
  have htrace : ([CallEvent.counter_write (INCREASE_CALL_COUNTER g).getdents_call_counter,
        CallEvent.call_original]
      ++ s.evaluated.map CallEvent.decision
      ++ [CallEvent.counter_write
        (DECREASE_CALL_COUNTER (INCREASE_CALL_COUNTER g)).getdents_call_counter])
      = [CallEvent.counter_write (g.getdents_call_counter + 1), CallEvent.call_original]
        ++ s.evaluated.map CallEvent.decision
        ++ [CallEvent.counter_write g.getdents_call_counter] := by
    rw [hc1, hc2]
  have hw : counter_writes ([CallEvent.counter_write (g.getdents_call_counter + 1),
        CallEvent.call_original]
      ++ s.evaluated.map CallEvent.decision
      ++ [CallEvent.counter_write g.getdents_call_counter])
      = [g.getdents_call_counter + 1, g.getdents_call_counter] := by
    rw [List.append_assoc]
    show (g.getdents_call_counter + 1) :: counter_writes
      (s.evaluated.map CallEvent.decision ++ [CallEvent.counter_write g.getdents_call_counter])
      = _
    rw [counter_writes_decisions]
    rfl
  refine ⟨_, manipulated_getdents_of_body original hide fuel g fd mem count s hbody,
    htrace, ?_, decrease_increase g, ?_⟩
  · show counter_writes (_ ++ _ ++ _) = _
    rw [htrace, hw]
  · intro h0 v hv
    have hv1 : v ∈ counter_writes ([CallEvent.counter_write (g.getdents_call_counter + 1),
        CallEvent.call_original]
      ++ s.evaluated.map CallEvent.decision
      ++ [CallEvent.counter_write g.getdents_call_counter]) := by
      rw [← htrace]
      exact hv
    rw [hw] at hv1
    simp only [List.mem_cons, List.mem_singleton, List.not_mem_nil, or_false] at hv1
    rcases hv1 with h | h <;> omega

/-- C4 at a call on three records of which the one named `b` is hidden, the
counter starting at 0: the trace is the write of 1, the call of the
original, the three evaluations and the write of 0.  At a call whose
original fails with -9 it is the write of 1, the call and the write of 0. -/
theorem manipulated_getdents_counter_balanced_witness :
    (∃ res, manipulated_getdents
        (fun _ _ _ => ((([sample_record [97] 24, sample_record [98] 32,
            sample_record [99] 24].flatten.length : Nat) : Int),
          [sample_record [97] 24, sample_record [98] 32, sample_record [99] 24].flatten
            ++ [5, 5])) (fun name => name == [98]) 3 sample_globals 0 [] 82 = some res ∧
      res.trace = [CallEvent.counter_write (sample_globals.getdents_call_counter + 1),
          CallEvent.call_original]
        ++ res.evaluated.map CallEvent.decision
        ++ [CallEvent.counter_write sample_globals.getdents_call_counter] ∧
      counter_writes res.trace = [sample_globals.getdents_call_counter + 1,
        sample_globals.getdents_call_counter] ∧
      res.globals = sample_globals ∧
      (0 ≤ sample_globals.getdents_call_counter →
        ∀ v ∈ counter_writes res.trace, 0 ≤ v)) ∧
      (manipulated_getdents
        (fun _ _ _ => ((([sample_record [97] 24, sample_record [98] 32,
            sample_record [99] 24].flatten.length : Nat) : Int),
          [sample_record [97] 24, sample_record [98] 32, sample_record [99] 24].flatten
            ++ [5, 5])) (fun name => name == [98]) 3 sample_globals 0 [] 82).map
        (fun res => res.trace)
        = some [CallEvent.counter_write 1, CallEvent.call_original,
            CallEvent.decision [97], CallEvent.decision [98], CallEvent.decision [99],
            CallEvent.counter_write 0] ∧
      (manipulated_getdents (fun _ m _ => (-9, m)) (fun _ => true) 0
        sample_globals 5 [1, 2, 3] 3).map (fun res => res.trace)
        = some [CallEvent.counter_write 1, CallEvent.call_original,
            CallEvent.counter_write 0] :=
  ⟨manipulated_getdents_counter_balanced _ (fun name => name == [98]) 3 sample_globals 0 [] 82
      (Or.inr ⟨[sample_record [97] 24, sample_record [98] 32, sample_record [99] 24], [5, 5],
        by decide, by rfl, by decide, by decide⟩),
    by decide, by decide⟩

/-- C5, as stated, fails: a second `hook_getdents` saves the current table
entry, which is the wrapper, over the saved original. -/
theorem hook_getdents_twice_loses_original :
    (hook_getdents (hook_getdents sample_globals)).original_getdents
      ≠ (hook_getdents sample_globals).original_getdents := by
  decide

/-- C5, amended: a second `hook_getdents` without an unhook in between
leaves every entry of the dispatch table, the hooked flag (1), the call
counter and the write protection as the first install left them; the
getdents entry stays the wrapper. -/
theorem hook_getdents_twice_keeps_table (g : Globals) :
    (∀ n, (hook_getdents (hook_getdents g)).sys_call_table n
        = (hook_getdents g).sys_call_table n) ∧
      (hook_getdents (hook_getdents g)).sys_call_table NR_getdents
        = Handler.manipulated_getdents ∧
      (hook_getdents (hook_getdents g)).getdents_hooked = 1 ∧
      (hook_getdents g).getdents_hooked = 1 ∧
      (hook_getdents (hook_getdents g)).getdents_call_counter
        = (hook_getdents g).getdents_call_counter ∧
      (hook_getdents (hook_getdents g)).page_protection
        = (hook_getdents g).page_protection := by
  refine ⟨?_, ?_, rfl, rfl, rfl, rfl⟩
  · intro n
    simp only [hook_getdents, set_entry, disable_page_protection, enable_page_protection]
    split <;> rfl
  · simp [hook_getdents, set_entry, disable_page_protection, enable_page_protection]

theorem run_invocations_globals (calls : List Invocation) :
    ∀ (g g1 : Globals), run_invocations calls g = some g1 → g1 = g := by
  induction calls with
  | nil =>
    intro g g1 h
    simp only [run_invocations, Option.some.injEq] at h
    exact h.symm
  | cons c cs ih =>
    intro g g1 h
    unfold run_invocations at h
    cases hb : getdents_body c.original c.hide c.fuel c.fd c.mem c.count with
    | none =>
      simp [manipulated_getdents, hb] at h
    | some s =>
      rw [manipulated_getdents_of_body c.original c.hide c.fuel g c.fd c.mem c.count s hb] at h
      have := ih _ g1 h
      rw [this]
      exact decrease_increase g

theorem drain_of_nonpos (fuel : Nat) (g : Globals) (h : g.getdents_call_counter ≤ 0) :
    drain fuel g = some g := by
  have hn : ¬ (g.getdents_call_counter > 0) := by omega
  cases fuel <;> simp [drain, hn]

/-- C6: from an uninstalled state (flag 0, counter not above 0, a kernel
function in the getdents entry), after `hook_getdents`, any sequence of
completed invocations of the wrapper and then `unhook_getdents`, the call
to `unhook_getdents` returns and the getdents entry is the entry from
before the hook, is not the wrapper, and the hooked flag is 0. -/
theorem hook_invoke_unhook_restores (g0 : Globals) (calls : List Invocation)
    (g1 : Globals) (fuel : Nat)
    (_hflag : g0.getdents_hooked = 0)
    (hcnt : g0.getdents_call_counter ≤ 0)
    (hentry : g0.sys_call_table NR_getdents ≠ Handler.manipulated_getdents)
    (hrun : run_invocations calls (hook_getdents g0) = some g1) :
    ∃ g2, unhook_getdents fuel g1 = some g2 ∧
      g2.sys_call_table NR_getdents = g0.sys_call_table NR_getdents ∧
      g2.sys_call_table NR_getdents ≠ Handler.manipulated_getdents ∧
      g2.getdents_hooked = 0 := by
  have h1 := run_invocations_globals calls _ _ hrun
  subst h1
  have hu : unhook_getdents fuel (hook_getdents g0) = some
      { enable_page_protection (set_entry (disable_page_protection (hook_getdents g0))
          NR_getdents (disable_page_protection (hook_getdents g0)).original_getdents)
        with getdents_hooked := 0 } := by
    unfold unhook_getdents
    rw [if_neg (by simp [hook_getdents])]
    exact drain_of_nonpos fuel _ hcnt
  have he : ({ enable_page_protection (set_entry (disable_page_protection (hook_getdents g0))
          NR_getdents (disable_page_protection (hook_getdents g0)).original_getdents)
        with getdents_hooked := 0 } : Globals).sys_call_table NR_getdents
      = g0.sys_call_table NR_getdents := by
    simp [hook_getdents, set_entry, disable_page_protection, enable_page_protection]
  refine ⟨_, hu, he, ?_, rfl⟩
  rw [he]
  exact hentry

/-- C6 at the sample globals with two completed invocations. -/
theorem hook_invoke_unhook_restores_witness :
    ∃ g2, unhook_getdents 0 (hook_getdents sample_globals) = some g2 ∧
      g2.sys_call_table NR_getdents = sample_globals.sys_call_table NR_getdents ∧
      g2.sys_call_table NR_getdents ≠ Handler.manipulated_getdents ∧
      g2.getdents_hooked = 0 :=
  hook_invoke_unhook_restores sample_globals
    [⟨fun _ m _ => (-9, m), fun _ => true, 0, 5, [1, 2, 3], 3⟩,
      ⟨fun _ _ _ => (24, sample_record [65] 24), fun _ => true, 1, 5, [], 24⟩]
    (hook_getdents sample_globals) 0 rfl (by decide) (by decide) (by rfl)

/-- C7: with the call counter at 0, in any hook state, `unhook_getdents`
returns, and a second call right after it returns the very state the first
call left (table, saved original, flag and counter included); on a hook that
is not installed the first call already changes nothing. -/
theorem unhook_getdents_idempotent (g : Globals) (fuel : Nat)
    (hcnt : g.getdents_call_counter = 0) :
    ∃ g1, unhook_getdents fuel g = some g1 ∧
      unhook_getdents fuel g1 = some g1 ∧
      (g.getdents_hooked = 0 → g1 = g) := by
  by_cases hflag : g.getdents_hooked = 0
  · refine ⟨g, ?_, ?_, fun _ => rfl⟩ <;> simp [unhook_getdents, hflag]
  · refine ⟨{ enable_page_protection (set_entry (disable_page_protection g)
          NR_getdents (disable_page_protection g).original_getdents)
        with getdents_hooked := 0 }, ?_, ?_, fun h => absurd h hflag⟩
    · unfold unhook_getdents
      rw [if_neg hflag]
      exact drain_of_nonpos fuel _ (by show g.getdents_call_counter ≤ 0; omega)
    · simp [unhook_getdents]

/-- C7 at an installed hook. -/
theorem unhook_getdents_idempotent_witness :
    ∃ g1, unhook_getdents 1 (hook_getdents sample_globals) = some g1 ∧
      unhook_getdents 1 g1 = some g1 ∧
      ((hook_getdents sample_globals).getdents_hooked = 0 → g1 = hook_getdents sample_globals) :=
  unhook_getdents_idempotent (hook_getdents sample_globals) 1 rfl

/-! ## Interleavings -/

theorem count_set_of_getElem? (x a b : ThreadPc) :
    ∀ (l : List ThreadPc) (i : Nat), l[i]? = some a →
      (l.set i b).count x + (if a = x then 1 else 0)
        = l.count x + (if b = x then 1 else 0) := by
  intro l
  induction l with
  | nil => intro i h; simp at h
  | cons y t ih =>
    intro i h
    cases i with
    | zero =>
      simp only [List.getElem?_cons_zero, Option.some.injEq] at h
      subst h
      simp only [List.set_cons_zero, List.count_cons, beq_iff_eq]
      omega
    | succ j =>
      simp only [List.getElem?_cons_succ] at h
      have := ih j h
      simp only [List.set_cons_succ, List.count_cons, beq_iff_eq]
      omega

theorem unhook_step_counter (g : Globals) (pc : UnhookPc) :
    (unhook_step g pc).1.getdents_call_counter = g.getdents_call_counter := by
  cases pc <;> simp only [unhook_step] <;> try rfl
  all_goals split <;> rfl

theorem unhook_step_original (g : Globals) (pc : UnhookPc) :
    (unhook_step g pc).1.original_getdents = g.original_getdents := by
  cases pc <;> simp only [unhook_step] <;> try rfl
  all_goals split <;> rfl

theorem unhook_step_restore_ok (o0 : Handler) (g : Globals) (pc : UnhookPc)
    (ho : g.original_getdents = o0) (h : restore_ok o0 g pc) :
    restore_ok o0 (unhook_step g pc).1 (unhook_step g pc).2 := by
  cases pc with
  | check =>
    simp only [restore_ok] at h
    simp only [unhook_step, if_neg h, restore_ok]
  | restore =>
    simp only [unhook_step, restore_ok, set_entry, enable_page_protection, if_true]
    exact ho
  | clear =>
    simp only [restore_ok] at h
    simp only [unhook_step, restore_ok]
    exact ⟨h, trivial⟩
  | poll =>
    simp only [restore_ok] at h
    simp only [unhook_step]
    split <;> exact h
  | done =>
    exact h

theorem step_restore_inv (o0 : Handler) (a : Action) (s s1 : System)
    (hstep : step a s = some s1) (hinv : restore_inv o0 s) : restore_inv o0 s1 := by
  cases a with
  | syscall =>
    simp only [step] at hstep
    split at hstep <;> (simp only [Option.some.injEq] at hstep; subst hstep; exact hinv)
  | enter i =>
    simp only [step] at hstep
    split at hstep
    · simp only [Option.some.injEq] at hstep
      subst hstep
      exact hinv
    · simp at hstep
  | leave i =>
    simp only [step] at hstep
    split at hstep
    · simp only [Option.some.injEq] at hstep
      subst hstep
      exact hinv
    · simp at hstep
  | unhook =>
    simp only [step] at hstep
    split at hstep
    · simp at hstep
    · simp only [Option.some.injEq] at hstep
      subst hstep
      have ho : (unhook_step s.globals s.unhook).1.original_getdents = o0 := by
        rw [unhook_step_original]
        exact hinv.1
      exact ⟨ho, unhook_step_restore_ok o0 s.globals s.unhook hinv.1 hinv.2⟩

theorem run_restore_inv (o0 : Handler) (sched : List Action) :
    ∀ (s s1 : System), run sched s = some s1 → restore_inv o0 s → restore_inv o0 s1 := by
  induction sched with
  | nil =>
    intro s s1 h hinv
    simp only [run, Option.some.injEq] at h
    subst h
    exact hinv
  | cons a as ih =>
    intro s s1 h hinv
    simp only [run] at h
    cases hs : step a s with
    | none => simp [hs] at h
    | some s2 =>
      rw [hs] at h
      exact ih s2 s1 h (step_restore_inv o0 a s s2 hs hinv)

/-- C8: when `unhook_getdents` is called on an installed hook, then in every
interleaving with wrapper invocations, whenever the unhooking thread stands
at the test of its drain loop (or has returned), the getdents entry of the
table is the saved original, is not the wrapper, and the hooked flag is 0:
the restore and the clearing of the flag come before the first poll. -/
theorem unhook_restores_before_drain (s0 : System) (sched : List Action) (s : System)
    (hinst : installed s0.globals) (hpc : s0.unhook = UnhookPc.check)
    (hrun : run sched s0 = some s)
    (hpoll : s.unhook = UnhookPc.poll ∨ s.unhook = UnhookPc.done) :
    s.globals.sys_call_table NR_getdents = s0.globals.original_getdents ∧
      s.globals.sys_call_table NR_getdents = s.globals.original_getdents ∧
      s.globals.sys_call_table NR_getdents ≠ Handler.manipulated_getdents ∧
      s.globals.getdents_hooked = 0 := by
  have h0 : restore_inv s0.globals.original_getdents s0 := by
    refine ⟨rfl, ?_⟩
    rw [hpc]
    exact hinst.1
  obtain ⟨ho, hm⟩ := run_restore_inv _ sched s0 s hrun h0
  have hboth : s.globals.sys_call_table NR_getdents = s0.globals.original_getdents ∧
      s.globals.getdents_hooked = 0 := by
    rcases hpoll with hp | hp <;> (rw [hp] at hm; exact hm)
  refine ⟨hboth.1, ?_, ?_, hboth.2⟩
  · rw [hboth.1, ho]
  · rw [hboth.1]
    exact hinst.2.2

/-- C8 at two invocations in flight, after the three steps that bring
`unhook_getdents` to its drain loop. -/
theorem unhook_restores_before_drain_witness :
    (hook_getdents sample_globals).sys_call_table NR_getdents = Handler.manipulated_getdents ∧
    ({ globals := { enable_page_protection (set_entry
            (disable_page_protection sample_system.globals) NR_getdents
            (disable_page_protection sample_system.globals).original_getdents)
          with getdents_hooked := 0 },
        threads := sample_system.threads, unhook := UnhookPc.poll } : System
      ).globals.sys_call_table NR_getdents = sample_system.globals.original_getdents ∧
    ({ globals := { enable_page_protection (set_entry
            (disable_page_protection sample_system.globals) NR_getdents
            (disable_page_protection sample_system.globals).original_getdents)
          with getdents_hooked := 0 },
        threads := sample_system.threads, unhook := UnhookPc.poll } : System
      ).globals.sys_call_table NR_getdents ≠ Handler.manipulated_getdents :=
  have h := unhook_restores_before_drain sample_system
    [Action.unhook, Action.unhook, Action.unhook]
    { globals := { enable_page_protection (set_entry
          (disable_page_protection sample_system.globals) NR_getdents
          (disable_page_protection sample_system.globals).original_getdents)
        with getdents_hooked := 0 },
      threads := sample_system.threads, unhook := UnhookPc.poll }
    ⟨by decide, by decide, by decide⟩ rfl (by rfl) (Or.inl rfl)
  ⟨by decide, h.1, h.2.2.1⟩

theorem step_drain_inv (ts0 : List ThreadPc) (a : Action) (s s1 : System)
    (hstep : step a s = some s1) (hinv : drain_inv ts0 s) : drain_inv ts0 s1 := by
  obtain ⟨hc, hin, hchk, hdone⟩ := hinv
  cases a with
  | syscall =>
    simp only [step] at hstep
    split at hstep
    · simp only [Option.some.injEq] at hstep
      subst hstep
      have hk : ∀ (i : Nat) (x : ThreadPc), s.threads[i]? = some x →
          (s.threads ++ [ThreadPc.dispatched])[i]? = some x := by
        intro i x hx
        have hlt : i < s.threads.length := (List.getElem?_eq_some_iff.mp hx).1
        rw [List.getElem?_append_left hlt]
        exact hx
      refine ⟨?_, ?_, hchk, ?_⟩
      · show s.globals.getdents_call_counter
          = ((s.threads ++ [ThreadPc.dispatched]).count ThreadPc.inside : Int)
        rw [hc, List.count_append]
        simp
      · intro i hi
        rcases hin i hi with h | h
        · exact Or.inl (hk i _ h)
        · exact Or.inr (hk i _ h)
      · intro hd i hi
        exact hk i _ (hdone hd i hi)
    · simp only [Option.some.injEq] at hstep
      subst hstep
      exact ⟨hc, hin, hchk, hdone⟩
  | enter j =>
    simp only [step] at hstep
    split at hstep
    · rename_i hj
      simp only [Option.some.injEq] at hstep
      subst hstep
      have hcount := count_set_of_getElem? ThreadPc.inside ThreadPc.dispatched ThreadPc.inside
        s.threads j hj
      simp only [if_true] at hcount
      have hne : ∀ i : Nat, ts0[i]? = some ThreadPc.inside → j ≠ i := by
        intro i hi hji
        subst hji
        rcases hin j hi with h | h <;> (rw [hj] at h; simp at h)
      refine ⟨?_, ?_, hchk, ?_⟩
      · show s.globals.getdents_call_counter + 1
          = ((s.threads.set j ThreadPc.inside).count ThreadPc.inside : Int)
        rw [hc]
        have h0 : (if ThreadPc.dispatched = ThreadPc.inside then 1 else 0) = 0 := by decide
        rw [h0] at hcount
        omega
      · intro i hi
        show (s.threads.set j ThreadPc.inside)[i]? = _ ∨ (s.threads.set j ThreadPc.inside)[i]? = _
        rw [List.getElem?_set_ne (hne i hi)]
        exact hin i hi
      · intro hd i hi
        show (s.threads.set j ThreadPc.inside)[i]? = _
        rw [List.getElem?_set_ne (hne i hi)]
        exact hdone hd i hi
    · simp at hstep
  | leave j =>
    simp only [step] at hstep
    split at hstep
    · rename_i hj
      simp only [Option.some.injEq] at hstep
      subst hstep
      have hcount := count_set_of_getElem? ThreadPc.inside ThreadPc.inside ThreadPc.returned
        s.threads j hj
      simp only [if_true] at hcount
      have hlt : j < s.threads.length := (List.getElem?_eq_some_iff.mp hj).1
      have hset : ∀ i : Nat, s.threads[i]? = some ThreadPc.inside ∨
          s.threads[i]? = some ThreadPc.returned →
          (s.threads.set j ThreadPc.returned)[i]? = some ThreadPc.inside ∨
          (s.threads.set j ThreadPc.returned)[i]? = some ThreadPc.returned := by
        intro i h
        by_cases hji : j = i
        · subst hji
          exact Or.inr (List.getElem?_set_self hlt)
        · rw [List.getElem?_set_ne hji]
          exact h
      refine ⟨?_, ?_, hchk, ?_⟩
      · show s.globals.getdents_call_counter - 1
          = ((s.threads.set j ThreadPc.returned).count ThreadPc.inside : Int)
        rw [hc]
        have h0 : (if ThreadPc.returned = ThreadPc.inside then 1 else 0) = 0 := by decide
        rw [h0] at hcount
        omega
      · intro i hi
        exact hset i (hin i hi)
      · intro hd i hi
        show (s.threads.set j ThreadPc.returned)[i]? = _
        by_cases hji : j = i
        · subst hji
          exact List.getElem?_set_self hlt
        · rw [List.getElem?_set_ne hji]
          exact hdone hd i hi
    · simp at hstep
  | unhook =>
    simp only [step] at hstep
    split at hstep
    · simp at hstep
    · rename_i hnd
      simp only [Option.some.injEq] at hstep
      subst hstep
      refine ⟨?_, hin, ?_, ?_⟩
      · show (unhook_step s.globals s.unhook).1.getdents_call_counter = _
        rw [unhook_step_counter]
        exact hc
      · intro h
        exfalso
        change (unhook_step s.globals s.unhook).2 = UnhookPc.check at h
        cases hu : s.unhook <;> rw [hu] at h <;> simp only [unhook_step] at h
        · split at h <;> simp at h
        · simp at h
        · simp at h
        · split at h <;> simp at h
        · simp at h
      · intro h i hi
        change (unhook_step s.globals s.unhook).2 = UnhookPc.done at h
        show s.threads[i]? = some ThreadPc.returned
        cases hu : s.unhook with
        | check =>
          rw [hu] at h
          simp only [unhook_step, if_neg (hchk hu)] at h
          simp at h
        | restore =>
          rw [hu] at h
          simp [unhook_step] at h
        | clear =>
          rw [hu] at h
          simp [unhook_step] at h
        | poll =>
          rw [hu] at h
          simp only [unhook_step] at h
          split at h
          · simp at h
          · rename_i hle
            have hz : s.threads.count ThreadPc.inside = 0 := by omega
            rcases hin i hi with hx | hx
            · exact absurd (List.getElem?_mem hx) (List.count_eq_zero.mp hz)
            · exact hx
        | done => exact absurd hu hnd

theorem run_drain_inv (ts0 : List ThreadPc) (sched : List Action) :
    ∀ (s s1 : System), run sched s = some s1 → drain_inv ts0 s → drain_inv ts0 s1 := by
  induction sched with
  | nil =>
    intro s s1 h hinv
    simp only [run, Option.some.injEq] at h
    subst h
    exact hinv
  | cons a as ih =>
    intro s s1 h hinv
    simp only [run] at h
    cases hs : step a s with
    | none => simp [hs] at h
    | some s2 =>
      rw [hs] at h
      exact ih s2 s1 h (step_drain_inv ts0 a s s2 hs hinv)

/-- C9: `unhook_getdents` is called on an installed hook while the call
counter equals the number of invocations between their two counter macros.
In every interleaving in which `unhook_getdents` has returned, each of those
invocations has run its `DECREASE_CALL_COUNTER`; and the drain loop is left
only on reading a counter that is not above 0. -/
theorem unhook_waits_for_in_flight (s0 : System) (sched : List Action) (s : System)
    (hcnt : s0.globals.getdents_call_counter = (s0.threads.count ThreadPc.inside : Int))
    (hhook : s0.globals.getdents_hooked ≠ 0) (hpc : s0.unhook = UnhookPc.check)
    (hrun : run sched s0 = some s) (hdone : s.unhook = UnhookPc.done) :
    (∀ i : Nat, s0.threads[i]? = some ThreadPc.inside →
        s.threads[i]? = some ThreadPc.returned) ∧
      (∀ g : Globals, (unhook_step g UnhookPc.poll).2 = UnhookPc.done →
        g.getdents_call_counter ≤ 0) := by
  have h0 : drain_inv s0.threads s0 := by
    refine ⟨hcnt, fun i hi => Or.inl hi, fun _ => hhook, ?_⟩
    intro hd
    rw [hpc] at hd
    exact absurd hd (by decide)
  have h1 := run_drain_inv s0.threads sched s0 s hrun h0
  refine ⟨h1.2.2.2 hdone, ?_⟩
  intro g hg
  simp only [unhook_step] at hg
  split at hg
  · simp at hg
  · omega

/-- C9 at two invocations in flight: `unhook_getdents` is still polling
after five steps of its own, and has returned in a schedule in which both
invocations left before its last poll. -/
theorem unhook_waits_for_in_flight_witness :
    (run [Action.unhook, Action.unhook, Action.unhook, Action.unhook, Action.unhook]
        sample_system).map (fun s => s.unhook) = some UnhookPc.poll ∧
      ([ThreadPc.returned, ThreadPc.returned] : List ThreadPc)[0]? = some ThreadPc.returned ∧
      ([ThreadPc.returned, ThreadPc.returned] : List ThreadPc)[1]? = some ThreadPc.returned :=
  have h := unhook_waits_for_in_flight sample_system
    [Action.unhook, Action.unhook, Action.unhook, Action.unhook, Action.leave 0,
      Action.unhook, Action.leave 1, Action.unhook]
    { globals := DECREASE_CALL_COUNTER (DECREASE_CALL_COUNTER
        { enable_page_protection (set_entry
            (disable_page_protection sample_system.globals) NR_getdents
            (disable_page_protection sample_system.globals).original_getdents)
          with getdents_hooked := 0 }),
      threads := [ThreadPc.returned, ThreadPc.returned], unhook := UnhookPc.done }
    (by decide) (by decide) rfl (by rfl) rfl
  ⟨by decide, h.1 0 rfl, h.1 1 rfl⟩

/-! ## Path levels -/

theorem strstr_eq_zero_iff (s1 s2 : List Nat) : strstr s1 s2 = some 0 ↔ s2 <+: s1 := by
  cases s1 with
  | nil =>
    simp only [strstr, List.prefix_nil]
    split <;> simp_all
  | cons b t =>
    simp only [strstr]
    by_cases h : s2.isPrefixOf (b :: t) = true
    · simp only [h, if_true, true_iff]
      exact List.isPrefixOf_iff_prefix.mp h
    · simp only [h]
      constructor
      · intro h0
        cases hs : strstr t s2 <;> simp [hs] at h0
      · intro hp
        exact absurd (List.isPrefixOf_iff_prefix.mpr hp) h

theorem list_match_iff (names : List (List Nat)) (d : List Nat) :
    list_match names d = true ↔ ∃ name ∈ names, name <+: d := by
  unfold list_match
  rw [List.any_eq_true]
  constructor
  · rintro ⟨name, hn, h⟩
    exact ⟨name, hn, (strstr_eq_zero_iff d name).mp (by simpa using h)⟩
  · rintro ⟨name, hn, h⟩
    exact ⟨name, hn, by simpa using (strstr_eq_zero_iff d name).mpr h⟩

theorem strnchr_none (c : Nat) : ∀ (s : List Nat) (count : Nat), c ∉ s →
    strnchr s count c = none := by
  intro s
  induction s with
  | nil => intro count _; cases count <;> rfl
  | cons b t ih =>
    intro count h
    cases count with
    | zero => rfl
    | succ n =>
      have hb : ¬ b = c := fun e => h (by simp [e])
      have ht : c ∉ t := fun e => h (List.mem_cons_of_mem _ e)
      simp only [strnchr, hb, if_false, ih n ht, Option.map_none']

theorem strnchr_some (c : Nat) (b : List Nat) : ∀ (a : List Nat) (count : Nat), c ∉ a →
    a.length < count → strnchr (a ++ c :: b) count c = some a.length := by
  intro a
  induction a with
  | nil =>
    intro count _ hl
    obtain ⟨n, rfl⟩ : ∃ n, count = n + 1 := ⟨count - 1, by simp at hl; omega⟩
    simp [strnchr]
  | cons y t ih =>
    intro count h hl
    obtain ⟨n, rfl⟩ : ∃ n, count = n + 1 := ⟨count - 1, by simp at hl; omega⟩
    have hy : ¬ y = c := fun e => h (by simp [e])
    have ht : c ∉ t := fun e => h (List.mem_cons_of_mem _ e)
    have hl1 : t.length < n := by simp at hl; omega
    have e := ih n ht hl1
    show strnchr (y :: (t ++ c :: b)) (n + 1) c = some (t.length + 1)
    simp only [strnchr, hy, if_false, e, Option.map_some']

theorem first_occurrence (c : Nat) : ∀ (d : List Nat), c ∈ d →
    ∃ a b, d = a ++ c :: b ∧ c ∉ a := by
  intro d
  induction d with
  | nil => intro h; simp at h
  | cons y t ih =>
    intro h
    by_cases hy : y = c
    · exact ⟨[], t, by simp [hy], by simp⟩
    · have ht : c ∈ t := by
        rcases List.mem_cons.mp h with h0 | h0
        · exact absurd h0.symm hy
        · exact h0
      obtain ⟨a, b, hd, ha⟩ := ih ht
      refine ⟨y :: a, b, by simp [hd], ?_⟩
      intro hm
      rcases List.mem_cons.mp hm with h0 | h0
      · exact hy h0.symm
      · exact ha h0

theorem split_after_first (c : Nat) (b b1 : List Nat) : ∀ (a a1 : List Nat),
    a ++ c :: b = a1 ++ c :: b1 → c ∉ a →
    (a1 = a ∧ b1 = b) ∨ ∃ a2, a1 = a ++ c :: a2 ∧ b = a2 ++ c :: b1 := by
  intro a
  induction a with
  | nil =>
    intro a1 h _
    cases a1 with
    | nil =>
      simp only [List.nil_append, List.cons.injEq, true_and] at h
      exact Or.inl ⟨rfl, h.symm⟩
    | cons x a2 =>
      simp only [List.nil_append, List.cons_append, List.cons.injEq] at h
      exact Or.inr ⟨a2, by rw [h.1]; rfl, h.2⟩
  | cons y t ih =>
    intro a1 h hc
    have hy : ¬ y = c := fun e => hc (by simp [e])
    have ht : c ∉ t := fun e => hc (List.mem_cons_of_mem _ e)
    cases a1 with
    | nil =>
      simp only [List.nil_append, List.cons_append, List.cons.injEq] at h
      exact absurd h.1 hy
    | cons x a2 =>
      simp only [List.cons_append, List.cons.injEq] at h
      rcases ih a2 h.2 ht with ⟨h1, h2⟩ | ⟨a3, h1, h2⟩
      · exact Or.inl ⟨by rw [h1, h.1], h2⟩
      · exact Or.inr ⟨a3, by rw [h1, h.1]; rfl, h2⟩

theorem to_size_t_of_range (n : Int) (h0 : 0 ≤ n) (h1 : n < 2147483648) :
    to_size_t n = n.toNat := by
  unfold to_size_t
  rw [Int.emod_eq_of_lt h0 (by omega)]

theorem get_next_level_no_delimiter (d : List Nat) (buflen : Int)
    (h : delimiter ∉ d) : get_next_level (some d) buflen = (none, buflen) := by
  simp only [get_next_level, strnchr_none delimiter d _ h]

theorem get_next_level_split (a b : List Nat) (buflen : Int)
    (ha : delimiter ∉ a) (hlen : ((a ++ delimiter :: b).length : Int) ≤ buflen)
    (hint : buflen < 2147483648) :
    get_next_level (some (a ++ delimiter :: b)) buflen
      = if b = [] then (none, buflen) else (some b, buflen - ((a.length : Int) + 1)) := by
  have hl : (a ++ delimiter :: b).length = a.length + b.length + 1 := by simp; omega
  rw [hl] at hlen
  have hs : strnchr (a ++ delimiter :: b) (to_size_t buflen) delimiter = some a.length := by
    rw [to_size_t_of_range buflen (by omega) hint]
    exact strnchr_some delimiter b a _ ha (by omega)
  have hd : (a ++ delimiter :: b).drop a.length = delimiter :: b := List.drop_left _ _
  have hd1 : (a ++ delimiter :: b).drop (a.length + 1) = b := by
    rw [← List.drop_drop, hd]
    rfl
  simp only [get_next_level, hs, hd, hd1, List.length_cons]
  have e1 : toInt32 ((a.length : Int) + 1) = (a.length : Int) + 1 :=
    toInt32_of_range _ (by omega) (by omega)
  have e2 : toInt32 (buflen - ((a.length : Int) + 1)) = buflen - ((a.length : Int) + 1) :=
    toInt32_of_range _ (by omega) (by omega)
  rw [e1, e2]
  by_cases hb : b = []
  · subst hb
    simp
  · have hpos : b.length + 1 > 1 := by
      have := List.length_pos.mpr hb
      omega
    have hnn : ¬ (buflen - ((a.length : Int) + 1) < 0) := by omega
    simp only [hpos, if_true, hnn, if_false, hb]

theorem spec_hidden_by_level_step (names : List (List Nat)) (a b : List Nat)
    (ha : delimiter ∉ a) (hb : b ≠ [])
    (hm : ¬ ∃ name ∈ names, name <+: a ++ delimiter :: b) :
    spec_hidden_by_level names (a ++ delimiter :: b) ↔ spec_hidden_by_level names b := by
  constructor
  · rintro ⟨name, hn, h | ⟨a1, b1, hd, hb1, hp⟩⟩
    · exact absurd ⟨name, hn, h⟩ hm
    · rcases split_after_first delimiter b b1 a a1 hd ha with ⟨_, h2⟩ | ⟨a2, _, h2⟩
      · exact ⟨name, hn, Or.inl (h2 ▸ hp)⟩
      · exact ⟨name, hn, Or.inr ⟨a2, b1, h2, hb1, hp⟩⟩
  · rintro ⟨name, hn, h | ⟨a2, b1, hd, hb1, hp⟩⟩
    · exact ⟨name, hn, Or.inr ⟨a, b, rfl, hb, h⟩⟩
    · refine ⟨name, hn, Or.inr ⟨a ++ delimiter :: a2, b1, ?_, hb1, hp⟩⟩
      rw [hd, List.append_assoc]
      rfl

theorem spec_hidden_by_level_last (names : List (List Nat)) (a : List Nat)
    (ha : delimiter ∉ a) (hm : ¬ ∃ name ∈ names, name <+: a ++ [delimiter]) :
    ¬ spec_hidden_by_level names (a ++ [delimiter]) := by
  rintro ⟨name, hn, h | ⟨a1, b1, hd, hb1, _⟩⟩
  · exact hm ⟨name, hn, h⟩
  · rcases split_after_first delimiter [] b1 a a1 hd ha with ⟨_, h2⟩ | ⟨a2, _, h2⟩
    · exact hb1 h2
    · simp at h2

/-- The loop of `check_hide_fprefix` with enough fuel and a length bound that
covers the string: it returns 1 or 0, and 1 exactly in the cases the
specification names. -/
theorem fprefix_loop_spec (names : List (List Nat)) :
    ∀ (fuel : Nat) (d : List Nat) (buflen : Int),
      (d.length : Int) ≤ buflen → buflen < 2147483648 → d.length < fuel →
      ∃ r bl, fprefix_loop names fuel d buflen = some (r, bl) ∧ (r = 1 ∨ r = 0) ∧
        (r = 1 ↔ spec_hidden_by_level names d) := by
  intro fuel
  induction fuel with
  | zero => intro d buflen _ _ h; omega
  | succ f ih =>
    intro d buflen hlen hint hfuel
    by_cases hm : list_match names d = true
    · refine ⟨1, buflen, by simp only [fprefix_loop, hm, if_true], Or.inl rfl, ?_⟩
      obtain ⟨name, hn, hp⟩ := (list_match_iff names d).mp hm
      exact ⟨fun _ => ⟨name, hn, Or.inl hp⟩, fun _ => rfl⟩
    · have hno : ¬ ∃ name ∈ names, name <+: d := fun h => hm ((list_match_iff names d).mpr h)
      by_cases hdel : delimiter ∈ d
      · obtain ⟨a, b, hd, ha⟩ := first_occurrence delimiter d hdel
        subst hd
        have hg := get_next_level_split a b buflen ha hlen hint
        by_cases hb : b = []
        · subst hb
          rw [if_pos rfl] at hg
          refine ⟨0, buflen, by simp only [fprefix_loop, hm, hg]; rfl, Or.inr rfl, ?_⟩
          constructor
          · intro h
            exact absurd h (by decide)
          · intro h
            exact absurd h (spec_hidden_by_level_last names a ha hno)
        · rw [if_neg hb] at hg
          have hl : (a ++ delimiter :: b).length = a.length + b.length + 1 := by simp; omega
          rw [hl] at hlen hfuel
          obtain ⟨r, bl, h1, h2, h3⟩ := ih b (buflen - ((a.length : Int) + 1))
            (by omega) (by omega) (by omega)
          refine ⟨r, bl, ?_, h2, ?_⟩
          · simp only [fprefix_loop, hm, hg]
            exact h1
          · rw [h3]
            exact (spec_hidden_by_level_step names a b ha hb hno).symm
      · have hg := get_next_level_no_delimiter d buflen hdel
        refine ⟨0, buflen, by simp only [fprefix_loop, hm, hg]; rfl, Or.inr rfl, ?_⟩
        constructor
        · intro h
          exact absurd h (by decide)
        · rintro ⟨name, hn, h | ⟨a1, b1, hd, _, _⟩⟩
          · exact absurd ⟨name, hn, h⟩ hno
          · exact absurd (by rw [hd]; simp) hdel

/-- C10: for every path and every list of registered names, with a length
bound that is at least the length of the path (and enough fuel for one pass
per level), `check_hide_fprefix` returns 1 or 0, and 1 exactly when some
registered name begins the path itself or begins a non-empty rest of the
path that starts right after a `'/'`. -/
theorem check_hide_fprefix_levels (names : List (List Nat)) (path : List Nat)
    (buflen : Int) (fuel : Nat)
    (hlen : (path.length : Int) ≤ buflen) (hint : buflen < 2147483648)
    (hfuel : path.length < fuel) :
    ∃ r bl, check_hide_fprefix names fuel (some path) buflen = some (r, bl) ∧
      (r = 1 ∨ r = 0) ∧ (r = 1 ↔ spec_hidden_by_level names path) :=
  fprefix_loop_spec names fuel path buflen hlen hint hfuel

/-- C10 with only `/tmp/x` registered: 1 for `/tmp/xyz` and for `/tmp/x/1`,
0 for `/tmp/y`. -/
theorem check_hide_fprefix_levels_witness :
    (∃ r bl, check_hide_fprefix [bytes "/tmp/x"] 9 (some (bytes "/tmp/xyz")) 8 = some (r, bl) ∧
      (r = 1 ∨ r = 0) ∧ (r = 1 ↔ spec_hidden_by_level [bytes "/tmp/x"] (bytes "/tmp/xyz"))) ∧
    check_hide_fprefix [bytes "/tmp/x"] 9 (some (bytes "/tmp/xyz")) 8 = some (1, 8) ∧
    check_hide_fprefix [bytes "/tmp/x"] 9 (some (bytes "/tmp/x/1")) 8 = some (1, 8) ∧
    check_hide_fprefix [bytes "/tmp/x"] 7 (some (bytes "/tmp/y")) 6 = some (0, 1) :=
  ⟨check_hide_fprefix_levels [bytes "/tmp/x"] (bytes "/tmp/xyz") 8 9
      (by decide) (by decide) (by decide),
    by decide, by decide, by decide⟩

/-! ## The registry -/

theorem call_loaded (m : Mutator) (c : Control) (r : Int × Control)
    (h : call m c = some r) : r.2.ctrl_loaded = c.ctrl_loaded := by
  cases m <;> simp only [call, Option.some.injEq] at h
  case hide_proc pt fuel k pid =>
    unfold hide_process at h
    split at h
    · simp only [Option.some.injEq] at h; subst h; rfl
    · split at h
      · simp at h
      · split at h
        · simp only [Option.some.injEq] at h; subst h; rfl
        · split at h <;> (simp only [Option.some.injEq] at h; subst h; rfl)
  all_goals
    subst h
    simp only [hide_file_path, unhide_file_path, hide_file_prefix, unhide_file_prefix,
      unhide_process, hide_tcp_socket, unhide_tcp_socket, hide_udp_socket, unhide_udp_socket,
      enable_knocking_tcp, disable_knocking_tcp, enable_knocking_udp, disable_knocking_udp,
      hide_service, unhide_service, hide_ip_address, unhide_ip_address, hide_module,
      unhide_module, filter_port, unfilter_port, escalate, deescalate]
    repeat' split
    all_goals rfl

/-- C16: with the registry not loaded, each of the 24 mutators (`call m` runs
the function `m` stands for: hide and unhide of paths, name beginnings,
processes, TCP and UDP sockets, services, IPs and modules, enable and disable
of knocking, `filter_port`, `unfilter_port`, `escalate`, `deescalate`)
returns `-EPERM` and leaves the whole registry as it was; the registry is
not loaded before `initialize_control` and after `cleanup_control`. -/
theorem mutators_need_loaded (m : Mutator) (c : Control) (h : c.ctrl_loaded = 0) :
    call m c = some (-EPERM, c) ∧
      control_at_load.ctrl_loaded = 0 ∧ ∀ c0, (cleanup_control c0).ctrl_loaded = 0 := by
  refine ⟨?_, rfl, fun _ => rfl⟩
  cases m <;>
    simp [call, hide_file_path, unhide_file_path, hide_file_prefix, unhide_file_prefix,
      hide_process, unhide_process, hide_tcp_socket, unhide_tcp_socket, hide_udp_socket,
      unhide_udp_socket, enable_knocking_tcp, disable_knocking_tcp, enable_knocking_udp,
      disable_knocking_udp, hide_service, unhide_service, hide_ip_address, unhide_ip_address,
      hide_module, unhide_module, filter_port, unfilter_port, escalate, deescalate,
      control_loaded, h]

/-- C16 at `hide_file_path` after `cleanup_control` of a loaded registry. -/
theorem mutators_need_loaded_witness :
    call (Mutator.hide_path (some []) (bytes "/tmp/x"))
        (cleanup_control (initialize_control control_at_load))
      = some (-EPERM, cleanup_control (initialize_control control_at_load)) ∧
      control_at_load.ctrl_loaded = 0 ∧ ∀ c0, (cleanup_control c0).ctrl_loaded = 0 :=
  mutators_need_loaded (Mutator.hide_path (some []) (bytes "/tmp/x"))
    (cleanup_control (initialize_control control_at_load)) rfl

theorem reachable_induction (P : Control → Prop)
    (hstep : ∀ m c r, P c → call m c = some r → P r.2) :
    ∀ (ms : List Mutator) (c c1 : Control), P c → calls ms c = some c1 → P c1 := by
  intro ms
  induction ms with
  | nil =>
    intro c c1 hc h
    simp only [calls, Option.some.injEq] at h
    subst h
    exact hc
  | cons m ms ih =>
    intro c c1 hc h
    simp only [calls] at h
    cases hm : call m c with
    | none => simp [hm] at h
    | some r =>
      rw [hm] at h
      exact ih r.2 c1 (hstep m c r hc hm) h

theorem reachable_loaded (c : Control) (h : reachable c) : c.ctrl_loaded = 1 := by
  obtain ⟨c0, ms, hms⟩ := h
  refine reachable_induction (fun c => c.ctrl_loaded = 1) ?_ ms _ c rfl hms
  intro m c r hc hm
  rw [call_loaded m c r hm]
  exact hc

theorem list_del_first_sublist {α : Type} (p : α → Bool) :
    ∀ (l l1 : List α), list_del_first p l = some l1 → l1.Sublist l := by
  intro l
  induction l with
  | nil => intro l1 h; simp [list_del_first] at h
  | cons x xs ih =>
    intro l1 h
    simp only [list_del_first] at h
    split at h
    · simp only [Option.some.injEq] at h
      subst h
      exact List.sublist_cons_self x xs
    · cases hr : list_del_first p xs with
      | none => simp [hr] at h
      | some l2 =>
        simp only [hr, Option.map_some', Option.some.injEq] at h
        subst h
        exact (ih l2 hr).cons₂ x

theorem list_del_first_keeps {α : Type} (p : α → Bool) :
    ∀ (l l1 : List α), list_del_first p l = some l1 →
      ∀ y ∈ l, p y = false → y ∈ l1 := by
  intro l
  induction l with
  | nil => intro l1 h; simp [list_del_first] at h
  | cons x xs ih =>
    intro l1 h y hy hpy
    simp only [list_del_first] at h
    split at h
    · rename_i hpx
      simp only [Option.some.injEq] at h
      subst h
      rcases List.mem_cons.mp hy with rfl | hy1
      · rw [hpx] at hpy
        exact absurd hpy (by simp)
      · exact hy1
    · cases hr : list_del_first p xs with
      | none => simp [hr] at h
      | some l2 =>
        simp only [hr, Option.map_some', Option.some.injEq] at h
        subst h
        rcases List.mem_cons.mp hy with rfl | hy1
        · exact List.mem_cons_self _ _
        · exact List.mem_cons_of_mem _ (ih l2 hr y hy1 hpy)

theorem list_del_first_none {α : Type} (p : α → Bool) :
    ∀ (l : List α), list_del_first p l = none ↔ ∀ y ∈ l, p y = false := by
  intro l
  induction l with
  | nil => simp [list_del_first]
  | cons x xs ih =>
    simp only [list_del_first]
    by_cases hpx : p x = true
    · simp [hpx]
    · simp only [hpx, if_false, Option.map_eq_none', ih, List.mem_cons, forall_eq_or_imp,
        Bool.false_eq_true]
      simp only [Bool.not_eq_true] at hpx
      simp [hpx]

theorem call_frame_knock (m : Mutator) (c : Control) (r : Int × Control)
    (h : call m c = some r) :
    (∃ k p q a, m = Mutator.filter k p q a) ∨ (∃ p q, m = Mutator.unfilter p q) ∨
      r.2.port_knocking_enabled = c.port_knocking_enabled := by
  cases m
  case filter k p q a => exact Or.inl ⟨k, p, q, a, rfl⟩
  case unfilter p q => exact Or.inr (Or.inl ⟨p, q, rfl⟩)
  case hide_proc pt fuel k pid =>
    refine Or.inr (Or.inr ?_)
    simp only [call] at h
    unfold hide_process at h
    split at h
    · simp only [Option.some.injEq] at h; subst h; rfl
    · split at h
      · simp at h
      · split at h
        · simp only [Option.some.injEq] at h; subst h; rfl
        · split at h <;> (simp only [Option.some.injEq] at h; subst h; rfl)
  all_goals
    refine Or.inr (Or.inr ?_)
    simp only [call, Option.some.injEq] at h
    subst h
    simp only [hide_file_path, unhide_file_path, hide_file_prefix, unhide_file_prefix,
      unhide_process, hide_tcp_socket, unhide_tcp_socket, hide_udp_socket, unhide_udp_socket,
      enable_knocking_tcp, disable_knocking_tcp, enable_knocking_udp, disable_knocking_udp,
      hide_service, unhide_service, hide_ip_address, unhide_ip_address, hide_module,
      unhide_module, escalate, deescalate]
    repeat' split
    all_goals rfl

theorem call_frame_escalated (m : Mutator) (c : Control) (r : Int × Control)
    (h : call m c = some r) :
    (∃ k id, m = Mutator.esc k id) ∨ (∃ pid, m = Mutator.deesc pid) ∨
      r.2.escalated_pids = c.escalated_pids := by
  cases m
  case esc k id => exact Or.inl ⟨k, id, rfl⟩
  case deesc pid => exact Or.inr (Or.inl ⟨pid, rfl⟩)
  case hide_proc pt fuel k pid =>
    refine Or.inr (Or.inr ?_)
    simp only [call] at h
    unfold hide_process at h
    split at h
    · simp only [Option.some.injEq] at h; subst h; rfl
    · split at h
      · simp at h
      · split at h
        · simp only [Option.some.injEq] at h; subst h; rfl
        · split at h <;> (simp only [Option.some.injEq] at h; subst h; rfl)
  all_goals
    refine Or.inr (Or.inr ?_)
    simp only [call, Option.some.injEq] at h
    subst h
    simp only [hide_file_path, unhide_file_path, hide_file_prefix, unhide_file_prefix,
      unhide_process, hide_tcp_socket, unhide_tcp_socket, hide_udp_socket, unhide_udp_socket,
      enable_knocking_tcp, disable_knocking_tcp, enable_knocking_udp, disable_knocking_udp,
      hide_service, unhide_service, hide_ip_address, unhide_ip_address, hide_module,
      unhide_module, filter_port, unfilter_port]
    repeat' split
    all_goals rfl

theorem is_port_filtered_ne_zero_iff (c : Control) (p q x : Int) :
    is_port_filtered c p q x ≠ 0 ↔
      ∃ e ∈ c.port_knocking_enabled, e.port = p ∧ e.protocol = q ∧ e.ipaddr ≠ to_u32 x := by
  unfold is_port_filtered
  by_cases h : c.port_knocking_enabled.any
      (fun cur => cur.port == p && cur.protocol == q && cur.ipaddr != to_u32 x) = true
  · rw [if_pos h]
    simp only [ne_eq, one_ne_zero, not_false_eq_true, true_iff]
    obtain ⟨e, he, hp⟩ := List.any_eq_true.mp h
    simp only [Bool.and_eq_true, beq_iff_eq, bne_iff_ne] at hp
    exact ⟨e, he, hp.1.1, hp.1.2, hp.2⟩
  · rw [if_neg h]
    simp only [ne_eq, not_true_eq_false, false_iff]
    rintro ⟨e, he, h1, h2, h3⟩
    apply h
    apply List.any_eq_true.mpr
    exact ⟨e, he, by simp [h1, h2, h3]⟩

theorem is_port_filtered_values (c : Control) (p q x : Int) :
    is_port_filtered c p q x = 1 ∨ is_port_filtered c p q x = 0 := by
  unfold is_port_filtered
  split
  · exact Or.inl rfl
  · exact Or.inr rfl

theorem filter_port_knock_inv (c : Control) (k : Option (List Nat)) (p q : Int) (a : Nat)
    (hinv : knock_inv c.port_knocking_enabled) :
    knock_inv (filter_port c k p q a).2.port_knocking_enabled := by
  unfold filter_port
  split
  · exact hinv
  · split
    · exact hinv
    · rename_i ha
      split
      · exact hinv
      · rename_i hf
        cases k with
        | none => exact hinv
        | some j =>
          have hnone : ¬ ∃ e ∈ c.port_knocking_enabled,
              e.port = p ∧ e.protocol = q ∧ e.ipaddr ≠ to_u32 0 :=
            fun h => hf ((is_port_filtered_ne_zero_iff c p q 0).mpr h)
          refine ⟨?_, ?_⟩
          · intro e he
            rcases List.mem_cons.mp he with rfl | he1
            · exact ha
            · exact hinv.1 e he1
          · refine List.pairwise_cons.mpr ⟨?_, hinv.2⟩
            intro e he hk
            exact hnone ⟨e, he, hk.1.symm, hk.2.symm, hinv.1 e he⟩

theorem unfilter_port_knock_inv (c : Control) (p q : Int)
    (hinv : knock_inv c.port_knocking_enabled) :
    knock_inv (unfilter_port c p q).2.port_knocking_enabled := by
  unfold unfilter_port
  split
  · exact hinv
  · split
    · rename_i l hl
      have hs := list_del_first_sublist _ _ _ hl
      exact ⟨fun e he => hinv.1 e (hs.subset he), hinv.2.sublist hs⟩
    · exact hinv

theorem call_knock_inv (m : Mutator) (c : Control) (r : Int × Control)
    (hinv : knock_inv c.port_knocking_enabled) (h : call m c = some r) :
    knock_inv r.2.port_knocking_enabled := by
  rcases call_frame_knock m c r h with ⟨k, p, q, a, rfl⟩ | ⟨p, q, rfl⟩ | hf
  · simp only [call, Option.some.injEq] at h
    subst h
    exact filter_port_knock_inv c k p q a hinv
  · simp only [call, Option.some.injEq] at h
    subst h
    exact unfilter_port_knock_inv c p q hinv
  · rw [hf]
    exact hinv

theorem reachable_knock_inv (c : Control) (h : reachable c) :
    knock_inv c.port_knocking_enabled := by
  obtain ⟨c0, ms, hms⟩ := h
  refine reachable_induction (fun c => knock_inv c.port_knocking_enabled) ?_ ms _ c ?_ hms
  · intro m c r hc hm
    exact call_knock_inv m c r hc hm
  · exact ⟨fun e he => by simp [initialize_control] at he, List.Pairwise.nil⟩

theorem call_keeps_entry (m : Mutator) (c : Control) (r : Int × Control)
    (e : port_knocking) (he : e ∈ c.port_knocking_enabled)
    (hm : m ≠ Mutator.unfilter e.port e.protocol) (h : call m c = some r) :
    e ∈ r.2.port_knocking_enabled := by
  rcases call_frame_knock m c r h with ⟨k, p, q, a, rfl⟩ | ⟨p, q, rfl⟩ | hf
  · simp only [call, Option.some.injEq] at h
    subst h
    unfold filter_port
    repeat' split
    all_goals first | exact he | exact List.mem_cons_of_mem _ he
  · simp only [call, Option.some.injEq] at h
    subst h
    unfold unfilter_port
    split
    · exact he
    · split
      · rename_i l hl
        refine list_del_first_keeps _ _ _ hl e he ?_
        by_cases hk : e.port = p ∧ e.protocol = q
        · exact absurd (by rw [hk.1, hk.2]) hm
        · simp only [Bool.and_eq_false_iff, beq_eq_false_iff_ne]
          by_cases h1 : e.port = p
          · exact Or.inr (fun h2 => hk ⟨h1, h2⟩)
          · exact Or.inl h1
      · exact he
  · rw [hf]
    exact he

theorem calls_keep_entry (e : port_knocking) :
    ∀ (ms : List Mutator) (c c1 : Control),
      (∀ m ∈ ms, m ≠ Mutator.unfilter e.port e.protocol) →
      knock_inv c.port_knocking_enabled → e ∈ c.port_knocking_enabled →
      calls ms c = some c1 →
      knock_inv c1.port_knocking_enabled ∧ e ∈ c1.port_knocking_enabled := by
  intro ms
  induction ms with
  | nil =>
    intro c c1 _ hinv he h
    simp only [calls, Option.some.injEq] at h
    subst h
    exact ⟨hinv, he⟩
  | cons m ms ih =>
    intro c c1 hms hinv he h
    simp only [calls] at h
    cases hm : call m c with
    | none => simp [hm] at h
    | some r =>
      rw [hm] at h
      exact ih r.2 c1 (fun m1 h1 => hms m1 (List.mem_cons_of_mem _ h1))
        (call_knock_inv m c r hinv hm)
        (call_keeps_entry m c r e he (hms m (List.mem_cons_self _ _)) hm) h

theorem is_port_filtered_of_entry (c : Control) (p q : Int) (ip : Nat) (src : Int)
    (hinv : knock_inv c.port_knocking_enabled)
    (he : ({ port := p, protocol := q, ipaddr := ip } : port_knocking)
      ∈ c.port_knocking_enabled) :
    is_port_filtered c p q src = if to_u32 src = ip then 0 else 1 := by
  have huniq : ∀ e ∈ c.port_knocking_enabled, e.port = p → e.protocol = q →
      e = { port := p, protocol := q, ipaddr := ip } := by
    intro e hmem h1 h2
    by_contra hne
    have hsym : Symmetric (fun a b : port_knocking =>
        ¬ (a.port = b.port ∧ a.protocol = b.protocol)) :=
      fun a b hab hba => hab ⟨hba.1.symm, hba.2.symm⟩
    exact hinv.2.forall hsym hmem he hne ⟨h1, h2⟩
  by_cases hs : to_u32 src = ip
  · rw [if_pos hs]
    by_contra hne
    obtain ⟨e, hmem, h1, h2, h3⟩ := (is_port_filtered_ne_zero_iff c p q src).mp hne
    have := huniq e hmem h1 h2
    subst this
    exact h3 hs.symm
  · rw [if_neg hs]
    have hne : is_port_filtered c p q src ≠ 0 :=
      (is_port_filtered_ne_zero_iff c p q src).mpr
        ⟨_, he, rfl, rfl, fun h => hs h.symm⟩
    rcases is_port_filtered_values c p q src with h | h
    · exact h
    · exact absurd h hne

/-- C19: in a registry state reached from `initialize_control`,
`filter_port(port, protocol, ip)` returns `-EINVAL` and changes nothing when
`ip` is 0 or a record for `(port, protocol)` exists; and after a call that
returned 0, through any later mutator calls other than
`unfilter_port(port, protocol)`, `is_port_filtered(port, protocol, src)` is 0
when `src`, as 32 unsigned bits, is `ip`, and 1 for every other `src`. -/
theorem filter_port_hides_from_others (c : Control) (k : Option (List Nat))
    (port protocol : Int) (ip : Nat) (hreach : reachable c) :
    ((ip = 0 ∨ ∃ e ∈ c.port_knocking_enabled, e.port = port ∧ e.protocol = protocol) →
        filter_port c k port protocol ip = (-EINVAL, c)) ∧
      (∀ (c1 : Control) (ms : List Mutator) (c2 : Control) (src : Int),
        filter_port c k port protocol ip = (0, c1) →
        (∀ m ∈ ms, m ≠ Mutator.unfilter port protocol) →
        calls ms c1 = some c2 →
        is_port_filtered c2 port protocol src = if to_u32 src = ip then 0 else 1) := by
  have hl := reachable_loaded c hreach
  have hinv := reachable_knock_inv c hreach
  have hl0 : ¬ control_loaded c = 0 := by
    unfold control_loaded
    rw [hl]
    decide
  constructor
  · intro h
    unfold filter_port
    rw [if_neg hl0]
    by_cases hip : ip = 0
    · rw [if_pos hip]
    · rw [if_neg hip]
      rcases h with h | ⟨e, he, h1, h2⟩
      · exact absurd h hip
      · have hf : is_port_filtered c port protocol 0 ≠ 0 :=
          (is_port_filtered_ne_zero_iff c port protocol 0).mpr ⟨e, he, h1, h2, hinv.1 e he⟩
        rw [if_pos hf]
  · intro c1 ms c2 src hf hms hcalls
    have hinv1 : knock_inv c1.port_knocking_enabled := by
      have := filter_port_knock_inv c k port protocol ip hinv
      rw [hf] at this
      exact this
    have he1 : ({ port := port, protocol := protocol, ipaddr := ip } : port_knocking)
        ∈ c1.port_knocking_enabled := by
      unfold filter_port at hf
      rw [if_neg hl0] at hf
      split at hf
      · simp [EINVAL] at hf
      · split at hf
        · simp [EINVAL] at hf
        · split at hf
          · simp [ENOMEM] at hf
          · simp only [Prod.mk.injEq, true_and] at hf
            subst hf
            exact List.mem_cons_self _ _
    obtain ⟨hinv2, he2⟩ := calls_keep_entry _ ms c1 c2 hms hinv1 he1 hcalls
    exact is_port_filtered_of_entry c2 port protocol ip src hinv2 he2

/-- C19 on a fresh registry: the address 0 is refused; after
`filter_port(22, 6, 167772161)`, a `filter_port` and an `unfilter_port` of
port 80, the port 22 is filtered for the source 5 and open for 167772161. -/
theorem filter_port_hides_from_others_witness :
    filter_port sample_control (some []) 22 6 0 = (-EINVAL, sample_control) ∧
      is_port_filtered (filter_port sample_control (some []) 22 6 167772161).2 22 6 5
        = (if to_u32 5 = 167772161 then 0 else 1) ∧
      is_port_filtered (filter_port sample_control (some []) 22 6 167772161).2 22 6 167772161
        = (if to_u32 167772161 = 167772161 then 0 else 1) :=
  ⟨(filter_port_hides_from_others sample_control (some []) 22 6 0
      ⟨control_at_load, [], rfl⟩).1 (Or.inl rfl),
    (filter_port_hides_from_others sample_control (some []) 22 6 167772161
      ⟨control_at_load, [], rfl⟩).2
      (filter_port sample_control (some []) 22 6 167772161).2
      [Mutator.filter (some []) 80 6 1, Mutator.unfilter 80 6]
      (filter_port sample_control (some []) 22 6 167772161).2 5
      (by decide)
      (by
        intro m hm
        simp only [List.mem_cons, List.mem_singleton, List.not_mem_nil, or_false] at hm
        rcases hm with rfl | rfl <;> simp)
      (by decide),
    (filter_port_hides_from_others sample_control (some []) 22 6 167772161
      ⟨control_at_load, [], rfl⟩).2
      (filter_port sample_control (some []) 22 6 167772161).2
      [] (filter_port sample_control (some []) 22 6 167772161).2 167772161
      (by decide) (by intro m hm; simp at hm) rfl⟩

theorem is_shell_escalated_none_iff (c : Control) (pid : Int) (h : pid ≠ 0) :
    is_shell_escalated c pid = none ↔ ∀ e ∈ c.escalated_pids, e.pid ≠ pid := by
  unfold is_shell_escalated
  rw [if_neg h, List.find?_eq_none]
  constructor
  · intro hx e he heq
    exact hx e he (by simp [heq])
  · intro hx e he heq
    exact hx e he (by simpa using heq)

theorem escalate_escalated_inv (c : Control) (k : Option (List Nat)) (id : escalated_pid)
    (hinv : escalated_inv c.escalated_pids) :
    escalated_inv (escalate c k id).2.escalated_pids := by
  unfold escalate
  split
  · exact hinv
  · split
    · rename_i hnone
      cases k with
      | none => exact hinv
      | some j =>
        intro pid hpid
        show ((id :: c.escalated_pids).filter (fun e => e.pid == pid)).length ≤ 1
        by_cases hid : id.pid = pid
        · have hn : is_shell_escalated c id.pid = none := by
            cases hx : is_shell_escalated c id.pid with
            | none => rfl
            | some v => rw [hx] at hnone; simp at hnone
          have hall := (is_shell_escalated_none_iff c id.pid (hid ▸ hpid)).mp hn
          have hnil : c.escalated_pids.filter (fun e => e.pid == pid) = [] := by
            rw [List.filter_eq_nil_iff]
            intro e he
            have := hall e he
            rw [hid] at this
            simpa using this
          rw [List.filter_cons_of_pos (by simp [hid]), hnil]
          simp
        · rw [List.filter_cons_of_neg (by simp [hid])]
          exact hinv pid hpid
    · exact hinv

theorem deescalate_escalated_inv (c : Control) (pid : Int)
    (hinv : escalated_inv c.escalated_pids) :
    escalated_inv (deescalate c pid).2.escalated_pids := by
  unfold deescalate
  split
  · exact hinv
  · split
    · rename_i l hl
      have hs := list_del_first_sublist _ _ _ hl
      intro q hq
      exact Nat.le_trans (hs.filter _).length_le (hinv q hq)
    · exact hinv

theorem reachable_escalated_inv (c : Control) (h : reachable c) :
    escalated_inv c.escalated_pids := by
  obtain ⟨c0, ms, hms⟩ := h
  refine reachable_induction (fun c => escalated_inv c.escalated_pids) ?_ ms _ c ?_ hms
  · intro m c r hc hm
    rcases call_frame_escalated m c r hm with ⟨k, id, rfl⟩ | ⟨pid, rfl⟩ | hf
    · simp only [call, Option.some.injEq] at hm
      subst hm
      exact escalate_escalated_inv c k id hc
    · simp only [call, Option.some.injEq] at hm
      subst hm
      exact deescalate_escalated_inv c pid hc
    · show escalated_inv r.2.escalated_pids
      rw [hf]
      exact hc
  · intro pid _
    simp [initialize_control]

/-- C20, as stated, fails at the process id 0: `is_shell_escalated(0)` is
NULL whatever the list holds, so a second `escalate` for the process 0
returns 0 and the list holds two records of it. -/
theorem escalate_pid_zero_twice :
    (calls [Mutator.esc (some []) sample_id_zero, Mutator.esc (some []) sample_id_zero]
        sample_control).map
      (fun c => (c.escalated_pids.filter (fun e => e.pid == 0)).length) = some 2 ∧
    (escalate (escalate sample_control (some []) sample_id_zero).2 (some [])
      sample_id_zero).1 = 0 := by
  decide

/-- C20, amended to the process ids other than 0: in every registry state
reached from `initialize_control` through mutator calls (`escalate` and
`deescalate` among them), the list `escalated_pids` holds at most one record
per process id other than 0, and `escalate` for such an id that has a record
returns `-EINVAL` and leaves the registry as it was. -/
theorem escalated_one_record_per_pid (c : Control) (hreach : reachable c) :
    (∀ pid : Int, pid ≠ 0 →
        (c.escalated_pids.filter (fun e => e.pid == pid)).length ≤ 1) ∧
      (∀ (k : Option (List Nat)) (id : escalated_pid), id.pid ≠ 0 →
        (∃ e ∈ c.escalated_pids, e.pid = id.pid) →
        escalate c k id = (-EINVAL, c)) := by
  have hl := reachable_loaded c hreach
  refine ⟨reachable_escalated_inv c hreach, ?_⟩
  intro k id hid hex
  have hl0 : ¬ control_loaded c = 0 := by
    unfold control_loaded
    rw [hl]
    decide
  have hsome : ¬ (is_shell_escalated c id.pid).isNone = true := by
    intro hn
    have hnone : is_shell_escalated c id.pid = none := by
      cases hx : is_shell_escalated c id.pid with
      | none => rfl
      | some v => rw [hx] at hn; simp at hn
    obtain ⟨e, he, heq⟩ := hex
    exact (is_shell_escalated_none_iff c id.pid hid).mp hnone e he heq
  unfold escalate
  rw [if_neg hl0, if_neg hsome]

/-- C20, amended, at the registry after one `escalate` of the process 4242:
a second `escalate` of it is refused. -/
theorem escalated_one_record_per_pid_witness :
    (((escalate sample_control (some []) sample_id).2.escalated_pids.filter
        (fun e => e.pid == 4242)).length ≤ 1) ∧
      escalate (escalate sample_control (some []) sample_id).2 (some []) sample_id
        = (-EINVAL, (escalate sample_control (some []) sample_id).2) :=
  have h := escalated_one_record_per_pid (escalate sample_control (some []) sample_id).2
    ⟨control_at_load, [Mutator.esc (some []) sample_id], rfl⟩
  ⟨h.1 4242 (by decide), h.2 (some []) sample_id (by decide)
    ⟨sample_id, by decide, rfl⟩⟩

set_option maxRecDepth 100000 in
/-- C17 fails at the longest accepted name: `hide_file_path` accepts a name
of exactly 1023 characters and returns 0, `strncpy(new->name, name, 1023)`
writes no NUL, the stored string runs on into the old byte of the block
(here 65), and `is_path_hidden` does not find the name; `hide_file_prefix`
does the same at 63 characters. -/
theorem hide_file_path_longest_name_not_found :
    (hide_file_path sample_control (some [65]) (List.replicate 1023 97)).1 = 0 ∧
      is_path_hidden (hide_file_path sample_control (some [65]) (List.replicate 1023 97)).2
        (some (List.replicate 1023 97)) = 0 ∧
      ( hide_file_prefix sample_control (some [65]) (List.replicate 63 97)).1 = 0 ∧
      is_prefix_hidden ( hide_file_prefix sample_control (some [65]) (List.replicate 63 97)).2
        (some (List.replicate 63 97)) = 0 := by
  decide

set_option maxRecDepth 100000 in
/-- C18 fails in a reachable state that the same missing NUL produces: the
name of 1023 characters is accepted twice (it is never found), both records
read as the name followed by the old byte 65; that string is present,
`unhide_file_path` of it returns 0, and it is still present afterwards. -/
theorem unhide_file_path_leaves_second_record :
    calls [Mutator.hide_path (some [65]) (List.replicate 1023 97),
        Mutator.hide_path (some [65]) (List.replicate 1023 97)] sample_control
      = some (hide_file_path (hide_file_path sample_control (some [65])
          (List.replicate 1023 97)).2 (some [65]) (List.replicate 1023 97)).2 ∧
    is_path_hidden (hide_file_path (hide_file_path sample_control (some [65])
        (List.replicate 1023 97)).2 (some [65]) (List.replicate 1023 97)).2
      (some (List.replicate 1023 97 ++ [65])) = 1 ∧
    (unhide_file_path (hide_file_path (hide_file_path sample_control (some [65])
        (List.replicate 1023 97)).2 (some [65]) (List.replicate 1023 97)).2
      (List.replicate 1023 97 ++ [65])).1 = 0 ∧
    is_path_hidden (unhide_file_path (hide_file_path (hide_file_path sample_control
        (some [65]) (List.replicate 1023 97)).2 (some [65]) (List.replicate 1023 97)).2
      (List.replicate 1023 97 ++ [65])).2 (some (List.replicate 1023 97 ++ [65])) = 1 := by
  decide

/-! ## The process walk -/

theorem process_walk_spec (c : Control) (pt : ProcessTable) :
    ∀ (n fuel t : Nat), chain_ends pt n t = true → n ≤ fuel →
      ∃ r, process_walk c pt fuel t = some r ∧ (r = 1 ∨ r = 0) ∧
        (r = 1 ↔ spec_process_hidden c pt t) := by
  intro n
  induction n with
  | zero => intro fuel t h; simp [chain_ends] at h
  | succ n ih =>
    intro fuel t hends hfuel
    obtain ⟨f, rfl⟩ : ∃ f, fuel = f + 1 := ⟨fuel - 1, by omega⟩
    by_cases hm : c.processes.any (fun cur => cur == (pt.task t).pid) = true
    · refine ⟨1, by simp only [process_walk, hm, if_true], Or.inl rfl, ?_⟩
      obtain ⟨q, hq, hqe⟩ := List.any_eq_true.mp hm
      have : q = (pt.task t).pid := by simpa using hqe
      exact ⟨fun _ => ⟨t, Reached.here t, this ▸ hq⟩, fun _ => rfl⟩
    · have hnot : (pt.task t).pid ∉ c.processes := by
        intro hin
        exact hm (List.any_eq_true.mpr ⟨_, hin, by simp⟩)
      simp only [chain_ends] at hends
      cases hp : (pt.task t).parent with
      | none =>
        refine ⟨0, by simp only [process_walk, hm, hp]; rfl, Or.inr rfl, ?_⟩
        constructor
        · intro h; exact absurd h (by decide)
        · rintro ⟨x, hx, hin⟩
          cases hx with
          | here => exact absurd hin hnot
          | up _ t1 _ h1 _ _ => rw [hp] at h1; simp at h1
      | some t1 =>
        rw [hp] at hends
        by_cases hz : (pt.task t1).pid = 0
        · refine ⟨0, by simp only [process_walk, hm, hp, hz]; rfl, Or.inr rfl, ?_⟩
          constructor
          · intro h; exact absurd h (by decide)
          · rintro ⟨x, hx, hin⟩
            cases hx with
            | here => exact absurd hin hnot
            | up _ t2 _ h1 h2 _ =>
              rw [hp] at h1
              simp only [Option.some.injEq] at h1
              subst h1
              exact absurd hz h2
        · have hends1 : chain_ends pt n t1 = true := by
            simpa [hz] using hends
          obtain ⟨r, h1, h2, h3⟩ := ih f t1 hends1 (by omega)
          refine ⟨r, ?_, h2, ?_⟩
          · simp only [process_walk, hm, hp]
            simp only [ne_eq, hz, not_false_eq_true, if_true]
            exact h1
          · rw [h3]
            constructor
            · rintro ⟨x, hx, hin⟩
              exact ⟨x, Reached.up t t1 x hp hz hx, hin⟩
            · rintro ⟨x, hx, hin⟩
              cases hx with
              | here => exact absurd hin hnot
              | up _ t2 _ h4 _ h6 =>
                rw [hp] at h4
                simp only [Option.some.injEq] at h4
                subst h4
                exact ⟨x, h6, hin⟩

/-- C13: for a process table in which the pid `p` exists (its task is at
`t`) and the parent chain from it is finite (it ends within `n` steps),
`is_process_hidden(p)` returns, given fuel for `n` passes, 1 or 0, and 1
exactly when the task itself or a task reached by following parent links
(up to a missing parent or a parent with pid 0) has its pid in the
hidden-process list. -/
theorem is_process_hidden_ancestry (c : Control) (pt : ProcessTable) (p : Int)
    (t n fuel : Nat) (hfind : pt.find_task p = some t)
    (hfin : chain_ends pt n t = true) (hfuel : n ≤ fuel) :
    ∃ r, is_process_hidden c pt fuel p = some r ∧ (r = 1 ∨ r = 0) ∧
      (r = 1 ↔ spec_process_hidden c pt t) := by
  unfold is_process_hidden
  rw [hfind]
  exact process_walk_spec c pt n fuel t hfin hfuel

/-- C13 with only the pid 100 registered: 1 for the pid 150, whose parent
chain is 120, 100, 1, and 0 for the pid 200, whose parent chain is 1. -/
theorem is_process_hidden_ancestry_witness :
    (∃ r, is_process_hidden { sample_control with processes := [100] } sample_table 4 150
        = some r ∧ (r = 1 ∨ r = 0) ∧
        (r = 1 ↔ spec_process_hidden { sample_control with processes := [100] }
          sample_table 150)) ∧
      is_process_hidden { sample_control with processes := [100] } sample_table 4 150
        = some 1 ∧
      is_process_hidden { sample_control with processes := [100] } sample_table 4 200
        = some 0 :=
  ⟨is_process_hidden_ancestry { sample_control with processes := [100] } sample_table 150
      150 4 4 (by decide) (by decide) (by decide),
    by decide, by decide⟩

/-! ## The tests on one record -/

theorem fprefix_loop_step (names : List (List Nat)) (f : Nat) (a b : List Nat) (bl : Int)
    (hnm : list_match names (a ++ delimiter :: b) = false) (ha : delimiter ∉ a)
    (hlen : ((a ++ delimiter :: b).length : Int) ≤ bl) (hint : bl < 2147483648)
    (hb : b ≠ []) :
    fprefix_loop names (f + 1) (a ++ delimiter :: b) bl
      = fprefix_loop names f b (bl - ((a.length : Int) + 1)) := by
  have hg := get_next_level_split a b bl ha hlen hint
  rw [if_neg hb] at hg
  simp only [fprefix_loop, hnm, hg]
  rfl

theorem list_match_single_head (n x : Nat) (ns rest : List Nat) (h : x ≠ n) :
    list_match [n :: ns] (x :: rest) = false := by
  have hp : ¬ (n :: ns) <+: (x :: rest) := by
    intro hp
    obtain ⟨t, ht⟩ := hp
    simp only [List.cons_append, List.cons.injEq] at ht
    exact h ht.1.symm
  have : ¬ list_match [n :: ns] (x :: rest) = true := by
    rw [list_match_iff]
    rintro ⟨name, hn, hpre⟩
    simp only [List.mem_singleton] at hn
    subst hn
    exact hp hpre
  simpa using this

theorem check_hide_fprefix_some (names : List (List Nat)) (fuel : Nat) (p : List Nat)
    (bl : Int) :
    check_hide_fprefix names fuel (some p) bl = fprefix_loop names fuel p bl :=
  rfl

theorem sample_dir_length : sample_dir.length = 1000 :=
  List.length_replicate 1000 97

theorem sample_dir_no_delimiter : delimiter ∉ sample_dir :=
  fun h => absurd (List.eq_of_mem_replicate h) (by decide)

theorem sample_dir_head : sample_dir = 97 :: List.replicate 999 97 :=
  List.replicate_succ 97 999

theorem sample_long_path_length : sample_long_path.length = 1003 := by
  simp only [sample_long_path, List.length_cons, List.length_append, sample_dir_length,
    List.length_nil]

theorem sample_long_path_levels :
    check_hide_fprefix (get_prefix_list sample_control_hid) (sample_long_path.length + 1)
      (some sample_long_path) 1024 = some (0, 22) := by
  have hp : sample_long_path = [] ++ delimiter :: (sample_dir ++ delimiter :: [108]) := rfl
  have hn : get_prefix_list sample_control_hid = [bytes "hid"] := rfl
  rw [sample_long_path_length, check_hide_fprefix_some, hn, hp]
  have hb : bytes "hid" = 104 :: [105, 100] := by decide
  have hl1 : (([] ++ delimiter :: (sample_dir ++ delimiter :: [108])).length : Int) ≤ 1024 := by
    simp only [List.nil_append, List.length_cons, List.length_append, sample_dir_length,
      List.length_nil]
    decide
  have hl2 : ((sample_dir ++ delimiter :: [108]).length : Int)
      ≤ 1024 - ((([] : List Nat).length : Int) + 1) := by
    simp only [List.length_cons, List.length_append, sample_dir_length, List.length_nil]
    decide
  rw [hb, fprefix_loop_step _ 1003 [] _ 1024
    (list_match_single_head 104 delimiter _ _ (by decide)) (by simp) hl1 (by decide)
    (by simp)]
  have hm2 : list_match [104 :: [105, 100]] (sample_dir ++ delimiter :: [108]) = false := by
    rw [sample_dir_head]
    exact list_match_single_head 104 97 _ _ (by decide)
  rw [show (1003 : Nat) = 1002 + 1 from rfl,
    fprefix_loop_step _ 1002 sample_dir [108] _ hm2 sample_dir_no_delimiter hl2
      (by decide) (by simp)]
  rw [sample_dir_length]
  decide

theorem sample_link_long_path : sample_link sample_long_path = (35, sample_target) := by
  unfold sample_link
  rw [if_pos rfl]

theorem hide_loop_step (c : Control) (readlink : List Nat → Int × List Nat) (fuel : Nat)
    (curpath : List Nat) (bl bl1 : Int) (r : Int) (written next : List Nat)
    (hpath : check_hide_fpath c (some curpath) = 0)
    (hlevels : check_hide_fprefix (get_prefix_list c) (curpath.length + 1) (some curpath) bl
      = some (0, bl1))
    (hlink : readlink curpath = (r, written)) (hr : r > 0)
    (hnext : strncpy_string (lpath_string r written) 1024 = some next) :
    hide_loop c readlink (fuel + 1) curpath bl = hide_loop c readlink fuel next bl1 := by
  simp only [hide_loop, hpath, hlevels, hlink, hnext, hr]
  simp

/-- C11 fails on a long path: `sample_long_path` (1003 characters) is a link
to `sample_target` and the chain ends there; the target has the level `hid`,
which the registered name `hid` begins, and `check_hide_loop` on the target
alone returns 1.  On the long path it returns 0: the walk over the levels of
the long path has lowered `*curpath_len` from 1024 to 22, nothing sets it
back, and the `'/'` before `hid`, at offset 31 of the target, is not looked
for beyond that bound. -/
theorem check_hide_loop_misses_level_of_target :
    sample_long_path.length ≤ 1023 ∧
      (sample_link sample_long_path).1 > 0 ∧
      next_hop sample_link sample_long_path = sample_target ∧
      (sample_link sample_target).1 ≤ 0 ∧
      spec_hidden_by_level sample_control_hid.prefixes sample_target ∧
      check_hide_loop sample_control_hid sample_link 1 sample_target = some 1 ∧
      check_hide_loop sample_control_hid sample_link 2 sample_long_path = some 0 := by
  have hstr : lpath_string 35 sample_target = sample_target := by decide
  refine ⟨?_, ?_, ?_, by decide, ?_, by decide, ?_⟩
  · rw [sample_long_path_length]
    decide
  · rw [sample_link_long_path]
    decide
  · unfold next_hop
    rw [sample_link_long_path]
    exact hstr
  · refine ⟨bytes "hid", by decide, Or.inr ⟨47 :: List.replicate 30 98, bytes "hid", ?_, ?_, ?_⟩⟩
    · decide
    · decide
    · exact List.prefix_refl _
  · have hcopy : strncpy_string sample_long_path 1024 = some sample_long_path := by
      unfold strncpy_string
      rw [sample_long_path_length]
      rfl
    have hnext : strncpy_string (lpath_string 35 sample_target) 1024 = some sample_target := by
      decide
    unfold check_hide_loop
    rw [hcopy]
    show hide_loop sample_control_hid sample_link (1 + 1) sample_long_path 1024 = some 0
    rw [hide_loop_step sample_control_hid sample_link 1 sample_long_path 1024 22 35
      sample_target sample_target rfl sample_long_path_levels sample_link_long_path
      (by decide) hnext]
    decide

theorem strnchr_some_inv (c : Nat) : ∀ (s : List Nat) (count i : Nat),
    strnchr s count c = some i → s.drop i = c :: s.drop (i + 1) := by
  intro s
  induction s with
  | nil => intro count i h; cases count <;> simp [strnchr] at h
  | cons b t ih =>
    intro count i h
    cases count with
    | zero => simp [strnchr] at h
    | succ n =>
      simp only [strnchr] at h
      split at h
      · rename_i hb
        simp only [Option.some.injEq] at h
        subst h
        simp [hb]
      · cases hr : strnchr t n c with
        | none => simp [hr] at h
        | some j =>
          simp only [hr, Option.map_some', Option.some.injEq] at h
          subst h
          simpa using ih n j hr

theorem get_next_level_some (d next : List Nat) (bl bl1 : Int)
    (h : get_next_level (some d) bl = (some next, bl1)) :
    ∃ a, d = a ++ delimiter :: next ∧ next ≠ [] := by
  simp only [get_next_level] at h
  cases hs : strnchr d (to_size_t bl) delimiter with
  | none => simp [hs] at h
  | some i =>
    simp only [hs] at h
    have hd := strnchr_some_inv delimiter d _ i hs
    split at h
    · rename_i hlen
      split at h
      · simp at h
      · simp only [Prod.mk.injEq, Option.some.injEq] at h
        refine ⟨d.take i, ?_, ?_⟩
        · rw [← h.1, ← hd, List.take_append_drop]
        · rw [← h.1]
          intro hnil
          rw [hd, hnil] at hlen
          simp at hlen
    · simp at h

theorem spec_hidden_by_level_of_level (names : List (List Nat)) (a b : List Nat)
    (hb : b ≠ []) (h : spec_hidden_by_level names b) :
    spec_hidden_by_level names (a ++ delimiter :: b) := by
  obtain ⟨name, hn, h1 | ⟨a2, b1, hd, hb1, hp⟩⟩ := h
  · exact ⟨name, hn, Or.inr ⟨a, b, rfl, hb, h1⟩⟩
  · refine ⟨name, hn, Or.inr ⟨a ++ delimiter :: a2, b1, ?_, hb1, hp⟩⟩
    rw [hd, List.append_assoc]
    rfl

/-- The loop of `check_hide_fprefix` with enough fuel, whatever the length
bound: it returns 1 or 0, and 1 only in the cases the specification names. -/
theorem fprefix_loop_sound (names : List (List Nat)) :
    ∀ (fuel : Nat) (d : List Nat) (buflen : Int), d.length < fuel →
      ∃ r bl, fprefix_loop names fuel d buflen = some (r, bl) ∧ (r = 1 ∨ r = 0) ∧
        (r = 1 → spec_hidden_by_level names d) := by
  intro fuel
  induction fuel with
  | zero => intro d buflen h; omega
  | succ f ih =>
    intro d buflen hfuel
    by_cases hm : list_match names d = true
    · refine ⟨1, buflen, by simp only [fprefix_loop, hm, if_true], Or.inl rfl, fun _ => ?_⟩
      obtain ⟨name, hn, hp⟩ := (list_match_iff names d).mp hm
      exact ⟨name, hn, Or.inl hp⟩
    · cases hg : get_next_level (some d) buflen with
      | mk res bl1 =>
        cases res with
        | none =>
          refine ⟨0, bl1, by simp only [fprefix_loop, hm, hg]; rfl, Or.inr rfl, ?_⟩
          intro h
          exact absurd h (by decide)
        | some next =>
          obtain ⟨a, hd, hne⟩ := get_next_level_some d next buflen bl1 hg
          have hl : next.length < f := by
            rw [hd] at hfuel
            simp only [List.length_append, List.length_cons] at hfuel
            omega
          obtain ⟨r, bl, h1, h2, h3⟩ := ih next bl1 hl
          refine ⟨r, bl, ?_, h2, ?_⟩
          · simp only [fprefix_loop, hm, hg]
            exact h1
          · intro hr
            rw [hd]
            exact spec_hidden_by_level_of_level names a next hne (h3 hr)

theorem takeWhile_length_le_of_zero : ∀ (l : List Nat) (i : Nat), l[i]? = some 0 →
    (l.takeWhile (fun b => b != 0)).length ≤ i := by
  intro l
  induction l with
  | nil => intro i h; simp at h
  | cons x t ih =>
    intro i h
    cases i with
    | zero =>
      simp only [List.getElem?_cons_zero, Option.some.injEq] at h
      subst h
      simp [List.takeWhile]
    | succ j =>
      simp only [List.getElem?_cons_succ] at h
      have := ih j h
      by_cases hx : x = 0
      · subst hx
        simp [List.takeWhile]
      · have hx1 : (x != 0) = true := by simpa using hx
        have e : List.takeWhile (fun b => b != 0) (x :: t)
            = x :: List.takeWhile (fun b => b != 0) t := by
          simp only [List.takeWhile, hx1]
        rw [e, List.length_cons]
        omega

theorem lpath_string_length (r : Int) (written : List Nat) :
    (lpath_string r written).length < 1024 := by
  have h0 : ((written.take 1023 ++ List.replicate 1024 0).take 1024)[1023]? = some 0 := by
    rw [List.getElem?_take_of_lt (by omega)]
    have hl : (written.take 1023).length ≤ 1023 := by
      rw [List.length_take]
      omega
    rw [List.getElem?_append_right hl, List.getElem?_replicate]
    rw [if_pos (by omega)]
  have hlen : ((written.take 1023 ++ List.replicate 1024 0).take 1024).length = 1024 := by
    rw [List.length_take, List.length_append, List.length_replicate]
    omega
  unfold lpath_string
  simp only
  split
  · have h1 : (((written.take 1023 ++ List.replicate 1024 0).take 1024).set
        (r + 1).toNat 0)[1023]? = some 0 := by
      rw [List.getElem?_set]
      split
      · rw [if_pos (by omega)]
      · exact h0
    have := takeWhile_length_le_of_zero _ 1023 h1
    omega
  · have := takeWhile_length_le_of_zero _ 1023 h0
    omega

/-- On a set of paths that readlink never leaves, on which it never fails
and of which none matches a test, the loop of `check_hide_loop` uses up any
fuel. -/
theorem hide_loop_never_returns (c : Control) (readlink : List Nat → Int × List Nat)
    (S : List Nat → Prop)
    (hS : ∀ q, S q → check_hide_fpath c (some q) = 0 ∧
      ¬ spec_hidden_by_level (get_prefix_list c) q ∧
      (readlink q).1 > 0 ∧ S (next_hop readlink q)) :
    ∀ (fuel : Nat) (curpath : List Nat) (bl : Int), S curpath →
      hide_loop c readlink fuel curpath bl = none := by
  intro fuel
  induction fuel with
  | zero => intro curpath bl _; rfl
  | succ f ih =>
    intro curpath bl hq
    obtain ⟨h1, h2, h3, h4⟩ := hS curpath hq
    obtain ⟨r, bl1, hr, hr01, hsound⟩ :=
      fprefix_loop_sound (get_prefix_list c) (curpath.length + 1) curpath bl (by omega)
    have hr0 : r = 0 := by
      rcases hr01 with h | h
      · exact absurd (hsound h) h2
      · exact h
    subst hr0
    have hcopy : strncpy_string (lpath_string (readlink curpath).1 (readlink curpath).2) 1024
        = some (next_hop readlink curpath) := by
      unfold strncpy_string
      rw [if_pos (lpath_string_length _ _)]
      rfl
    simp only [hide_loop, h1, check_hide_fprefix_some, hr, hcopy, h3]
    simpa using ih (next_hop readlink curpath) bl1 h4

theorem sample_cycle_closed : ∀ k, k < 41 →
    (sample_cycle_link (sample_cycle_path k)).1 > 0 ∧
    next_hop sample_cycle_link (sample_cycle_path k) = sample_cycle_path ((k + 1) % 41) := by
  decide

theorem sample_cycle_hops (q : List Nat) (hq : ∃ k, k < 41 ∧ q = sample_cycle_path k) :
    check_hide_fpath sample_control (some q) = 0 ∧
      ¬ spec_hidden_by_level (get_prefix_list sample_control) q ∧
      (sample_cycle_link q).1 > 0 ∧
      ∃ k, k < 41 ∧ next_hop sample_cycle_link q = sample_cycle_path k := by
  obtain ⟨k, hk, rfl⟩ := hq
  obtain ⟨h1, h2⟩ := sample_cycle_closed k hk
  refine ⟨rfl, ?_, h1, (k + 1) % 41, Nat.mod_lt _ (by decide), h2⟩
  rintro ⟨name, hn, _⟩
  simp [get_prefix_list, sample_control, initialize_control] at hn

/-- C12, as stated, fails: on the cycle of 41 links, with nothing
registered, no number of passes lets `check_hide_loop` return. -/
theorem check_hide_loop_cycle_never_returns :
    ¬ ∃ fuel r, check_hide_loop sample_control sample_cycle_link fuel (sample_cycle_path 0)
      = some r := by
  rintro ⟨fuel, r, h⟩
  have hn := hide_loop_never_returns sample_control sample_cycle_link
    (fun q => ∃ k, k < 41 ∧ q = sample_cycle_path k) sample_cycle_hops fuel
    (sample_cycle_path 0) 1024 ⟨0, by decide, rfl⟩
  have hcopy : strncpy_string (sample_cycle_path 0) 1024 = some (sample_cycle_path 0) := by
    decide
  simp only [check_hide_loop, hcopy, hn] at h
  exact absurd h (by simp)

/-- C12, amended: `check_hide_loop` has no bound on the hops.  On a chain
that readlink never leaves (`S` holds of the path and of every target, as on
a cycle), on which readlink never fails and no hop is a registered hidden
path or has a hidden name beginning, the loop is still running after any
number `fuel` of passes: the call does not return. -/
theorem check_hide_loop_has_no_hop_bound (c : Control)
    (readlink : List Nat → Int × List Nat) (S : List Nat → Prop) (path : List Nat)
    (fuel : Nat)
    (hS : ∀ q, S q → check_hide_fpath c (some q) = 0 ∧
      ¬ spec_hidden_by_level (get_prefix_list c) q ∧
      (readlink q).1 > 0 ∧ S (next_hop readlink q))
    (hp : S path) (hlen : path.length ≤ 1023) :
    check_hide_loop c readlink fuel path = none := by
  have hcopy : strncpy_string path 1024 = some path := by
    unfold strncpy_string
    rw [if_pos (by omega)]
  simp only [check_hide_loop, hcopy]
  exact hide_loop_never_returns c readlink S hS fuel path 1024 hp

/-- C12, amended, on the cycle of 41 links with 1000 passes allowed. -/
theorem check_hide_loop_has_no_hop_bound_witness :
    check_hide_loop sample_control sample_cycle_link 1000 (sample_cycle_path 0) = none :=
  check_hide_loop_has_no_hop_bound sample_control sample_cycle_link
    (fun q => ∃ k, k < 41 ∧ q = sample_cycle_path k) (sample_cycle_path 0) 1000
    sample_cycle_hops ⟨0, by decide, rfl⟩ (by decide)

set_option maxRecDepth 100000 in
/-- C14 fails for an entry of `/proc` that is no process: for `cpuinfo` the
pid lookup fails, `is_process_hidden` returns `-EINVAL`, which
`check_hide_process` hands on and `||` takes as true.  No path, no name
beginning and no link matches, and the record is removed all the same:
the wrapper returns 0 for a listing that holds this one record. -/
theorem proc_entry_without_process_is_hidden :
    sample_helpers.tasks.find_task (sample_helpers.convert_atoi (bytes "cpuinfo")) = none ∧
      check_hide_process sample_helpers sample_control 1 3 (bytes "cpuinfo") = some (-22) ∧
      record_path sample_helpers 3 (bytes "cpuinfo") = some (bytes "/proc/cpuinfo") ∧
      check_hide_loop sample_control sample_helpers.readlink 1 (bytes "/proc/cpuinfo")
        = some 0 ∧
      record_decision sample_helpers sample_control 1 3 (bytes "cpuinfo") = some true ∧
      (manipulated_getdents (fun _ _ _ => (32, sample_record (bytes "cpuinfo") 32))
          (fun name => record_decision sample_helpers sample_control 1 3 name == some true)
          1 sample_globals 3 [] 32).map (fun res => res.retv) = some 0 := by
  decide

set_option maxRecDepth 100000 in
/-- C15 fails for a long directory path: with a directory of 1000 characters
and a name of 100, the separator is written at offset 1000 and
`strcpy(path + 1001, d_name)` then writes 101 bytes, past the end of the
block of 1024; nothing truncates.  A name of 20 characters fits and gives
the directory, the separator and the name, 1021 characters. -/
theorem record_path_overruns_block :
    (sample_helpers_deep.get_path 3).1 = 1000 ∧
      (terminate_path (sample_helpers_deep.get_path 3).2 1000).map (fun r => r.2) = some 1 ∧
      record_path sample_helpers_deep 3 (List.replicate 100 98) = none ∧
      record_path sample_helpers_deep 3 (List.replicate 20 98)
        = some (47 :: List.replicate 999 97 ++ 47 :: List.replicate 20 98) := by
  decide

/-! ## Escalation and its undoing -/

/-- C21: with the registry loaded, the calling process (pid not 0) not yet
escalated and both allocations succeeding, `priv_escalation` returns 0 and
leaves all eight ids of the caller 0; `priv_deescalation` by the same
process right after returns 0, gives the caller the credentials it had
before the escalation, and leaves the registry, the escalated list
included, as it was before. -/
theorem priv_escalation_roundtrip (c : Control) (cur : Current) (j1 j2 : List Nat)
    (hl : c.ctrl_loaded ≠ 0) (hpid : cur.pid ≠ 0)
    (hnot : is_shell_escalated c cur.pid = none) :
    ∃ c1 cur1, priv_escalation c cur (some j1) (some j2) = some (0, c1, cur1) ∧
      cur1.cred = root_cred ∧ cur1.pid = cur.pid ∧
      priv_deescalation c1 cur1 = (0, c, cur) := by
  have hl0 : ¬ control_loaded c = 0 := hl
  have hesc : priv_escalation c cur (some j1) (some j2) = some (0,
      { c with escalated_pids :=
          { pid := cur.pid, uid := cur.cred.uid, euid := cur.cred.euid,
            suid := cur.cred.suid, fsuid := cur.cred.fsuid, gid := cur.cred.gid,
            egid := cur.cred.egid, sgid := cur.cred.sgid, fsgid := cur.cred.fsgid }
          :: c.escalated_pids },
      { cur with cred := root_cred }) := by
    simp only [priv_escalation, hnot, Option.isNone_none, if_true, escalate, if_neg hl0]
    rfl
  refine ⟨_, _, hesc, rfl, rfl, ?_⟩
  have hfound : is_shell_escalated
      { c with escalated_pids :=
          { pid := cur.pid, uid := cur.cred.uid, euid := cur.cred.euid,
            suid := cur.cred.suid, fsuid := cur.cred.fsuid, gid := cur.cred.gid,
            egid := cur.cred.egid, sgid := cur.cred.sgid, fsgid := cur.cred.fsgid }
          :: c.escalated_pids } cur.pid
      = some
          { pid := cur.pid, uid := cur.cred.uid, euid := cur.cred.euid,
            suid := cur.cred.suid, fsuid := cur.cred.fsuid, gid := cur.cred.gid,
            egid := cur.cred.egid, sgid := cur.cred.sgid, fsgid := cur.cred.fsgid } := by
    simp only [is_shell_escalated, if_neg hpid, List.find?_cons, beq_self_eq_true]
  simp only [priv_deescalation, hfound, deescalate, control_loaded, if_neg hl, list_del_first,
    beq_self_eq_true, if_true]

/-- C21 at a shell of the user 1000 on a fresh registry. -/
theorem priv_escalation_roundtrip_witness :
    ∃ c1 cur1, priv_escalation sample_control sample_current (some []) (some [])
        = some (0, c1, cur1) ∧
      cur1.cred = root_cred ∧ cur1.pid = sample_current.pid ∧
      priv_deescalation c1 cur1 = (0, sample_control, sample_current) :=
  priv_escalation_roundtrip sample_control sample_current [] [] (by decide) (by decide)
    (by decide)

/-- C27 fails when `escalate` fails: `priv_escalation` has committed the
zeroed credentials before it calls `escalate` and does not take them back.
With the registry loaded and the allocation inside `escalate` returning NULL
it returns `-ENOMEM`, after `cleanup_control` it returns `-EPERM`; both times
the caller is left with all eight ids 0, no record saved.  Only the error
of the already escalated caller leaves the ids alone. -/
theorem priv_escalation_error_keeps_root :
    priv_escalation sample_control sample_current (some []) none
        = some (-ENOMEM, sample_control, { sample_current with cred := root_cred }) ∧
      priv_escalation (cleanup_control sample_control) sample_current (some []) (some [])
        = some (-EPERM, cleanup_control sample_control,
            { sample_current with cred := root_cred }) ∧
      sample_current.cred ≠ root_cred ∧
      priv_escalation (escalate sample_control (some []) sample_id).2 sample_current
          (some []) (some [])
        = some (-EINVAL, (escalate sample_control (some []) sample_id).2, sample_current) := by
  decide

/-! ## Hiding a process -/

/-- C25: with the registry loaded, the allocation succeeding and the parent
chain of the process finite, `hide_process pid` returns 0 and puts `pid` on
the list of hidden processes when `pid` is not negative, a process with that
pid exists and neither it nor an ancestor in its parent chain is registered;
in every other case it returns `-EINVAL` and leaves the registry as it
was. -/
theorem hide_process_exactly (c : Control) (pt : ProcessTable) (pid : Int) (n fuel : Nat)
    (junk : List Nat) (hl : c.ctrl_loaded ≠ 0)
    (hfin : ∀ t, pt.find_task pid = some t → chain_ends pt n t = true) (hfuel : n ≤ fuel) :
    ((0 ≤ pid ∧ ∃ t, pt.find_task pid = some t ∧ ¬ spec_process_hidden c pt t) →
        hide_process c pt fuel (some junk) pid
          = some (0, { c with processes := pid :: c.processes })) ∧
      (¬ (0 ≤ pid ∧ ∃ t, pt.find_task pid = some t ∧ ¬ spec_process_hidden c pt t) →
        hide_process c pt fuel (some junk) pid = some (-EINVAL, c)) := by
  have hl0 : ¬ control_loaded c = 0 := hl
  cases hf : pt.find_task pid with
  | none =>
    have hv : is_process_hidden c pt fuel pid = some (-EINVAL) := by
      simp only [is_process_hidden, hf]
    have hne : (-EINVAL : Int) ≠ 0 := by decide
    constructor
    · rintro ⟨_, t, ht, _⟩
      cases ht
    · intro _
      simp only [hide_process, if_neg hl0, hv]
      rw [if_pos (Or.inl hne)]
  | some t =>
    obtain ⟨r, hr, h01, hiff⟩ := process_walk_spec c pt n fuel t (hfin t hf) hfuel
    have hv : is_process_hidden c pt fuel pid = some r := by
      simp only [is_process_hidden, hf]
      exact hr
    constructor
    · rintro ⟨hpos, t1, ht1, hns⟩
      cases ht1
      have hr0 : r = 0 := by
        rcases h01 with h1 | h0
        · exact absurd (hiff.1 h1) hns
        · exact h0
      subst hr0
      simp only [hide_process, if_neg hl0, hv]
      rw [if_neg (by omega)]
    · intro hnot
      have hc : r ≠ 0 ∨ pid < 0 := by
        by_cases hpos : 0 ≤ pid
        · left
          intro hr0
          apply hnot
          refine ⟨hpos, t, rfl, ?_⟩
          intro hs
          have := hiff.2 hs
          omega
        · right
          omega
      simp only [hide_process, if_neg hl0, hv]
      rw [if_pos hc]

/-- C25 on the sample table with only the pid 100 registered: the pid 200
(parent 1) is added, the pid 150 (an ancestor is 100), the absent pid 300 and
the pid -5 are refused with `-EINVAL`. -/
theorem hide_process_exactly_witness :
    (((0 : Int) ≤ 200 ∧ ∃ t, sample_table.find_task 200 = some t ∧
          ¬ spec_process_hidden { sample_control with processes := [100] } sample_table t) →
        hide_process { sample_control with processes := [100] } sample_table 4 (some []) 200
          = some (0, { sample_control with processes := [200, 100] })) ∧
      hide_process { sample_control with processes := [100] } sample_table 4 (some []) 200
        = some (0, { sample_control with processes := [200, 100] }) ∧
      hide_process { sample_control with processes := [100] } sample_table 4 (some []) 150
        = some (-EINVAL, { sample_control with processes := [100] }) ∧
      hide_process { sample_control with processes := [100] } sample_table 4 (some []) 300
        = some (-EINVAL, { sample_control with processes := [100] }) ∧
      hide_process { sample_control with processes := [100] } sample_table 4 (some []) (-5)
        = some (-EINVAL, { sample_control with processes := [100] }) :=
  ⟨(hide_process_exactly { sample_control with processes := [100] } sample_table 200 4 4 []
      (by decide) (by intro t ht; cases ht; decide) (by decide)).1,
    by decide, by decide, by decide, by decide⟩

/-! ## Filtering twice -/

theorem kept_kept (hide : List Nat → Bool) (R : List (List Nat)) :
    kept hide (kept hide R) = kept hide R := by
  simp [kept, List.filter_filter]

theorem kept_all_visible (hide : List Nat → Bool) (R : List (List Nat)) :
    ∀ r ∈ kept hide R, hide (record_name r) = false := by
  intro r hr
  have := (List.mem_filter.1 hr).2
  simpa using this

theorem kept_length_le (hide : List Nat → Bool) (R : List (List Nat)) :
    (kept hide R).length ≤ R.length :=
  List.length_filter_le _ _

theorem kept_flatten_length_le (hide : List Nat → Bool) (R : List (List Nat)) :
    (kept hide R).flatten.length ≤ R.flatten.length := by
  induction R with
  | nil => simp [kept]
  | cons r R1 ih =>
    unfold kept at ih ⊢
    cases hh : hide (record_name r) <;>
      simp only [List.filter_cons, hh, Bool.not_true, Bool.not_false, if_true,
        Bool.false_eq_true, if_false, List.flatten_cons, List.length_append] <;> omega

/-- C26: on a buffer of well-formed records, with the decision a fixed
function of the record name, the filtering loop run again on its own output
(the buffer the first run left, the corrected length as the reported
length) returns that same length and leaves every byte of the buffer as it
is. -/
theorem filtering_idempotent (original : Nat → List Nat → Nat → Int × List Nat)
    (hide : List Nat → Bool) (fd : Nat) (mem : List Nat) (count : Nat)
    (recs : List (List Nat)) (slack : List Nat) (fuel : Nat)
    (hwf : ∀ r ∈ recs, wf_record r)
    (horig : original fd mem count = ((recs.flatten.length : Int), recs.flatten ++ slack))
    (hint : recs.flatten.length < 2147483648)
    (hfuel : recs.length ≤ fuel) :
    ∃ s1 s2, getdents_body original hide fuel fd mem count = some s1 ∧
      filter_loop hide fuel
        { mem := s1.mem, dirp := 0, tlen := toInt32 s1.retv, len := 0, retv := s1.retv,
          evaluated := [] } = some s2 ∧
      s2.retv = s1.retv ∧ s2.mem = s1.mem := by
  obtain ⟨s1, T1, h1, h2, _, h4, _, _⟩ :=
    getdents_body_spec original hide fd mem count recs slack fuel hwf horig hint hfuel
  have hle := kept_flatten_length_le hide recs
  have h32 : toInt32 s1.retv = ((kept hide recs).flatten.length : Int) := by
    rw [h4]
    exact toInt32_of_range _ (by omega) (by omega)
  obtain ⟨s2, T2, g1, _, _, g4, _, _, g7⟩ := filter_loop_spec hide (kept hide recs) fuel
    { mem := s1.mem, dirp := 0, tlen := ((kept hide recs).flatten.length : Int), len := 0,
      retv := s1.retv, evaluated := [] }
    [] T1 (kept_wf hide recs hwf) (le_trans (kept_length_le hide recs) hfuel)
    (by simpa using h2) (fun _ => rfl) rfl
  refine ⟨s1, s2, h1, ?_, ?_, g7 (kept_all_visible hide recs)⟩
  · rw [h32]
    exact g1
  · rw [g4, kept_kept]
    simp

/-- C26 on a buffer of three records of which the one named `b` is hidden. -/
theorem filtering_idempotent_witness :
    ∃ s1 s2, getdents_body
        (fun _ _ _ => ((([sample_record [97] 24, sample_record [98] 32,
            sample_record [99] 24].flatten.length : Nat) : Int),
          [sample_record [97] 24, sample_record [98] 32, sample_record [99] 24].flatten
            ++ [5, 5])) (fun name => name == [98]) 3 0 [] 82 = some s1 ∧
      filter_loop (fun name => name == [98]) 3
        { mem := s1.mem, dirp := 0, tlen := toInt32 s1.retv, len := 0, retv := s1.retv,
          evaluated := [] } = some s2 ∧
      s2.retv = s1.retv ∧ s2.mem = s1.mem :=
  filtering_idempotent _ (fun name => name == [98]) 0 [] 82
    [sample_record [97] 24, sample_record [98] 32, sample_record [99] 24] [5, 5] 3
    (by decide) (by rfl) (by decide) (by decide)

/-! ## The passes of the filtering loop -/

theorem getdents_body_eq_loop (original : Nat → List Nat → Nat → Int × List Nat)
    (hide : List Nat → Bool) (fuel fd : Nat) (mem : List Nat) (count : Nat) :
    getdents_body original hide fuel fd mem count
      = filter_loop hide fuel (loop_entry (original fd mem count)) :=
  rfl

theorem loop_iter_succ (hide : List Nat → Bool) :
    ∀ (k : Nat) (s : LoopState), loop_iter hide (k + 1) s
      = (loop_iter hide k s).bind
          (fun s1 => if s1.tlen > 0 then loop_body hide s1 else none) := by
  intro k
  induction k with
  | zero =>
    intro s
    by_cases hp : s.tlen > 0
    · cases hb : loop_body hide s <;> simp [loop_iter, hp, hb]
    · simp [loop_iter, hp]
  | succ k ih =>
    intro s
    by_cases hp : s.tlen > 0
    · cases hb : loop_body hide s with
      | none => simp [loop_iter, hp, hb]
      | some s1 =>
        have e1 : loop_iter hide (k + 1 + 1) s = loop_iter hide (k + 1) s1 := by
          simp only [loop_iter, hp, if_true, hb]
        have e2 : loop_iter hide (k + 1) s = loop_iter hide k s1 := by
          simp only [loop_iter, hp, if_true, hb]
        rw [e1, e2]
        exact ih s1
    · have e1 : loop_iter hide (k + 1 + 1) s = none := by
        simp only [loop_iter, hp, if_false]
      have e2 : loop_iter hide (k + 1) s = none := by
        simp only [loop_iter, hp, if_false]
      rw [e1, e2]
      rfl

theorem filter_loop_of_iter (hide : List Nat → Bool) :
    ∀ (k fuel : Nat) (s s1 : LoopState), loop_iter hide k s = some s1 → s1.tlen ≤ 0 →
      k ≤ fuel → filter_loop hide fuel s = some s1 := by
  intro k
  induction k with
  | zero =>
    intro fuel s s1 h hz _
    simp only [loop_iter, Option.some.injEq] at h
    subst h
    exact filter_loop_done hide fuel s hz
  | succ k ih =>
    intro fuel s s1 h hz hf
    obtain ⟨f, rfl⟩ : ∃ f, fuel = f + 1 := ⟨fuel - 1, by omega⟩
    by_cases hp : s.tlen > 0
    · cases hb : loop_body hide s with
      | none => simp [loop_iter, hp, hb] at h
      | some s2 =>
        simp only [loop_iter, hp, if_true, hb] at h
        simp only [filter_loop, hp, if_true, hb]
        exact ih f s2 s1 h hz (by omega)
    · simp [loop_iter, hp] at h

/-- The state after `k` passes on a buffer that holds, from the cursor on,
the well-formed records `R`: the visible ones of the first `k` records lie
after `K`, the other records follow them untouched, the cursor is behind the
visible records while a record is left and stays where the last pass found
it at the end. -/
theorem loop_iter_spec (hide : List Nat → Bool) :
    ∀ (k : Nat) (R : List (List Nat)) (s : LoopState) (K T : List Nat),
      (∀ r ∈ R, wf_record r) → k ≤ R.length →
      s.mem = K ++ (R.flatten ++ T) → (R ≠ [] → s.dirp = K.length) →
      s.tlen = (R.flatten.length : Int) →
      ∃ s1 T1, loop_iter hide k s = some s1 ∧
        s1.mem = K ++ ((kept hide (R.take k)).flatten ++ ((R.drop k).flatten ++ T1)) ∧
        s1.mem.length = s.mem.length ∧
        (R.drop k ≠ [] → s1.dirp = K.length + (kept hide (R.take k)).flatten.length) ∧
        (k = R.length → R ≠ [] →
          s1.dirp = K.length + (kept hide R.dropLast).flatten.length) ∧
        s1.tlen = ((R.drop k).flatten.length : Int) ∧
        s1.retv = s.retv - (((R.take k).flatten.length : Int)
          - ((kept hide (R.take k)).flatten.length : Int)) ∧
        s1.evaluated = s.evaluated ++ (R.take k).map record_name := by
  intro k
  induction k with
  | zero =>
    intro R s K T _ _ hmem hdirp htlen
    refine ⟨s, T, rfl, ?_, rfl, ?_, ?_, ?_, ?_, ?_⟩
    · simpa [kept] using hmem
    · intro hne
      rw [hdirp (by simpa using hne)]
      simp [kept]
    · intro h0 hne
      exact absurd (List.length_eq_zero.1 h0.symm) hne
    · simpa using htlen
    · simp [kept]
    · simp
  | succ k ih =>
    intro R s K T hwf hk hmem hdirp htlen
    cases R with
    | nil => simp at hk
    | cons r R1 =>
      have hr : wf_record r := hwf r (List.mem_cons_self _ _)
      have hwf1 : ∀ x ∈ R1, wf_record x := fun x hx => hwf x (List.mem_cons_of_mem _ hx)
      have hl := wf_record_length hr
      have hk1 : k ≤ R1.length := by simp at hk; omega
      have hd : s.dirp = K.length := hdirp (by simp)
      rw [List.flatten_cons, List.append_assoc] at hmem
      rw [List.flatten_cons, List.length_append, Nat.cast_add] at htlen
      have hpos : s.tlen > 0 := by omega
      have hdl : R1 ≠ [] → (r :: R1).dropLast = r :: R1.dropLast := by
        intro hne
        obtain ⟨x, R2, rfl⟩ := List.exists_cons_of_ne_nil hne
        rfl
      cases hh : hide (record_name r) with
      | true =>
        have hb := loop_body_hide hide s K r R1.flatten T hr hmem hd htlen hh
        obtain ⟨s1, T1, h1, h2, h3, h4, h5, h6, h7, h8⟩ := ih R1
          { mem := K ++ (R1.flatten ++ (r ++ (R1.flatten ++ T)).drop R1.flatten.length),
            dirp := K.length, tlen := (R1.flatten.length : Int), len := (r.length : Int),
            retv := s.retv - (r.length : Int),
            evaluated := s.evaluated ++ [record_name r] }
          K ((r ++ (R1.flatten ++ T)).drop R1.flatten.length) hwf1 hk1 rfl (fun _ => rfl) rfl
        have hkt : kept hide (r :: List.take k R1) = kept hide (List.take k R1) := by
          simp [kept, hh]
        refine ⟨s1, T1, ?_, ?_, ?_, ?_, ?_, ?_, ?_, ?_⟩
        · simp only [loop_iter, hpos, if_true, hb]
          exact h1
        · rw [List.take_succ_cons, List.drop_succ_cons, hkt]
          exact h2
        · rw [h3, hmem]
          simp only [List.length_append, List.length_drop]
          omega
        · rw [List.take_succ_cons, List.drop_succ_cons, hkt]
          exact h4
        · intro hkn _
          have hkn1 : k = R1.length := by simpa using hkn
          by_cases hne : R1 = []
          · subst hne
            have hk0 : k = 0 := by simpa using hkn1
            subst hk0
            simp only [loop_iter, Option.some.injEq] at h1
            rw [← h1]
            simp [kept]
          · rw [hdl hne]
            have := h5 hkn1 hne
            rw [this]
            simp [kept, hh]
        · rw [List.drop_succ_cons]
          exact h6
        · rw [h7, List.take_succ_cons, hkt]
          simp only [List.flatten_cons, List.length_append, Nat.cast_add]
          omega
        · rw [h8, List.take_succ_cons]
          simp
      | false =>
        have hb := loop_body_keep hide s K r R1.flatten T hr hmem hd htlen hh
        have hmem2 : s.mem = (K ++ r) ++ (R1.flatten ++ T) := by
          rw [hmem, List.append_assoc]
        obtain ⟨s1, T1, h1, h2, h3, h4, h5, h6, h7, h8⟩ := ih R1
          { mem := s.mem,
            dirp := if R1.flatten.length ≠ 0 then K.length + r.length else K.length,
            tlen := (R1.flatten.length : Int), len := (r.length : Int), retv := s.retv,
            evaluated := s.evaluated ++ [record_name r] }
          (K ++ r) T hwf1 hk1 hmem2
          (fun hne => by
            have hne2 : R1.flatten.length ≠ 0 :=
              fun h0 => hne (flatten_eq_nil_of_wf R1 hwf1 h0)
            show (if R1.flatten.length ≠ 0 then K.length + r.length else K.length)
              = (K ++ r).length
            rw [if_pos hne2, List.length_append])
          rfl
        have hkt : kept hide (r :: List.take k R1) = r :: kept hide (List.take k R1) := by
          simp [kept, hh]
        refine ⟨s1, T1, ?_, ?_, h3, ?_, ?_, ?_, ?_, ?_⟩
        · simp only [loop_iter, hpos, if_true, hb]
          exact h1
        · rw [List.take_succ_cons, List.drop_succ_cons, hkt, h2]
          simp
        · rw [List.take_succ_cons, List.drop_succ_cons, hkt]
          intro hne
          rw [h4 hne]
          simp only [List.flatten_cons, List.length_append]
          omega
        · intro hkn _
          have hkn1 : k = R1.length := by simpa using hkn
          by_cases hne : R1 = []
          · subst hne
            have hk0 : k = 0 := by simpa using hkn1
            subst hk0
            simp only [loop_iter, Option.some.injEq] at h1
            rw [← h1]
            simp [kept]
          · rw [hdl hne]
            have := h5 hkn1 hne
            rw [this]
            simp only [kept, List.filter_cons, hh, Bool.not_false, if_true, List.flatten_cons,
              List.length_append]
            omega
        · rw [List.drop_succ_cons]
          exact h6
        · rw [h7, List.take_succ_cons, hkt]
          simp only [List.flatten_cons, List.length_append, Nat.cast_add]
          omega
        · rw [h8, List.take_succ_cons]
          simp

theorem loop_entry_of_range (n : Nat) (mem : List Nat) (hint : n < 2147483648) :
    loop_entry ((n : Int), mem)
      = { mem := mem, dirp := 0, tlen := (n : Int), len := 0, retv := (n : Int),
          evaluated := [] } := by
  have h32 : toInt32 (n : Int) = (n : Int) := toInt32_of_range _ (by omega) (by omega)
  simp only [loop_entry, h32]

theorem flatten_split_at (recs : List (List Nat)) (k : Nat) (r : List Nat)
    (hr : recs.drop k = r :: recs.drop (k + 1)) :
    recs.flatten.length
      = (recs.take k).flatten.length + r.length + (recs.drop (k + 1)).flatten.length := by
  conv_lhs => rw [← List.take_append_drop k recs, hr]
  simp only [List.flatten_append, List.flatten_cons, List.length_append]
  omega

/-- The state at the pass `k + 1` of the loop on a buffer of well-formed
records: the visible ones of the first `k` records, the record `k` at the
cursor, the records after it. -/
theorem loop_iter_at (hide : List Nat → Bool) (recs : List (List Nat)) (slack : List Nat)
    (k : Nat) (hwf : ∀ r ∈ recs, wf_record r) (hint : recs.flatten.length < 2147483648)
    (hk : k < recs.length) :
    ∃ s r T1, loop_iter hide k (loop_entry ((recs.flatten.length : Int), recs.flatten ++ slack))
        = some s ∧
      recs.drop k = r :: recs.drop (k + 1) ∧ wf_record r ∧
      s.mem = (kept hide (recs.take k)).flatten ++ (r ++ ((recs.drop (k + 1)).flatten ++ T1)) ∧
      s.dirp = (kept hide (recs.take k)).flatten.length ∧
      s.tlen = (r.length : Int) + ((recs.drop (k + 1)).flatten.length : Int) ∧
      s.retv = ((kept hide (recs.take k)).flatten.length : Int) + (r.length : Int)
        + ((recs.drop (k + 1)).flatten.length : Int) ∧
      s.mem.length = (recs.flatten ++ slack).length ∧
      s.evaluated = (recs.take k).map record_name := by
  rw [loop_entry_of_range _ _ hint]
  obtain ⟨s, T1, h1, h2, h3, h4, _, h6, h7, h8⟩ := loop_iter_spec hide k recs
    { mem := recs.flatten ++ slack, dirp := 0, tlen := (recs.flatten.length : Int), len := 0,
      retv := (recs.flatten.length : Int), evaluated := [] }
    [] slack hwf (le_of_lt hk) rfl (fun _ => rfl) rfl
  have hd : recs.drop k = recs[k] :: recs.drop (k + 1) := List.drop_eq_getElem_cons hk
  have hsplit := flatten_split_at recs k recs[k] hd
  have hmem : recs[k] ∈ recs := List.getElem_mem hk
  rw [hd] at h2 h4 h6
  refine ⟨s, recs[k], T1, h1, hd, hwf _ hmem, ?_, ?_, ?_, ?_, h3, ?_⟩
  · rw [h2]
    simp only [List.nil_append, List.flatten_cons, List.append_assoc]
  · have := h4 (List.cons_ne_nil _ _)
    simpa only [List.length_nil, Nat.zero_add] using this
  · rw [h6]
    simp only [List.flatten_cons, List.length_append, Nat.cast_add]
  · rw [h7]
    show (recs.flatten.length : Int) - _ = _
    omega
  · rw [h8]
    rfl

theorem getElem?_of_drop (recs : List (List Nat)) (k : Nat) (r : List Nat)
    (hd : recs.drop k = r :: recs.drop (k + 1)) : recs[k]? = some r := by
  rw [← List.head?_drop, hd]
  rfl

theorem take_flatten_le (hide : List Nat → Bool) (recs : List (List Nat)) (k : Nat)
    (r : List Nat) (hd : recs.drop k = r :: recs.drop (k + 1)) :
    (kept hide (recs.take k)).flatten.length + r.length + (recs.drop (k + 1)).flatten.length
      ≤ recs.flatten.length := by
  have h1 := flatten_split_at recs k r hd
  have h2 := kept_flatten_length_le hide (recs.take k)
  omega

/-- C22: on a buffer of well-formed records, at every pass of the loop of
`manipulated_getdents` (the pass `k + 1` for every `k` below the number of
records) the cursor stands behind the whole records kept so far, at the
start of the record `k`, inside the region the original call returned;
the byte count `tlen` left after that record is not negative; cursor plus
record length plus `tlen` is the current corrected length `retv`, which is
at most the returned length; and the `memmove` of a hidden record moves the
whole records that follow it, reading and writing only below the returned
length. -/
theorem loop_invariant (hide : List Nat → Bool) (recs : List (List Nat)) (slack : List Nat)
    (k : Nat) (hwf : ∀ r ∈ recs, wf_record r) (hint : recs.flatten.length < 2147483648)
    (hk : k < recs.length) :
    ∃ s r, loop_iter hide k (loop_entry ((recs.flatten.length : Int), recs.flatten ++ slack))
        = some s ∧
      recs[k]? = some r ∧ 0 < s.tlen ∧
      d_reclen s.mem s.dirp = some r.length ∧
      s.mem.take s.dirp = (kept hide (recs.take k)).flatten ∧
      (s.mem.drop s.dirp).take r.length = r ∧
      s.dirp + r.length ≤ recs.flatten.length ∧
      0 ≤ s.tlen - (r.length : Int) ∧
      (s.dirp : Int) + (r.length : Int) + (s.tlen - (r.length : Int)) = s.retv ∧
      s.retv ≤ (recs.flatten.length : Int) ∧
      (s.mem.drop (s.dirp + r.length)).take (s.tlen - (r.length : Int)).toNat
        = (recs.drop (k + 1)).flatten ∧
      s.dirp + r.length + (s.tlen - (r.length : Int)).toNat ≤ recs.flatten.length ∧
      (memmove s.mem s.dirp (s.dirp + r.length) (s.tlen - (r.length : Int))).isSome
        = true := by
  obtain ⟨s, r, T1, h1, hd, hr, hmem, hdirp, htlen, hretv, hlen, _⟩ :=
    loop_iter_at hide recs slack k hwf hint hk
  have hl := wf_record_length hr
  have hle := take_flatten_le hide recs k r hd
  have ht : (s.tlen - (r.length : Int)).toNat = (recs.drop (k + 1)).flatten.length := by
    rw [htlen]
    omega
  have hmm := memmove_at (kept hide (recs.take k)).flatten r (recs.drop (k + 1)).flatten T1
  refine ⟨s, r, h1, getElem?_of_drop recs k r hd, by omega, ?_, ?_, ?_, by omega, by omega,
    by omega, by omega, ?_, by omega, ?_⟩
  · rw [hmem, hdirp]
    exact d_reclen_at hr _ _
  · rw [hmem, hdirp, List.take_left]
  · rw [hmem, hdirp, List.drop_left, List.take_left]
  · rw [ht, hmem, hdirp, ← List.append_assoc, ← List.length_append, List.drop_left,
      List.take_left]
  · have e : s.tlen - (r.length : Int) = ((recs.drop (k + 1)).flatten.length : Int) := by
      omega
    rw [e, hmem, hdirp, hmm]
    rfl

/-- C22 on a buffer of three records of which the one named `b` is hidden,
at the third pass. -/
theorem loop_invariant_witness :
    ∃ s r, loop_iter (fun name => name == [98]) 2
        (loop_entry ((([sample_record [97] 24, sample_record [98] 32,
            sample_record [99] 24].flatten.length : Nat) : Int),
          [sample_record [97] 24, sample_record [98] 32, sample_record [99] 24].flatten
            ++ [5, 5])) = some s ∧
      [sample_record [97] 24, sample_record [98] 32, sample_record [99] 24][2]? = some r ∧
      0 < s.tlen ∧
      d_reclen s.mem s.dirp = some r.length ∧
      s.mem.take s.dirp = (kept (fun name => name == [98])
        ([sample_record [97] 24, sample_record [98] 32,
          sample_record [99] 24].take 2)).flatten ∧
      (s.mem.drop s.dirp).take r.length = r ∧
      s.dirp + r.length ≤ [sample_record [97] 24, sample_record [98] 32,
        sample_record [99] 24].flatten.length ∧
      0 ≤ s.tlen - (r.length : Int) ∧
      (s.dirp : Int) + (r.length : Int) + (s.tlen - (r.length : Int)) = s.retv ∧
      s.retv ≤ (([sample_record [97] 24, sample_record [98] 32,
        sample_record [99] 24].flatten.length : Nat) : Int) ∧
      (s.mem.drop (s.dirp + r.length)).take (s.tlen - (r.length : Int)).toNat
        = ([sample_record [97] 24, sample_record [98] 32,
          sample_record [99] 24].drop (2 + 1)).flatten ∧
      s.dirp + r.length + (s.tlen - (r.length : Int)).toNat
        ≤ [sample_record [97] 24, sample_record [98] 32,
          sample_record [99] 24].flatten.length ∧
      (memmove s.mem s.dirp (s.dirp + r.length) (s.tlen - (r.length : Int))).isSome
        = true :=
  loop_invariant (fun name => name == [98])
    [sample_record [97] 24, sample_record [98] 32, sample_record [99] 24] [5, 5] 2
    (by decide) (by decide) (by decide)

theorem kept_snoc (hide : List Nat → Bool) (R : List (List Nat)) (last : List Nat) :
    kept hide (R ++ [last])
      = kept hide R ++ (if hide (record_name last) = true then [] else [last]) := by
  cases hh : hide (record_name last) <;> simp [kept, List.filter_append, hh]

/-- C23 fails when the last record is hidden: on the two records `a`, `b`
with `b` hidden the loop ends with the cursor at 24, which is the corrected
length itself; the last kept record `a` is 24 bytes long, so cursor plus
last kept record is 48. -/
theorem filter_loop_exit_after_hidden_last :
    (∀ r ∈ [sample_record [97] 24, sample_record [98] 32], wf_record r) ∧
      (filter_loop (fun name => name == [98]) 2
        (loop_entry ((([sample_record [97] 24, sample_record [98] 32].flatten.length : Nat)
            : Int),
          [sample_record [97] 24, sample_record [98] 32].flatten))).map
        (fun s => (s.dirp, s.retv)) = some (24, 24) ∧
      (kept (fun name => name == [98])
        [sample_record [97] 24, sample_record [98] 32]).getLast?
        = some (sample_record [97] 24) ∧
      (sample_record [97] 24).length = 24 := by
  decide

/-- C23, amended: on a buffer of `n` well-formed records the loop of
`manipulated_getdents` ends after exactly `n` passes (the loop test holds
before each of the first `n` passes and fails after them), evaluates the
decision once for each record, in order, and leaves `retv` the length of
the visible records; at the end the cursor plus the length of the last
record is `retv` when that record was kept, and the cursor itself is `retv`
when it was hidden. -/
theorem filter_loop_passes (hide : List Nat → Bool) (recs : List (List Nat))
    (slack : List Nat) (fuel : Nat) (hwf : ∀ r ∈ recs, wf_record r)
    (hint : recs.flatten.length < 2147483648) (hfuel : recs.length ≤ fuel) :
    ∃ s, loop_iter hide recs.length
        (loop_entry ((recs.flatten.length : Int), recs.flatten ++ slack)) = some s ∧
      s.tlen = 0 ∧
      filter_loop hide fuel (loop_entry ((recs.flatten.length : Int), recs.flatten ++ slack))
        = some s ∧
      (∀ k, k < recs.length → ∃ sk, loop_iter hide k
          (loop_entry ((recs.flatten.length : Int), recs.flatten ++ slack)) = some sk ∧
        0 < sk.tlen) ∧
      s.evaluated = recs.map record_name ∧
      s.retv = ((kept hide recs).flatten.length : Int) ∧
      (∀ last, recs.getLast? = some last →
        (hide (record_name last) = false → (s.dirp : Int) + (last.length : Int) = s.retv) ∧
        (hide (record_name last) = true → (s.dirp : Int) = s.retv)) := by
  have hat := loop_iter_at hide recs slack
  rw [loop_entry_of_range _ _ hint] at hat ⊢
  obtain ⟨s, T1, h1, _, _, _, h5, h6, h7, h8⟩ := loop_iter_spec hide recs.length recs
    { mem := recs.flatten ++ slack, dirp := 0, tlen := (recs.flatten.length : Int), len := 0,
      retv := (recs.flatten.length : Int), evaluated := [] }
    [] slack hwf (le_refl _) rfl (fun _ => rfl) rfl
  rw [List.drop_length] at h6
  rw [List.take_length] at h7 h8
  have htl : s.tlen = 0 := by simpa using h6
  have hretv : s.retv = ((kept hide recs).flatten.length : Int) := by
    rw [h7]
    show (recs.flatten.length : Int) - _ = _
    omega
  refine ⟨s, h1, htl, filter_loop_of_iter hide recs.length fuel _ s h1 (by omega) hfuel, ?_,
    ?_, hretv, ?_⟩
  · intro k hk
    obtain ⟨sk, r, _, g1, _, g3, _, _, g6, _⟩ := hat k hwf hint hk
    have hl := wf_record_length g3
    exact ⟨sk, g1, by omega⟩
  · rw [h8]
    rfl
  · intro last hlast
    have hne : recs ≠ [] := by
      intro h0
      rw [h0] at hlast
      cases hlast
    have hsplit : recs.dropLast ++ [last] = recs :=
      List.dropLast_append_getLast? last (by rw [hlast]; rfl)
    have hd := h5 rfl hne
    have hk := kept_snoc hide recs.dropLast last
    rw [hsplit] at hk
    rw [hretv, hk, hd]
    constructor
    · intro hh
      rw [hh]
      simp
    · intro hh
      rw [hh]
      simp

/-- C23 amended, on three records of which the one named `b` is hidden. -/
theorem filter_loop_passes_witness :
    ∃ s, loop_iter (fun name => name == [98])
        [sample_record [97] 24, sample_record [98] 32, sample_record [99] 24].length
        (loop_entry ((([sample_record [97] 24, sample_record [98] 32,
            sample_record [99] 24].flatten.length : Nat) : Int),
          [sample_record [97] 24, sample_record [98] 32, sample_record [99] 24].flatten
            ++ [5, 5])) = some s ∧
      s.tlen = 0 ∧
      filter_loop (fun name => name == [98]) 3
        (loop_entry ((([sample_record [97] 24, sample_record [98] 32,
            sample_record [99] 24].flatten.length : Nat) : Int),
          [sample_record [97] 24, sample_record [98] 32, sample_record [99] 24].flatten
            ++ [5, 5])) = some s ∧
      (∀ k, k < [sample_record [97] 24, sample_record [98] 32,
          sample_record [99] 24].length →
        ∃ sk, loop_iter (fun name => name == [98]) k
          (loop_entry ((([sample_record [97] 24, sample_record [98] 32,
              sample_record [99] 24].flatten.length : Nat) : Int),
            [sample_record [97] 24, sample_record [98] 32, sample_record [99] 24].flatten
              ++ [5, 5])) = some sk ∧
        0 < sk.tlen) ∧
      s.evaluated = [sample_record [97] 24, sample_record [98] 32,
        sample_record [99] 24].map record_name ∧
      s.retv = (((kept (fun name => name == [98]) [sample_record [97] 24,
        sample_record [98] 32, sample_record [99] 24]).flatten.length : Nat) : Int) ∧
      (∀ last, [sample_record [97] 24, sample_record [98] 32,
          sample_record [99] 24].getLast? = some last →
        ((fun name => name == [98]) (record_name last) = false →
          (s.dirp : Int) + (last.length : Int) = s.retv) ∧
        ((fun name => name == [98]) (record_name last) = true → (s.dirp : Int) = s.retv)) :=
  filter_loop_passes (fun name => name == [98])
    [sample_record [97] 24, sample_record [98] 32, sample_record [99] 24] [5, 5] 3
    (by decide) (by decide) (by decide)

/-! ## What the shift overwrites -/

theorem getElem?_after (K X : List Nat) (j : Nat) : (K ++ X)[K.length + j]? = X[j]? := by
  rw [List.getElem?_append_right (Nat.le_add_right _ _), Nat.add_sub_cancel_left]

theorem shift_getElem (K r Rf T : List Nat) :
    (∀ j, j < Rf.length →
        (K ++ (Rf ++ (r ++ (Rf ++ T)).drop Rf.length))[K.length + j]?
          = (K ++ (r ++ (Rf ++ T)))[K.length + r.length + j]?) ∧
      (∀ j, Rf.length ≤ j →
        (K ++ (Rf ++ (r ++ (Rf ++ T)).drop Rf.length))[K.length + j]?
          = (K ++ (r ++ (Rf ++ T)))[K.length + j]?) := by
  constructor
  · intro j hj
    rw [Nat.add_assoc, getElem?_after, getElem?_after, getElem?_after,
      List.getElem?_append_left hj, List.getElem?_append_left hj]
  · intro j hj
    obtain ⟨d, rfl⟩ : ∃ d, j = Rf.length + d := ⟨j - Rf.length, by omega⟩
    rw [getElem?_after, getElem?_after, getElem?_after, List.getElem?_drop]

/-- C24 fails at a hidden last record: on the two records `a`, `b` with `b`
hidden the shift for `b` moves 0 bytes, and after the loop the 32 bytes of
the slot of `b`, from the offset 24 on, still hold the record `b`. -/
theorem hidden_last_record_stays :
    (∀ r ∈ [sample_record [97] 24, sample_record [98] 32], wf_record r) ∧
      (fun name => name == [98]) (record_name (sample_record [98] 32)) = true ∧
      (filter_loop (fun name => name == [98]) 2
        (loop_entry ((([sample_record [97] 24, sample_record [98] 32].flatten.length : Nat)
            : Int),
          [sample_record [97] 24, sample_record [98] 32].flatten))).map
        (fun s => (s.retv, (s.mem.drop 24).take 32)) = some (24, sample_record [98] 32) := by
  decide

/-- C24, amended: on a buffer of well-formed records, the pass that hides
the record `k` copies the `tlen` bytes that follow the record to the start
of its slot and changes no other byte of the buffer: the byte `j` of the
slot is overwritten (by the byte `d_reclen` further on) when `j < tlen`,
every byte from `tlen` on, counted from the start of the slot, stays as it
was, every byte before the slot stays as it was, and the buffer keeps its
length.  So the slot is overwritten as a whole only when at least `d_reclen`
bytes follow the record, and not at all when the record is the last one.
The pass leaves the cursor where it is and lowers `retv` by `d_reclen`. -/
theorem hidden_slot_after_shift (hide : List Nat → Bool) (recs : List (List Nat))
    (slack : List Nat) (k : Nat) (r : List Nat) (hwf : ∀ x ∈ recs, wf_record x)
    (hint : recs.flatten.length < 2147483648) (hr : recs[k]? = some r)
    (hh : hide (record_name r) = true) :
    ∃ s s1, loop_iter hide k (loop_entry ((recs.flatten.length : Int), recs.flatten ++ slack))
        = some s ∧
      loop_iter hide (k + 1) (loop_entry ((recs.flatten.length : Int), recs.flatten ++ slack))
        = some s1 ∧
      (s.mem.drop s.dirp).take r.length = r ∧
      s.tlen - (r.length : Int) = ((recs.drop (k + 1)).flatten.length : Int) ∧
      (∀ j, j < (recs.drop (k + 1)).flatten.length →
        s1.mem[s.dirp + j]? = s.mem[s.dirp + r.length + j]?) ∧
      (∀ j, (recs.drop (k + 1)).flatten.length ≤ j →
        s1.mem[s.dirp + j]? = s.mem[s.dirp + j]?) ∧
      (∀ i, i < s.dirp → s1.mem[i]? = s.mem[i]?) ∧
      s1.mem.length = s.mem.length ∧
      s1.dirp = s.dirp ∧
      s1.retv = s.retv - (r.length : Int) := by
  have hk : k < recs.length := by
    by_contra hge
    rw [List.getElem?_eq_none (by omega)] at hr
    cases hr
  obtain ⟨s, r1, T1, h1, hd, hr1, hmem, hdirp, htlen, _⟩ :=
    loop_iter_at hide recs slack k hwf hint hk
  have hrr : r1 = r := by
    have := getElem?_of_drop recs k r1 hd
    rw [hr] at this
    exact (Option.some.inj this).symm
  subst hrr
  have hl := wf_record_length hr1
  have hb := loop_body_hide hide s _ r1 (recs.drop (k + 1)).flatten T1 hr1 hmem hdirp htlen hh
  have hpos : s.tlen > 0 := by omega
  have hs := shift_getElem (kept hide (recs.take k)).flatten r1 (recs.drop (k + 1)).flatten T1
  have hnext : loop_iter hide (k + 1)
      (loop_entry ((recs.flatten.length : Int), recs.flatten ++ slack))
      = loop_body hide s := by
    rw [loop_iter_succ, h1]
    show (if s.tlen > 0 then loop_body hide s else none) = loop_body hide s
    rw [if_pos hpos]
  rw [hb] at hnext
  refine ⟨s, _, h1, hnext, ?_, by omega, ?_, ?_, ?_, ?_, hdirp.symm, rfl⟩
  · rw [hmem, hdirp, List.drop_left, List.take_left]
  · intro j hj
    rw [hmem, hdirp]
    exact hs.1 j hj
  · intro j hj
    rw [hmem, hdirp]
    exact hs.2 j hj
  · intro i hi
    rw [hdirp] at hi
    rw [hmem]
    show ((kept hide (recs.take k)).flatten ++ _)[i]? = _
    rw [List.getElem?_append_left hi, List.getElem?_append_left hi]
  · rw [hmem]
    show ((kept hide (recs.take k)).flatten ++ _).length = _
    simp only [List.length_append, List.length_drop]
    omega

/-- C24 amended, on the records `a`, `b`, `c` with `b` hidden: the 24 bytes
of `c` land on the first 24 bytes of the 32-byte slot of `b`, its last 8
bytes stay. -/
theorem hidden_slot_after_shift_witness :
    ∃ s s1, loop_iter (fun name => name == [98]) 1
        (loop_entry ((([sample_record [97] 24, sample_record [98] 32,
            sample_record [99] 24].flatten.length : Nat) : Int),
          [sample_record [97] 24, sample_record [98] 32, sample_record [99] 24].flatten
            ++ [5, 5])) = some s ∧
      loop_iter (fun name => name == [98]) (1 + 1)
        (loop_entry ((([sample_record [97] 24, sample_record [98] 32,
            sample_record [99] 24].flatten.length : Nat) : Int),
          [sample_record [97] 24, sample_record [98] 32, sample_record [99] 24].flatten
            ++ [5, 5])) = some s1 ∧
      (s.mem.drop s.dirp).take (sample_record [98] 32).length = sample_record [98] 32 ∧
      s.tlen - ((sample_record [98] 32).length : Int)
        = ((([sample_record [97] 24, sample_record [98] 32,
          sample_record [99] 24].drop (1 + 1)).flatten.length : Nat) : Int) ∧
      (∀ j, j < ([sample_record [97] 24, sample_record [98] 32,
          sample_record [99] 24].drop (1 + 1)).flatten.length →
        s1.mem[s.dirp + j]? = s.mem[s.dirp + (sample_record [98] 32).length + j]?) ∧
      (∀ j, ([sample_record [97] 24, sample_record [98] 32,
          sample_record [99] 24].drop (1 + 1)).flatten.length ≤ j →
        s1.mem[s.dirp + j]? = s.mem[s.dirp + j]?) ∧
      (∀ i, i < s.dirp → s1.mem[i]? = s.mem[i]?) ∧
      s1.mem.length = s.mem.length ∧
      s1.dirp = s.dirp ∧
      s1.retv = s.retv - ((sample_record [98] 32).length : Int) :=
  hidden_slot_after_shift (fun name => name == [98])
    [sample_record [97] 24, sample_record [98] 32, sample_record [99] 24] [5, 5] 1
    (sample_record [98] 32) (by decide) (by decide) (by rfl) (by decide)

end Rootkit
